import Mathlib

/-! # ALAC frame decoder (`src/decoders/alac.c`)

A shallow embedding of the decoder of `alac.c` and theorems about it.

Conventions of the embedding:

* a C `int` / `int32_t` value is an `Int`; every arithmetic result that C
  stores in such a variable goes through `wrap32` (two's complement
  wrap-around), a 64-bit one through `wrap64`;
* `x >> n` is the arithmetic shift `shr x n` and `x << n` is `shl x n`;
* a function that can fail returns `Except Failure`; besides the two kinds of
  Python exception that `alac.c` raises, a run can leave the behaviour that
  C defines (`Failure.undefined`: a read past the end of an integer buffer)
  or never come back from `LOG2` (`Failure.diverges`);
* loops are recursive functions over the number of iterations left.
-/

namespace ALAC

/-! ## Failures -/

/-- The four `ValueError` messages that `alac.c` sets. -/
inductive ValueErrorKind
  /-- The text is "frame header's channel count does not match file's channel count". -/
  | channel_count
  /-- The text is "unsupported prediction type". -/
  | prediction_type
  /-- The text is "coefficient count must be greater than 0". -/
  | coefficient_count
  /-- The text is "invalid signature at end of frame". -/
  | signature
  deriving DecidableEq, Repr

/-- Ways in which a call does not produce its result. -/
inductive Failure
  /-- An `IOError`: the bitstream ended ("EOF during frame reading"). -/
  | io_error
  /-- A `ValueError` raised by the decoder. -/
  | value_error (kind : ValueErrorKind)
  /-- The run reads an element that its buffer does not hold;
  C gives no meaning to what follows. -/
  | undefined
  /-- The run enters a loop that never ends. -/
  | diverges
  deriving DecidableEq, Repr

/-- A Python exception (`IOError` or `ValueError`) is what a caller sees as an
error return (`NULL` with the error indicator set). -/
def Failure.is_exception : Failure → Bool
  | .io_error => true
  | .value_error _ => true
  | .undefined => false
  | .diverges => false

deriving instance DecidableEq for Except

/-! ## Machine integers -/

/-- The value an integer has once stored in a 32-bit signed C variable. -/
def wrap32 (x : Int) : Int := (x + 2147483648) % 4294967296 - 2147483648

/-- The value an integer has once stored in an `int64_t`. -/
def wrap64 (x : Int) : Int :=
  (x + 9223372036854775808) % 18446744073709551616 - 9223372036854775808

/-- The conversion of an `int` argument to an `unsigned int` parameter. -/
def to_unsigned (x : Int) : Nat := (x % 4294967296).toNat

/-- The shift `x << n` as an integer: `x * 2^n`, rounded down when `n` is negative.
It is C's left shift wherever C defines one (`0 ≤ n` below the width,
before the result is stored). -/
def shl (x n : Int) : Int :=
  if 0 ≤ n then x * 2 ^ n.toNat else x / 2 ^ (-n).toNat

/-- The arithmetic shift `x >> n`: `x / 2^n` rounded towards minus infinity.
It is C's right shift of a signed operand wherever C defines it
(`0 ≤ n` below the width). -/
def shr (x n : Int) : Int := shl x (-n)

/-- A value that a 32-bit signed variable holds unchanged. -/
def in_int32 (x : Int) : Prop := -2147483648 ≤ x ∧ x < 2147483648

instance (x : Int) : Decidable (in_int32 x) := by
  unfold in_int32; exact inferInstance

/-- The macro `MIN` of two `int`s. -/
def MIN (a b : Int) : Int := if a < b then a else b

/-! ## Bit reader -/

/-- Modelled from the spec: the `Bitstream` of `bitstream.h`, which is not part of
the sources at hand (spec 4.1: bits are read MSB-first from a byte source).
`remaining` holds the bits still to come, first bit first; `consumed` counts
the bits taken so far, which fixes the next byte boundary; `pushed_back`
counts the calls of `unread_bit`. -/
structure Bitstream where
  remaining : List Bool
  consumed : Nat
  pushed_back : Nat
  deriving DecidableEq, Repr

/-- The unsigned number that a run of bits spells, most significant bit first. -/
def bits_value (bits : List Bool) : Nat :=
  bits.foldl (fun acc b => 2 * acc + (if b then 1 else 0)) 0

/-- The reader once `n` bits have been taken from it. -/
def Bitstream.advance (bs : Bitstream) (n : Nat) : Bitstream :=
  { bs with remaining := bs.remaining.drop n, consumed := bs.consumed + n }

/-- Modelled from the spec: `read_bits(n)` of `bitstream.h` (spec 4.1: an
unsigned integer read MSB-first; fails with an unexpected end of file, which
the frame decoder reports as an `IOError`). -/
def read_bits (bs : Bitstream) (count : Nat) : Except Failure (Nat × Bitstream) :=
  if count ≤ bs.remaining.length then
    .ok (bits_value (bs.remaining.take count), bs.advance count)
  else
    .error .io_error

/-- The signed reading of a `count`-bit field whose unsigned reading is `v`:
the top bit of the field is its sign. -/
def sign_extend (count : Nat) (v : Nat) : Int :=
  if 1 ≤ count ∧ 2 ^ (count - 1) ≤ v then (v : Int) - 2 ^ count else (v : Int)

/-- Modelled from the spec: `read_signed_bits(n)` of `bitstream.h` (spec 4.1:
sign-extend the top bit of an n-bit field into a signed value). -/
def read_signed_bits (bs : Bitstream) (count : Nat) : Except Failure (Int × Bitstream) :=
  match read_bits bs count with
  | .error e => .error e
  | .ok (v, bs1) => .ok (sign_extend count v, bs1)

/-- Modelled from the spec: `unread_bit(value)` of `bitstream.h` (spec 4.1: push
one bit back onto the stream). -/
def unread_bit (bs : Bitstream) (bit : Bool) : Bitstream :=
  { remaining := bit :: bs.remaining
    consumed := bs.consumed - 1
    pushed_back := bs.pushed_back + 1 }

/-- Modelled from the spec: `byte_align_r` of `bitstream.h` (spec 4.1: discard
buffered bits up to the next byte boundary). -/
def byte_align_r (bs : Bitstream) : Bitstream :=
  bs.advance ((8 - bs.consumed % 8) % 8)

/-! ## Integer buffers -/

/-- Modelled from the spec: `struct i_array` of `array.h`, which is not part of the
sources at hand (spec 4.2: a growable sequence of 32-bit signed integers).
The list holds the `size` elements; `ia_reset` empties it, `ia_append` adds
at the end, `ia_copy` replaces the contents. -/
abbrev i_array := List Int

/-- Modelled from the spec: `struct ia_array` of `array.h` (spec 4.2: a
fixed-length array of integer buffers, one per channel). -/
abbrev ia_array := List i_array

/-- Modelled from the spec: `ia_reset` (spec 4.2: sets the length to 0). -/
def ia_reset (_array : i_array) : i_array := []

/-- Modelled from the spec: `ia_append` (spec 4.2). The value is an `ia_data_t`, a
32-bit signed integer: a caller that computes it wraps the result first. -/
def ia_append (array : i_array) (val : Int) : i_array := array ++ [val]

/-- Modelled from the spec: `ia_copy(dst, src)` (spec 4.2: replaces dst's contents). -/
def ia_copy (_target source : i_array) : i_array := source

/-- The read `array->data[index]`; outside the buffer's elements it has no
defined value. -/
def ia_data (array : i_array) (index : Int) : Except Failure Int :=
  if 0 ≤ index then
    match array[index.toNat]? with
    | some v => .ok v
    | none => .error .undefined
  else .error .undefined

/-- Modelled from the spec: `iaa_getitem` (spec 4.2), the buffer of one channel. -/
def iaa_getitem (array : ia_array) (index : Nat) : Except Failure i_array :=
  match array[index]? with
  | some a => .ok a
  | none => .error .undefined

/-- The effect of changing, through the pointer that `iaa_getitem` returns, the
buffer of one channel. -/
def iaa_update (array : ia_array) (index : Nat) (f : i_array → i_array) :
    Except Failure ia_array :=
  match array[index]? with
  | some a => .ok (array.set index (f a))
  | none => .error .undefined

/-- Modelled from the spec: `iaa_reset` (spec 4.2 and 3: every buffer of the
channel array is reset). -/
def iaa_reset (array : ia_array) : ia_array := array.map ia_reset

/-! ## Channel decorrelation -/

/-- The loop `for (i = 0; i < input->size; i++) ia_copy(output[i], input[i])`
of `ALACDecoder_decorrelate_channels`, with `n` iterations left. -/
def decorrelate_copy_loop (input : ia_array) :
    (n : Nat) → (i : Nat) → (output : ia_array) → Except Failure ia_array
  | 0, _, output => .ok output
  | n + 1, i, output =>
    match iaa_getitem input i with
    | .error e => .error e
    | .ok source =>
      match iaa_update output i (fun target => ia_copy target source) with
      | .error e => .error e
      | .ok output1 => decorrelate_copy_loop input n (i + 1) output1

/-- The loop `for (i = 0; i < pcm_frames; i++)` of the two-channel branch of
`ALACDecoder_decorrelate_channels`, with `n` iterations left. The shift
`>> interlacing_shift` is `shr`, which is C's operator for a count from 0 to 31;
C leaves the shift undefined for any other count (the count is an 8-bit field
of the frame), and what this definition gives there, the division by
2^count, is not a statement about the code: the theorems on the sample values
assume a count from 0 to 31. -/
def decorrelate_stereo_loop (channel1 channel2 : i_array)
    (interlacing_shift interlacing_leftweight : Int) :
    (n : Nat) → (i : Nat) → (left_channel right_channel : i_array) →
    Except Failure (i_array × i_array)
  | 0, _, left_channel, right_channel => .ok (left_channel, right_channel)
  | n + 1, i, left_channel, right_channel =>
    match ia_data channel1 i, ia_data channel2 i with
    | .ok c1, .ok c2 =>
      let right_i := wrap32 (c1 - shr (wrap32 (c2 * interlacing_leftweight)) interlacing_shift)
      decorrelate_stereo_loop channel1 channel2 interlacing_shift interlacing_leftweight
        n (i + 1) (ia_append left_channel (wrap32 (c2 + right_i)))
        (ia_append right_channel right_i)
    | _, _ => .error .undefined

/-- The function `ALACDecoder_decorrelate_channels`: the new contents of `output`. -/
def ALACDecoder_decorrelate_channels (output input : ia_array)
    (interlacing_shift interlacing_leftweight : Int) : Except Failure ia_array :=
  if input.length ≠ 2 then
    decorrelate_copy_loop input input.length 0 output
  else
    match iaa_getitem input 0, iaa_getitem input 1,
          iaa_getitem output 0, iaa_getitem output 1 with
    | .ok channel1, .ok channel2, .ok left_channel, .ok right_channel =>
      let left_channel := ia_reset left_channel
      let right_channel := ia_reset right_channel
      let pcm_frames := channel1.length
      if interlacing_leftweight = 0 then
        .ok ((output.set 0 (ia_copy left_channel channel1)).set 1
              (ia_copy right_channel channel2))
      else
        match decorrelate_stereo_loop channel1 channel2 interlacing_shift
                interlacing_leftweight pcm_frames 0 left_channel right_channel with
        | .error e => .error e
        | .ok (left_channel, right_channel) =>
          .ok ((output.set 0 left_channel).set 1 right_channel)
    | _, _, _, _ => .error .undefined

/-! ## Frame and subframe headers -/

/-- Modelled from the spec: `struct alac_frame_header` of `alac.h`, which is not
part of the sources at hand (spec 3: every field is an unsigned bit field,
`output_samples` a 32-bit one). -/
structure alac_frame_header where
  channels : Nat
  has_size : Nat
  wasted_bits : Nat
  is_not_compressed : Nat
  output_samples : Nat
  deriving DecidableEq, Repr

/-- Modelled from the spec: `struct alac_subframe_header` of `alac.h` (spec 3: three
unsigned bit fields and the mutable coefficient table). -/
structure alac_subframe_header where
  prediction_type : Nat
  prediction_quantitization : Nat
  rice_modifier : Nat
  predictor_coef_table : i_array
  deriving DecidableEq, Repr

/-- The function `ALACDecoder_read_frame_header`. -/
def ALACDecoder_read_frame_header (bs : Bitstream) (max_samples_per_frame : Int) :
    Except Failure (alac_frame_header × Bitstream) :=
  match read_bits bs 3 with
  | .error e => .error e
  | .ok (channels_minus_one, bs1) =>
  match read_bits bs1 16 with
  | .error e => .error e
  | .ok (_, bs2) =>
  match read_bits bs2 1 with
  | .error e => .error e
  | .ok (has_size, bs3) =>
  match read_bits bs3 2 with
  | .error e => .error e
  | .ok (wasted_bits, bs4) =>
  match read_bits bs4 1 with
  | .error e => .error e
  | .ok (is_not_compressed, bs5) =>
    if has_size ≠ 0 then
      match read_bits bs5 32 with
      | .error e => .error e
      | .ok (output_samples, bs6) =>
        .ok ({ channels := channels_minus_one + 1, has_size := has_size,
               wasted_bits := wasted_bits, is_not_compressed := is_not_compressed,
               output_samples := output_samples }, bs6)
    else
      .ok ({ channels := channels_minus_one + 1, has_size := has_size,
             wasted_bits := wasted_bits, is_not_compressed := is_not_compressed,
             output_samples := to_unsigned max_samples_per_frame }, bs5)

/-- The loop of `ALACDecoder_read_subframe_header` that appends the
coefficients, with `n` iterations left. -/
def read_coefficients_loop :
    (n : Nat) → (table : i_array) → Bitstream → Except Failure (i_array × Bitstream)
  | 0, table, bs => .ok (table, bs)
  | n + 1, table, bs =>
    match read_signed_bits bs 16 with
    | .error e => .error e
    | .ok (v, bs1) => read_coefficients_loop n (ia_append table v) bs1

/-- The function `ALACDecoder_read_subframe_header`: the header as it stands
after the call. -/
def ALACDecoder_read_subframe_header (bs : Bitstream)
    (subframe_header : alac_subframe_header) :
    Except Failure (alac_subframe_header × Bitstream) :=
  match read_bits bs 4 with
  | .error e => .error e
  | .ok (prediction_type, bs1) =>
  match read_bits bs1 4 with
  | .error e => .error e
  | .ok (prediction_quantitization, bs2) =>
  match read_bits bs2 3 with
  | .error e => .error e
  | .ok (rice_modifier, bs3) =>
  match read_bits bs3 5 with
  | .error e => .error e
  | .ok (predictor_coef_num, bs4) =>
  match read_coefficients_loop predictor_coef_num
          (ia_reset subframe_header.predictor_coef_table) bs4 with
  | .error e => .error e
  | .ok (table, bs5) =>
    .ok ({ prediction_type := prediction_type,
           prediction_quantitization := prediction_quantitization,
           rice_modifier := rice_modifier,
           predictor_coef_table := table }, bs5)

/-! ## Interleaved blocks -/

/-- The inner loop `for (channel = 0; channel < channels; channel++)` shared by the
uncompressed branch of `ALACDecoder_read` and by
`ALACDecoder_read_wasted_bits`: one value is read with `read` and appended
to the buffer of each channel in turn; `n` iterations are left. -/
def interleaved_row (read : Bitstream → Except Failure (Int × Bitstream)) :
    (n : Nat) → (channel : Nat) → ia_array → Bitstream →
    Except Failure (ia_array × Bitstream)
  | 0, _, arrays, bs => .ok (arrays, bs)
  | n + 1, channel, arrays, bs =>
    match read bs with
    | .error e => .error e
    | .ok (v, bs1) =>
      match iaa_update arrays channel (fun a => ia_append a v) with
      | .error e => .error e
      | .ok arrays1 => interleaved_row read n (channel + 1) arrays1 bs1

/-- The outer loop `for (i = 0; i < sample_count; i++)` over the rows of an
interleaved block, with `n` iterations left. -/
def interleaved_block (read : Bitstream → Except Failure (Int × Bitstream))
    (channels : Nat) :
    (n : Nat) → ia_array → Bitstream → Except Failure (ia_array × Bitstream)
  | 0, arrays, bs => .ok (arrays, bs)
  | n + 1, arrays, bs =>
    match interleaved_row read channels 0 arrays bs with
    | .error e => .error e
    | .ok (arrays1, bs1) => interleaved_block read channels n arrays1 bs1

/-- The unsigned field that `ALACDecoder_read_wasted_bits` reads for one sample. -/
def read_wasted_sample (wasted_bits_size : Int) (bs : Bitstream) :
    Except Failure (Int × Bitstream) :=
  match read_bits bs (to_unsigned wasted_bits_size) with
  | .error e => .error e
  | .ok (v, bs1) => .ok (wrap32 v, bs1)

/-- The function `ALACDecoder_read_wasted_bits`. -/
def ALACDecoder_read_wasted_bits (bs : Bitstream) (wasted_bits_samples : ia_array)
    (sample_count channels wasted_bits_size : Int) :
    Except Failure (ia_array × Bitstream) :=
  interleaved_block (read_wasted_sample wasted_bits_size) channels.toNat
    sample_count.toNat wasted_bits_samples bs

/-! ## Residual decoding -/

/-- The `while (value)` loop of `LOG2`, with `fuel` rounds allowed. A value that is
not 0 after 32 shifts is negative and stays so: the loop then never ends. -/
def LOG2_loop : (fuel : Nat) → (value bits : Int) → Except Failure Int
  | 0, value, bits => if value ≠ 0 then .error .diverges else .ok bits
  | fuel + 1, value, bits =>
    if value ≠ 0 then LOG2_loop fuel (shr value 1) (wrap32 (bits + 1)) else .ok bits

/-- The function `LOG2`. -/
def LOG2 (value : Int) : Except Failure Int := LOG2_loop 32 value (-1)

/-- The constant `RICE_THRESHOLD`. -/
def RICE_THRESHOLD : Int := 8

/-- The loop `while ((x <= RICE_THRESHOLD) && (read_bits(bs, 1) == 1)) x++` of
`ALACDecoder_read_residual`, with `fuel` rounds allowed. -/
def read_residual_unary :
    (fuel : Nat) → (x : Int) → Bitstream → Except Failure (Int × Bitstream)
  | 0, x, bs => if x ≤ RICE_THRESHOLD then .error .diverges else .ok (x, bs)
  | fuel + 1, x, bs =>
    if x ≤ RICE_THRESHOLD then
      match read_bits bs 1 with
      | .error e => .error e
      | .ok (bit, bs1) =>
        if bit = 1 then read_residual_unary fuel (wrap32 (x + 1)) bs1 else .ok (x, bs1)
    else .ok (x, bs)

/-- The function `ALACDecoder_read_residual`. The unary loop starts at `x = 0` and
leaves after at most ten tests of its guard. -/
def ALACDecoder_read_residual (bs : Bitstream) (k sample_size : Int) :
    Except Failure (Int × Bitstream) :=
  match read_residual_unary 10 0 bs with
  | .error e => .error e
  | .ok (x, bs1) =>
    if x > RICE_THRESHOLD then
      match read_bits bs1 (to_unsigned sample_size) with
      | .error e => .error e
      | .ok (v, bs2) => .ok (wrap32 v, bs2)
    else if k > 1 then
      let x1 := wrap32 (x * wrap32 (wrap32 (shl 1 k) - 1))
      match read_bits bs1 (to_unsigned k) with
      | .error e => .error e
      | .ok (v, bs2) =>
        let extrabits := wrap32 v
        if extrabits > 1 then .ok (wrap32 (x1 + wrap32 (extrabits - 1)), bs2)
        else if extrabits = 1 then .ok (x1, unread_bit bs2 true)
        else .ok (x1, unread_bit bs2 false)
    else .ok (x, bs1)

/-- The loop `for (j = 0; j < block_size; j++) { ia_append(residuals, 0); i++; }`,
with `n` iterations left: the residual buffer after it. -/
def append_zero_block : (n : Nat) → i_array → i_array
  | 0, residuals => residuals
  | n + 1, residuals => append_zero_block n (ia_append residuals 0)

/-- The signed residual that `ALACDecoder_read_residuals` makes of a decoded value:
`(decoded_value + 1) >> 1`, negated when the decoded value is odd. -/
def signed_residual (decoded_value : Int) : Int :=
  if decoded_value % 2 ≠ 0 then wrap32 (shr (wrap32 (decoded_value + 1)) 1 * -1)
  else shr (wrap32 (decoded_value + 1)) 1

/-- The update of `history` after one decoded value in `ALACDecoder_read_residuals`. -/
def update_history (history decoded_value history_multiplier : Int) : Int :=
  if decoded_value > 0xFFFF then 0xFFFF
  else wrap32 (history + wrap32 (wrap32 (decoded_value * history_multiplier) -
                 shr (wrap32 (history * history_multiplier)) 9))

/-- The Rice parameter of a zero-run block:
`MIN(7 - LOG2(history) + ((history + 16) / 64), maximum_k)`, given `LOG2(history)`. -/
def zero_block_k (log history maximum_k : Int) : Int :=
  MIN (wrap32 (wrap32 (7 - log) + Int.tdiv (wrap32 (history + 16)) 64)) maximum_k

/-- The residual buffer after the block `if (block_size > 0) { ... }`. -/
def residuals_after_block (residuals : i_array) (block_size : Int) : i_array :=
  if block_size > 0 then append_zero_block block_size.toNat residuals else residuals

/-- The counter `i` at the next test of the loop's guard, after a zero-run block
of `block_size` and the loop's own `i++`. -/
def counter_after_block (i block_size : Int) : Int :=
  if block_size > 0 then i + block_size + 1 else i + 1

/-- The `sign_modifier` that a zero-run block leaves for the next residual. -/
def sign_modifier_after_block (block_size : Int) : Int :=
  if block_size ≤ 0xFFFF then 1 else 0

/-- The loop `for (i = 0; i < residual_count; i++)` of
`ALACDecoder_read_residuals`, with `fuel` rounds allowed. Every round adds at
least 1 to `i`, so `residual_count` rounds are always enough. -/
def read_residuals_loop (residual_count sample_size history_multiplier maximum_k : Int) :
    (fuel : Nat) → (i history sign_modifier : Int) → (residuals : i_array) → Bitstream →
    Except Failure (i_array × Bitstream)
  | 0, i, _, _, residuals, bs =>
    if i < residual_count then .error .diverges else .ok (residuals, bs)
  | fuel + 1, i, history, sign_modifier, residuals, bs =>
    if i < residual_count then
      match LOG2 (wrap32 (shr history 9 + 3)) with
      | .error e => .error e
      | .ok log =>
      match ALACDecoder_read_residual bs (MIN log maximum_k) sample_size with
      | .error e => .error e
      | .ok (x, bs1) =>
        if update_history history (wrap32 (x + sign_modifier)) history_multiplier < 128 ∧
            i + 1 < residual_count then
          match LOG2 (update_history history (wrap32 (x + sign_modifier))
                  history_multiplier) with
          | .error e => .error e
          | .ok log1 =>
          match ALACDecoder_read_residual bs1
                  (zero_block_k log1
                    (update_history history (wrap32 (x + sign_modifier)) history_multiplier)
                    maximum_k) 16 with
          | .error e => .error e
          | .ok (block_size, bs2) =>
            read_residuals_loop residual_count sample_size history_multiplier maximum_k fuel
              (counter_after_block i block_size) 0 (sign_modifier_after_block block_size)
              (residuals_after_block
                (ia_append residuals (signed_residual (wrap32 (x + sign_modifier))))
                block_size)
              bs2
        else
          read_residuals_loop residual_count sample_size history_multiplier maximum_k fuel
            (i + 1) (update_history history (wrap32 (x + sign_modifier)) history_multiplier)
            0 (ia_append residuals (signed_residual (wrap32 (x + sign_modifier)))) bs1
    else .ok (residuals, bs)

/-- The function `ALACDecoder_read_residuals`: the residual buffer and the reader
after the call. -/
def ALACDecoder_read_residuals (bs : Bitstream) (residuals : i_array)
    (residual_count sample_size initial_history history_multiplier maximum_k : Int) :
    Except Failure (i_array × Bitstream) :=
  read_residuals_loop residual_count sample_size history_multiplier maximum_k
    residual_count.toNat 0 initial_history 0 (ia_reset residuals) bs

/-! ## Subframe prediction -/

/-- The function `SIGN_ONLY`. -/
def SIGN_ONLY (value : Int) : Int :=
  if value > 0 then 1 else if value < 0 then -1 else 0

/-- The warm-up loop `for (j = 0; j < coefficients->size; j++)` of
`ALACDecoder_decode_subframe`, with `n` iterations left. -/
def warm_up_loop (residuals : i_array) :
    (n : Nat) → (i : Nat) → (samples : i_array) → Except Failure i_array
  | 0, _, samples => .ok samples
  | n + 1, i, samples =>
    match ia_data residuals i, ia_data samples ((i : Int) - 1) with
    | .ok r, .ok s => warm_up_loop residuals n (i + 1) (ia_append samples (wrap32 (r + s)))
    | _, _ => .error .undefined

/-- The loop that accumulates `lpc_sum` in 64 bits, with `n` iterations left. -/
def lpc_sum_loop (coefficients samples : i_array) (i : Nat) (buffer0 : Int) :
    (n : Nat) → (j : Nat) → (lpc_sum : Int) → Except Failure Int
  | 0, _, lpc_sum => .ok lpc_sum
  | n + 1, j, lpc_sum =>
    match ia_data coefficients j, ia_data samples ((i : Int) - j - 1) with
    | .ok c, .ok s =>
      lpc_sum_loop coefficients samples i buffer0 n (j + 1)
        (wrap64 (lpc_sum + wrap64 (c * wrap32 (s - buffer0))))
    | _, _ => .error .undefined

/-- The loop that adapts the coefficients after one sample, with `n` iterations
left; `size` is `coefficients->size`. It leaves at the `break`. -/
def adapt_loop (samples : i_array) (i : Nat)
    (buffer0 original_sign predictor_quantitization : Int) (size : Nat) :
    (n : Nat) → (j : Nat) → (coefficients : i_array) → (residual : Int) →
    Except Failure i_array
  | 0, _, coefficients, _ => .ok coefficients
  | n + 1, j, coefficients, residual =>
    match ia_data samples ((i : Int) - size + j),
          ia_data coefficients ((size : Int) - j - 1) with
    | .ok s, .ok c =>
      let val := wrap32 (buffer0 - s)
      let sign := if original_sign ≥ 0 then SIGN_ONLY val else wrap32 (-SIGN_ONLY val)
      let coefficients1 := coefficients.set ((size : Int) - j - 1).toNat (wrap32 (c - sign))
      let residual1 :=
        wrap32 (residual -
          wrap32 (shr (wrap32 (val * sign)) predictor_quantitization * (j + 1)))
      if SIGN_ONLY residual1 ≠ original_sign then .ok coefficients1
      else adapt_loop samples i buffer0 original_sign predictor_quantitization size
             n (j + 1) coefficients1 residual1
    | _, _ => .error .undefined

/-- The loop `for (; i < residuals->size; i++)` of `ALACDecoder_decode_subframe`,
with `n` iterations left: the samples and the coefficients after it. The bias
`1 << (predictor_quantitization - 1)` is `shl`, which is C's operator for a
quantization from 1 to 31; at the quantization 0 C leaves `1 << -1`
undefined, and what this definition gives there (the bias 0) is not a
statement about the code: the theorem on the predicted samples assumes a
quantization of at least 1. -/
def subframe_loop (residuals : i_array) (predictor_quantitization : Int) :
    (n : Nat) → (i : Nat) → (samples coefficients : i_array) →
    Except Failure (i_array × i_array)
  | 0, _, samples, coefficients => .ok (samples, coefficients)
  | n + 1, i, samples, coefficients =>
    match ia_data residuals i,
          ia_data samples ((i : Int) - ((coefficients.length : Int) + 1)) with
    | .ok residual, .ok buffer0 =>
      match lpc_sum_loop coefficients samples i buffer0 coefficients.length 0
              (wrap32 (shl 1 (predictor_quantitization - 1))) with
      | .error e => .error e
      | .ok lpc_sum =>
        let lpc_sum1 := wrap64 (shr lpc_sum predictor_quantitization + buffer0)
        let output_value := wrap32 (wrap64 (residual + lpc_sum1))
        let samples1 := ia_append samples output_value
        if residual ≠ 0 then
          match adapt_loop samples1 i buffer0 (SIGN_ONLY residual) predictor_quantitization
                  coefficients.length coefficients.length 0 coefficients residual with
          | .error e => .error e
          | .ok coefficients1 =>
            subframe_loop residuals predictor_quantitization n (i + 1) samples1 coefficients1
        else
          subframe_loop residuals predictor_quantitization n (i + 1) samples1 coefficients
    | _, _ => .error .undefined

/-- The function `ALACDecoder_decode_subframe`: the sample buffer and the coefficient
table after the call. The warning for a table of a size other than 4 or 8
changes nothing and is left out. -/
def ALACDecoder_decode_subframe (samples residuals coefficients : i_array)
    (predictor_quantitization : Int) : Except Failure (i_array × i_array) :=
  if coefficients.length < 1 then
    .error (.value_error .coefficient_count)
  else
    match ia_data residuals 0 with
    | .error e => .error e
    | .ok first =>
      match warm_up_loop residuals coefficients.length 1
              (ia_append (ia_reset samples) first) with
      | .error e => .error e
      | .ok samples1 =>
        subframe_loop residuals predictor_quantitization
          (residuals.length - (coefficients.length + 1)) (coefficients.length + 1)
          samples1 coefficients

/-! ## The decoder object -/

/-- Modelled from the spec: `decoders_ALACDecoder` of `alac.h`, which is not part of
the sources at hand (spec 3 and 5: the stream parameters, the reader, the
reusable buffers and one subframe header per channel). `ALACDecoder_init`
reads every stream parameter as a C `int`. -/
structure decoders_ALACDecoder where
  bitstream : Bitstream
  sample_rate : Int
  channels : Int
  channel_mask : Int
  bits_per_sample : Int
  total_frames : Int
  max_samples_per_frame : Int
  history_multiplier : Int
  initial_history : Int
  maximum_k : Int
  samples : ia_array
  subframe_samples : ia_array
  wasted_bits_samples : ia_array
  residuals : ia_array
  subframe_headers : List alac_subframe_header
  deriving DecidableEq, Repr

/-- The decoder that `ALACDecoder_init` builds, given the reader positioned at the
start of the `mdat` payload: four channel arrays of empty buffers and one
subframe header per channel. -/
def ALACDecoder_init (bitstream : Bitstream)
    (sample_rate channels channel_mask bits_per_sample total_frames
      max_samples_per_frame history_multiplier initial_history maximum_k : Int) :
    decoders_ALACDecoder :=
  { bitstream := bitstream
    sample_rate := sample_rate
    channels := channels
    channel_mask := channel_mask
    bits_per_sample := bits_per_sample
    total_frames := total_frames
    max_samples_per_frame := max_samples_per_frame
    history_multiplier := history_multiplier
    initial_history := initial_history
    maximum_k := maximum_k
    samples := List.replicate channels.toNat []
    subframe_samples := List.replicate channels.toNat []
    wasted_bits_samples := List.replicate channels.toNat []
    residuals := List.replicate channels.toNat []
    subframe_headers := List.replicate channels.toNat
      { prediction_type := 0, prediction_quantitization := 0, rice_modifier := 0,
        predictor_coef_table := [] } }

/-- The decoder's buffers are as `ALACDecoder_init` sizes them: one buffer and
one subframe header per channel. -/
def decoders_ALACDecoder.well_formed (self : decoders_ALACDecoder) : Prop :=
  self.samples.length = self.channels.toNat ∧
  self.subframe_samples.length = self.channels.toNat ∧
  self.wasted_bits_samples.length = self.channels.toNat ∧
  self.residuals.length = self.channels.toNat ∧
  self.subframe_headers.length = self.channels.toNat

instance (self : decoders_ALACDecoder) : Decidable self.well_formed := by
  unfold decoders_ALACDecoder.well_formed; exact inferInstance

/-- Modelled from the spec: `pcm_FrameList` of `pcm.h`, which is not part of the
sources at hand (spec 6: channels, bits per sample and a contiguous sample
buffer of `samples_length` entries). An entry that nothing was written to
is `none`. -/
structure pcm_FrameList where
  frames : Int
  channels : Int
  bits_per_sample : Int
  samples_length : Int
  samples : List (Option Int)
  deriving DecidableEq, Repr

/-! ## Reading one frame -/

/-- The read `read_signed_bits(self->bitstream, self->bits_per_sample)` of one
uncompressed sample. -/
def read_uncompressed_sample (bits_per_sample : Int) (bs : Bitstream) :
    Except Failure (Int × Bitstream) :=
  read_signed_bits bs (to_unsigned bits_per_sample)

/-- The branch `if (frame_header.is_not_compressed)` of `ALACDecoder_read`. -/
def read_uncompressed_frame (self : decoders_ALACDecoder)
    (frame_header : alac_frame_header) : Except Failure decoders_ALACDecoder :=
  match interleaved_block (read_uncompressed_sample self.bits_per_sample)
          self.channels.toNat frame_header.output_samples
          (iaa_reset self.samples) self.bitstream with
  | .error e => .error e
  | .ok (samples, bs) => .ok { self with samples := samples, bitstream := bs }

/-- The loop of `ALACDecoder_read` that reads one subframe header per channel and
rejects a prediction type other than 0, with `n` iterations left. -/
def read_subframe_headers_loop :
    (n : Nat) → (i : Nat) → List alac_subframe_header → Bitstream →
    Except Failure (List alac_subframe_header × Bitstream)
  | 0, _, subframe_headers, bs => .ok (subframe_headers, bs)
  | n + 1, i, subframe_headers, bs =>
    match subframe_headers[i]? with
    | none => .error .undefined
    | some subframe_header =>
      match ALACDecoder_read_subframe_header bs subframe_header with
      | .error e => .error e
      | .ok (subframe_header1, bs1) =>
        if subframe_header1.prediction_type ≠ 0 then
          .error (.value_error .prediction_type)
        else
          read_subframe_headers_loop n (i + 1) (subframe_headers.set i subframe_header1) bs1

/-- The loop of `ALACDecoder_read` that reads the residuals of each channel, with
`n` iterations left. -/
def read_residuals_channels_loop
    (residual_count sample_size initial_history history_multiplier maximum_k : Int) :
    (n : Nat) → (i : Nat) → ia_array → Bitstream → Except Failure (ia_array × Bitstream)
  | 0, _, residuals, bs => .ok (residuals, bs)
  | n + 1, i, residuals, bs =>
    match iaa_getitem residuals i with
    | .error e => .error e
    | .ok channel_residuals =>
      match ALACDecoder_read_residuals bs channel_residuals residual_count sample_size
              initial_history history_multiplier maximum_k with
      | .error e => .error e
      | .ok (channel_residuals1, bs1) =>
        read_residuals_channels_loop residual_count sample_size initial_history
          history_multiplier maximum_k n (i + 1) (residuals.set i channel_residuals1) bs1

/-- The loop of `ALACDecoder_read` that runs the predictor on each channel, with
`n` iterations left: the subframe samples and the subframe headers, whose
coefficient tables the predictor changes. -/
def decode_subframes_loop (residuals : ia_array) :
    (n : Nat) → (i : Nat) → ia_array → List alac_subframe_header →
    Except Failure (ia_array × List alac_subframe_header)
  | 0, _, subframe_samples, subframe_headers => .ok (subframe_samples, subframe_headers)
  | n + 1, i, subframe_samples, subframe_headers =>
    match iaa_getitem subframe_samples i, iaa_getitem residuals i, subframe_headers[i]? with
    | .ok channel_samples, .ok channel_residuals, some subframe_header =>
      match ALACDecoder_decode_subframe channel_samples channel_residuals
              subframe_header.predictor_coef_table
              subframe_header.prediction_quantitization with
      | .error e => .error e
      | .ok (channel_samples1, coefficients1) =>
        decode_subframes_loop residuals n (i + 1) (subframe_samples.set i channel_samples1)
          (subframe_headers.set i { subframe_header with predictor_coef_table := coefficients1 })
    | _, _, _ => .error .undefined

/-- The inner loop `for (j = 0; j < frame_header.output_samples; j++)` that puts
the wasted bits under the samples of one channel, with `n` iterations left. -/
def merge_wasted_channel_loop (shift : Int) (wasted : i_array) :
    (n : Nat) → (j : Nat) → (channel : i_array) → Except Failure i_array
  | 0, _, channel => .ok channel
  | n + 1, j, channel =>
    match ia_data channel j, ia_data wasted j with
    | .ok d, .ok w =>
      merge_wasted_channel_loop shift wasted n (j + 1)
        (channel.set j (wrap32 (Int.lor (wrap32 (shl d shift)) w)))
    | _, _ => .error .undefined

/-- The outer loop `for (i = 0; i < self->channels; i++)` of the wasted-bits
merge, with `n` iterations left. -/
def merge_wasted_bits_loop (shift : Int) (output_samples : Nat) (wasted_bits_samples : ia_array) :
    (n : Nat) → (i : Nat) → (samples : ia_array) → Except Failure ia_array
  | 0, _, samples => .ok samples
  | n + 1, i, samples =>
    match iaa_getitem samples i, iaa_getitem wasted_bits_samples i with
    | .ok channel, .ok wasted =>
      match merge_wasted_channel_loop shift wasted output_samples 0 channel with
      | .error e => .error e
      | .ok channel1 =>
        merge_wasted_bits_loop shift output_samples wasted_bits_samples n (i + 1)
          (samples.set i channel1)
    | _, _ => .error .undefined

/-- The block `if (frame_header.wasted_bits > 0)` of `ALACDecoder_read` that reads
the wasted-bits samples: the wasted-bits buffers and the reader after it. -/
def read_frame_wasted_bits (self : decoders_ALACDecoder) (frame_header : alac_frame_header)
    (bs : Bitstream) : Except Failure (ia_array × Bitstream) :=
  if frame_header.wasted_bits > 0 then
    ALACDecoder_read_wasted_bits bs (iaa_reset self.wasted_bits_samples)
      (wrap32 frame_header.output_samples) self.channels
      (wrap32 (frame_header.wasted_bits * 8))
  else .ok (self.wasted_bits_samples, bs)

/-- The block `if (frame_header.wasted_bits > 0)` of `ALACDecoder_read` that puts the
wasted bits under the decorrelated samples. -/
def merge_frame_wasted_bits (self : decoders_ALACDecoder) (frame_header : alac_frame_header)
    (samples : ia_array) : Except Failure ia_array :=
  if frame_header.wasted_bits > 0 then
    merge_wasted_bits_loop (wrap32 (frame_header.wasted_bits * 8))
      frame_header.output_samples self.wasted_bits_samples self.channels.toNat 0 samples
  else .ok samples

/-- The part of the compressed branch of `ALACDecoder_read` that reads the stream:
the two interlacing bytes, the subframe headers, the wasted-bits block and the
residuals. It returns the decoder, the shift and the left weight. -/
def read_compressed_input (self : decoders_ALACDecoder) (frame_header : alac_frame_header) :
    Except Failure (decoders_ALACDecoder × Int × Int) :=
  match read_bits self.bitstream 8 with
  | .error e => .error e
  | .ok (interlacing_shift, bs1) =>
  match read_bits bs1 8 with
  | .error e => .error e
  | .ok (interlacing_leftweight, bs2) =>
  match read_subframe_headers_loop self.channels.toNat 0 self.subframe_headers bs2 with
  | .error e => .error e
  | .ok (subframe_headers, bs3) =>
  match read_frame_wasted_bits self frame_header bs3 with
  | .error e => .error e
  | .ok (wasted_bits_samples, bs4) =>
  match read_residuals_channels_loop (wrap32 frame_header.output_samples)
          (wrap32 (self.bits_per_sample - frame_header.wasted_bits * 8 + self.channels - 1))
          self.initial_history self.history_multiplier self.maximum_k
          self.channels.toNat 0 self.residuals bs4 with
  | .error e => .error e
  | .ok (residuals, bs5) =>
    .ok ({ self with bitstream := bs5, subframe_headers := subframe_headers,
                     wasted_bits_samples := wasted_bits_samples, residuals := residuals },
         (interlacing_shift : Int), (interlacing_leftweight : Int))

/-- The branch `else` of `if (frame_header.is_not_compressed)` in `ALACDecoder_read`:
the input is read, every channel goes through the predictor, the channels are
decorrelated and the wasted bits are put back. -/
def read_compressed_frame (self : decoders_ALACDecoder) (frame_header : alac_frame_header) :
    Except Failure decoders_ALACDecoder :=
  match read_compressed_input self frame_header with
  | .error e => .error e
  | .ok (self1, interlacing_shift, interlacing_leftweight) =>
  match decode_subframes_loop self1.residuals self1.channels.toNat 0
          self1.subframe_samples self1.subframe_headers with
  | .error e => .error e
  | .ok (subframe_samples, subframe_headers) =>
  match ALACDecoder_decorrelate_channels self1.samples subframe_samples
          interlacing_shift interlacing_leftweight with
  | .error e => .error e
  | .ok samples =>
  match merge_frame_wasted_bits self1 frame_header samples with
  | .error e => .error e
  | .ok samples1 =>
    .ok { self1 with subframe_samples := subframe_samples,
                     subframe_headers := subframe_headers, samples := samples1 }

/-- The two branches of `if (frame_header.is_not_compressed)` in `ALACDecoder_read`. -/
def read_frame_samples (self : decoders_ALACDecoder) (frame_header : alac_frame_header) :
    Except Failure decoders_ALACDecoder :=
  if frame_header.is_not_compressed ≠ 0 then read_uncompressed_frame self frame_header
  else read_compressed_frame self frame_header

/-- The body of one frame in `ALACDecoder_read` up to the end-of-frame
signature: the header, the channel check and one of the two branches. -/
def read_frame_body (self : decoders_ALACDecoder) :
    Except Failure (decoders_ALACDecoder × alac_frame_header) :=
  match ALACDecoder_read_frame_header self.bitstream self.max_samples_per_frame with
  | .error e => .error e
  | .ok (frame_header, bs1) =>
    if (frame_header.channels : Int) ≠ self.channels then
      .error (.value_error .channel_count)
    else
      match read_frame_samples { self with bitstream := bs1 } frame_header with
      | .error e => .error e
      | .ok self1 => .ok (self1, frame_header)

/-- The block of `ALACDecoder_read` that `bs_try` guards: the frame's body, then
the 3-bit signature `111` and the byte alignment. -/
def read_frame (self : decoders_ALACDecoder) :
    Except Failure (decoders_ALACDecoder × alac_frame_header) :=
  match read_frame_body self with
  | .error e => .error e
  | .ok (self1, frame_header) =>
    match read_bits self1.bitstream 3 with
    | .error e => .error e
    | .ok (signature, bs1) =>
      if signature ≠ 7 then .error (.value_error .signature)
      else .ok ({ self1 with bitstream := byte_align_r bs1 }, frame_header)

/-- The loop `for (i = channel, j = 0; j < frame_header.output_samples;
i += self->channels, j++)` at `write_frame`, with `n` iterations left. A
write past the end of the sample buffer has no defined effect. -/
def write_frame_channel_loop (channels : Int) (channel_data : i_array) :
    (n : Nat) → (i j : Int) → (samples : List (Option Int)) →
    Except Failure (List (Option Int))
  | 0, _, _, samples => .ok samples
  | n + 1, i, j, samples =>
    match ia_data channel_data j with
    | .error e => .error e
    | .ok v =>
      if 0 ≤ i ∧ i.toNat < samples.length then
        write_frame_channel_loop channels channel_data n (i + channels) (j + 1)
          (samples.set i.toNat (some v))
      else .error .undefined

/-- The loop `for (channel = 0; channel < self->channels; channel++)` at
`write_frame`, with `n` iterations left. -/
def write_frame_loop (self_samples : ia_array) (channels : Int) (output_samples : Nat) :
    (n : Nat) → (channel : Nat) → (samples : List (Option Int)) →
    Except Failure (List (Option Int))
  | 0, _, samples => .ok samples
  | n + 1, channel, samples =>
    match iaa_getitem self_samples channel with
    | .error e => .error e
    | .ok channel_data =>
      match write_frame_channel_loop channels channel_data output_samples channel 0 samples with
      | .error e => .error e
      | .ok samples1 =>
        write_frame_loop self_samples channels output_samples n (channel + 1) samples1

/-- The code at the label `write_frame` of `ALACDecoder_read`: the frame list built
from `self->samples`, and the decoder with `total_frames` reduced. -/
def write_frame (self : decoders_ALACDecoder) (output_samples : Nat) :
    Except Failure (decoders_ALACDecoder × pcm_FrameList) :=
  match iaa_getitem self.samples 0 with
  | .error e => .error e
  | .ok channel0 =>
    let frames : Int := channel0.length
    let samples_length := wrap32 (frames * self.channels)
    match write_frame_loop self.samples self.channels output_samples self.channels.toNat 0
            (List.replicate samples_length.toNat none) with
    | .error e => .error e
    | .ok samples =>
      .ok ({ self with total_frames := wrap32 (self.total_frames - frames) },
           { frames := frames, channels := self.channels,
             bits_per_sample := self.bits_per_sample,
             samples_length := samples_length, samples := samples })

/-- The function `ALACDecoder_read`: the decoder after the call and the frame list
returned, or the failure. -/
def ALACDecoder_read (self : decoders_ALACDecoder) :
    Except Failure (decoders_ALACDecoder × pcm_FrameList) :=
  let self0 := { self with samples := iaa_reset self.samples }
  if self0.total_frames < 1 then
    write_frame self0 0
  else
    match read_frame self0 with
    | .error e => .error e
    | .ok (self1, frame_header) => write_frame self1 frame_header.output_samples

/-! ## Analysing one frame -/

/-- The dictionary that `ALACDecoder_analyze_frame` builds for one frame: the header's
fields, then either the samples of an uncompressed frame or the interlacing
parameters, subframe headers, wasted-bits samples and residuals of a
compressed one. The source gives the key "wasted_bits" twice, first with the
header's count and then with the wasted-bits samples, so it is the samples
that a caller finds under that key; the structure keeps both values. -/
structure frame_analysis where
  channels : Nat
  has_size : Nat
  wasted_bits : Nat
  is_not_compressed : Nat
  output_samples : Nat
  samples : Option ia_array
  interlacing_shift : Option Int
  interlacing_leftweight : Option Int
  subframe_headers : List alac_subframe_header
  wasted_bits_samples : ia_array
  residuals : ia_array
  deriving DecidableEq, Repr

/-- The loop of `ALACDecoder_analyze_frame` that reads one subframe header per
channel, with `n` iterations left; it accepts every prediction type. -/
def analyze_subframe_headers_loop :
    (n : Nat) → (i : Nat) → List alac_subframe_header → Bitstream →
    Except Failure (List alac_subframe_header × Bitstream)
  | 0, _, subframe_headers, bs => .ok (subframe_headers, bs)
  | n + 1, i, subframe_headers, bs =>
    match subframe_headers[i]? with
    | none => .error .undefined
    | some subframe_header =>
      match ALACDecoder_read_subframe_header bs subframe_header with
      | .error e => .error e
      | .ok (subframe_header1, bs1) =>
        analyze_subframe_headers_loop n (i + 1) (subframe_headers.set i subframe_header1) bs1

/-- The branch `else` of `if (frame_header.is_not_compressed)` in
`ALACDecoder_analyze_frame`: the decoder after the reads and the frame's
dictionary. The wasted-bits buffers are reset whether or not the frame has
wasted bits. -/
def analyze_compressed_frame (self : decoders_ALACDecoder) (frame_header : alac_frame_header) :
    Except Failure (decoders_ALACDecoder × frame_analysis) :=
  match read_bits self.bitstream 8 with
  | .error e => .error e
  | .ok (interlacing_shift, bs1) =>
  match read_bits bs1 8 with
  | .error e => .error e
  | .ok (interlacing_leftweight, bs2) =>
  match analyze_subframe_headers_loop self.channels.toNat 0 self.subframe_headers bs2 with
  | .error e => .error e
  | .ok (subframe_headers, bs3) =>
  match (if frame_header.wasted_bits > 0 then
           ALACDecoder_read_wasted_bits bs3 (iaa_reset self.wasted_bits_samples)
             (wrap32 frame_header.output_samples) self.channels
             (wrap32 (frame_header.wasted_bits * 8))
         else .ok (iaa_reset self.wasted_bits_samples, bs3)) with
  | .error e => .error e
  | .ok (wasted_bits_samples, bs4) =>
  match read_residuals_channels_loop (wrap32 frame_header.output_samples)
          (wrap32 (self.bits_per_sample - frame_header.wasted_bits * 8 + self.channels - 1))
          self.initial_history self.history_multiplier self.maximum_k
          self.channels.toNat 0 self.residuals bs4 with
  | .error e => .error e
  | .ok (residuals, bs5) =>
    .ok ({ self with bitstream := bs5, subframe_headers := subframe_headers,
                     wasted_bits_samples := wasted_bits_samples, residuals := residuals },
         { channels := frame_header.channels, has_size := frame_header.has_size,
           wasted_bits := frame_header.wasted_bits,
           is_not_compressed := frame_header.is_not_compressed,
           output_samples := frame_header.output_samples,
           samples := none,
           interlacing_shift := some (interlacing_shift : Int),
           interlacing_leftweight := some (interlacing_leftweight : Int),
           subframe_headers := subframe_headers.take self.channels.toNat,
           wasted_bits_samples := wasted_bits_samples,
           residuals := residuals })

/-- The branch `if (frame_header.is_not_compressed)` of `ALACDecoder_analyze_frame`. -/
def analyze_uncompressed_frame (self : decoders_ALACDecoder)
    (frame_header : alac_frame_header) :
    Except Failure (decoders_ALACDecoder × frame_analysis) :=
  match interleaved_block (read_uncompressed_sample self.bits_per_sample)
          self.channels.toNat frame_header.output_samples
          (iaa_reset self.samples) self.bitstream with
  | .error e => .error e
  | .ok (samples, bs) =>
    .ok ({ self with samples := samples, bitstream := bs },
         { channels := frame_header.channels, has_size := frame_header.has_size,
           wasted_bits := frame_header.wasted_bits,
           is_not_compressed := frame_header.is_not_compressed,
           output_samples := frame_header.output_samples,
           samples := some samples,
           interlacing_shift := none, interlacing_leftweight := none,
           subframe_headers := [], wasted_bits_samples := [], residuals := [] })

/-- The function `ALACDecoder_analyze_frame`: the decoder after the call and the
frame's dictionary, `none` for the `None` returned when no frame is left. It
does not compare the header's channel count with the stream's, and it takes
the header's output_samples off `total_frames`. -/
def ALACDecoder_analyze_frame (self : decoders_ALACDecoder) :
    Except Failure (decoders_ALACDecoder × Option frame_analysis) :=
  if self.total_frames < 1 then
    .ok (self, none)
  else
    match ALACDecoder_read_frame_header self.bitstream self.max_samples_per_frame with
    | .error e => .error e
    | .ok (frame_header, bs1) =>
      match (if frame_header.is_not_compressed ≠ 0 then
               analyze_uncompressed_frame { self with bitstream := bs1 } frame_header
             else
               analyze_compressed_frame { self with bitstream := bs1 } frame_header) with
      | .error e => .error e
      | .ok (self1, frame) =>
        match read_bits self1.bitstream 3 with
        | .error e => .error e
        | .ok (signature, bs2) =>
          if signature ≠ 7 then .error (.value_error .signature)
          else
            .ok ({ self1 with
                   bitstream := byte_align_r bs2
                   total_frames := wrap32 (self1.total_frames - frame_header.output_samples) },
                 some frame)


/-! ## Definitions used in the statements -/

/-- The right sample that the two-channel branch computes from one pair of
subframe samples. -/
def decorrelate_right (interlacing_shift interlacing_leftweight c1 c2 : Int) : Int :=
  wrap32 (c1 - shr (wrap32 (c2 * interlacing_leftweight)) interlacing_shift)


/-- The unsigned value of field number `index` when the bits `remaining` are cut
into consecutive fields of `width` bits. -/
def field_value (remaining : List Bool) (width index : Nat) : Nat :=
  bits_value ((remaining.drop (index * width)).take width)

/-- A reader of one fixed-width field: on a stream that still holds `width` bits it
returns `decode` of the field's unsigned value and takes exactly these bits. -/
def reads_field (read : Bitstream → Except Failure (Int × Bitstream))
    (width : Nat) (decode : Nat → Int) : Prop :=
  ∀ bs : Bitstream, width ≤ bs.remaining.length →
    read bs = .ok (decode (bits_value (bs.remaining.take width)), bs.advance width)


/-! ## Concrete streams -/

/-- The `width` bits that spell `value`, most significant bit first. -/
def field_bits : Nat → Nat → List Bool
  | 0, _ => []
  | width + 1, value => decide (value / 2 ^ width % 2 = 1) :: field_bits width value

/-- A reader at the start of the given bits. -/
def bitstream_of (bits : List Bool) : Bitstream :=
  { remaining := bits, consumed := 0, pushed_back := 0 }

/-- Scenario S1, the payload and what follows it: four 16-bit samples, the
signature 111 and two padding bits. -/
def scenario_S1_payload : List Bool :=
  field_bits 16 0x0001 ++ field_bits 16 0xFFFF ++ field_bits 16 0x7FFF ++
  field_bits 16 0x8000 ++ field_bits 3 7 ++ field_bits 2 0

/-- Scenario S1, the frame: the header with channels - 1 = 0, the reserved bits,
has_size = 0, wasted_bits = 0 and is_not_compressed = 1, then the payload. -/
def scenario_S1_frame : List Bool :=
  field_bits 3 0 ++ field_bits 16 0 ++ field_bits 1 0 ++ field_bits 2 0 ++ field_bits 1 1 ++
  scenario_S1_payload

/-- Scenario S1, the decoder: one channel of 16 bits, at most 4 samples per frame. -/
def scenario_S1_decoder : decoders_ALACDecoder :=
  ALACDecoder_init (bitstream_of scenario_S1_frame) 44100 1 4 16 4 4 40 10 14


/-- A stream whose zero run overshoots: with initial_history = 10,
history_multiplier = 40 and maximum_k = 14, the bit 0 is a first residual 0,
which leaves history = 10 < 128; the bits 0 0110 then spell, with k = 4, a
block of 5 zeros. -/
def overshoot_residual_bits : List Bool :=
  field_bits 1 0 ++ field_bits 1 0 ++ field_bits 4 6

/-- A compressed mono frame with that residual block: header with has_size = 0 (so
output_samples = max_samples_per_frame = 2), wasted_bits = 0 and
is_not_compressed = 0; interlacing shift 0 and left weight 0; one subframe
header with prediction type 0, quantitization 1, rice modifier 0 and one
coefficient 0; the residual bits; the signature 111 and one padding byte. -/
def overshoot_frame : List Bool :=
  field_bits 3 0 ++ field_bits 16 0 ++ field_bits 1 0 ++ field_bits 2 0 ++ field_bits 1 0 ++
  field_bits 8 0 ++ field_bits 8 0 ++
  field_bits 4 0 ++ field_bits 4 1 ++ field_bits 3 0 ++ field_bits 5 1 ++ field_bits 16 0 ++
  overshoot_residual_bits ++ field_bits 3 7 ++ field_bits 8 0

/-- The decoder of a 16-bit mono stream with at most 2 samples per frame, at the
start of `overshoot_frame`. -/
def overshoot_decoder : decoders_ALACDecoder :=
  ALACDecoder_init (bitstream_of overshoot_frame) 44100 1 4 16 100 2 40 10 14


/-- A failure that is one of the decoder's `ValueError`s. -/
def Failure.is_value_error : Failure → Prop
  | .value_error _ => True
  | _ => False


/-- The subframe headers that a stream spells: up to `n` headers, parsed one after
the other as far as the stream goes. -/
def parse_subframe_headers : Nat → Bitstream → List alac_subframe_header
  | 0, _ => []
  | n + 1, bs =>
    match ALACDecoder_read_subframe_header bs
            { prediction_type := 0, prediction_quantitization := 0, rice_modifier := 0,
              predictor_coef_table := [] } with
    | .error _ => []
    | .ok (subframe_header, bs1) => subframe_header :: parse_subframe_headers n bs1

/-- The subframe headers of the frame at the decoder's reader: in a compressed frame,
one per channel of the stream, after the frame header and the two interlacing
bytes; none in an uncompressed frame. -/
def frame_subframe_headers (self : decoders_ALACDecoder) : List alac_subframe_header :=
  match ALACDecoder_read_frame_header self.bitstream self.max_samples_per_frame with
  | .error _ => []
  | .ok (frame_header, bs1) =>
    if frame_header.is_not_compressed ≠ 0 then []
    else parse_subframe_headers self.channels.toNat (bs1.advance 16)

/-- The channel count of the frame's header differs from the stream's. -/
def frame_channel_mismatch (self : decoders_ALACDecoder) : Prop :=
  ∃ frame_header bs1,
    ALACDecoder_read_frame_header self.bitstream self.max_samples_per_frame =
      .ok (frame_header, bs1) ∧
    (frame_header.channels : Int) ≠ self.channels

/-- The frame is compressed and one of its subframes has a prediction type other
than 0. -/
def frame_unsupported_prediction (self : decoders_ALACDecoder) : Prop :=
  ∃ subframe_header ∈ frame_subframe_headers self, subframe_header.prediction_type ≠ 0

/-- The frame is compressed and one of its subframes has no coefficient. -/
def frame_empty_coefficients (self : decoders_ALACDecoder) : Prop :=
  ∃ subframe_header ∈ frame_subframe_headers self,
    subframe_header.predictor_coef_table.length = 0

/-- The frame's body is read and the 3 bits after it are not 111. -/
def frame_bad_signature (self : decoders_ALACDecoder) : Prop :=
  ∃ self1 frame_header signature bs1,
    read_frame_body { self with samples := iaa_reset self.samples } =
      .ok (self1, frame_header) ∧
    read_bits self1.bitstream 3 = .ok (signature, bs1) ∧ signature ≠ 7


/-- A compressed mono frame with one wasted byte per sample (scenario S4): header
with has_size = 0 (so output_samples = max_samples_per_frame = 2),
wasted_bits = 1 and is_not_compressed = 0; interlacing shift 0 and left
weight 0; one subframe header with prediction type 0, quantitization 0, rice
modifier 0 and one coefficient 0; the wasted bytes 0x56 and 0x00; the
residual 0x1234, escaped as nine 1-bits and the 16-bit value 2 * 0x1234; the
residual 0 as the bit 0 and eight 0-bits; the signature 111 and four padding
bits. -/
def scenario_S4_frame : List Bool :=
  field_bits 3 0 ++ field_bits 16 0 ++ field_bits 1 0 ++ field_bits 2 1 ++ field_bits 1 0 ++
  field_bits 8 0 ++ field_bits 8 0 ++
  field_bits 4 0 ++ field_bits 4 0 ++ field_bits 3 0 ++ field_bits 5 1 ++ field_bits 16 0 ++
  field_bits 8 0x56 ++ field_bits 8 0x00 ++
  field_bits 9 511 ++ field_bits 16 (2 * 0x1234) ++ field_bits 1 0 ++ field_bits 8 0 ++
  field_bits 3 7 ++ field_bits 4 0

/-- Scenario S4, the decoder: one channel of 24 bits, at most 2 samples per frame. -/
def scenario_S4_decoder : decoders_ALACDecoder :=
  ALACDecoder_init (bitstream_of scenario_S4_frame) 44100 1 4 24 100 2 40 10 14

/-- Scenario S4, the header that the frame carries. -/
def scenario_S4_header : alac_frame_header :=
  { channels := 1, has_size := 0, wasted_bits := 1, is_not_compressed := 0,
    output_samples := 2 }

/-- Scenario S4, the reader once the 23 bits of the header are taken. -/
def scenario_S4_after_header : Bitstream :=
  { remaining := scenario_S4_frame.drop 23, consumed := 23, pushed_back := 0 }


/-- The frame of scenario S1 with the signature 101 in place of 111. -/
def bad_signature_frame : List Bool :=
  field_bits 3 0 ++ field_bits 16 0 ++ field_bits 1 0 ++ field_bits 2 0 ++ field_bits 1 1 ++
  field_bits 16 0x0001 ++ field_bits 16 0xFFFF ++ field_bits 16 0x7FFF ++
  field_bits 16 0x8000 ++ field_bits 3 5 ++ field_bits 2 0

/-- The decoder of scenario S1 at the start of `bad_signature_frame`. -/
def bad_signature_decoder : decoders_ALACDecoder :=
  ALACDecoder_init (bitstream_of bad_signature_frame) 44100 1 4 16 4 4 40 10 14

/-- A compressed mono frame whose subframe header announces no coefficient:
`overshoot_frame` with the coefficient count 0 and no coefficient. -/
def empty_coefficients_frame : List Bool :=
  field_bits 3 0 ++ field_bits 16 0 ++ field_bits 1 0 ++ field_bits 2 0 ++ field_bits 1 0 ++
  field_bits 8 0 ++ field_bits 8 0 ++
  field_bits 4 0 ++ field_bits 4 1 ++ field_bits 3 0 ++ field_bits 5 0 ++
  overshoot_residual_bits ++ field_bits 3 7 ++ field_bits 8 0

/-- The decoder of a 16-bit mono stream at the start of `empty_coefficients_frame`. -/
def empty_coefficients_decoder : decoders_ALACDecoder :=
  ALACDecoder_init (bitstream_of empty_coefficients_frame) 44100 1 4 16 100 2 40 10 14

/-- A compressed mono frame whose subframe header has prediction type 1. -/
def unsupported_prediction_frame : List Bool :=
  field_bits 3 0 ++ field_bits 16 0 ++ field_bits 1 0 ++ field_bits 2 0 ++ field_bits 1 0 ++
  field_bits 8 0 ++ field_bits 8 0 ++
  field_bits 4 1 ++ field_bits 4 1 ++ field_bits 3 0 ++ field_bits 5 0

/-- The decoder of a 16-bit mono stream at the start of `unsupported_prediction_frame`. -/
def unsupported_prediction_decoder : decoders_ALACDecoder :=
  ALACDecoder_init (bitstream_of unsupported_prediction_frame) 44100 1 4 16 100 2 40 10 14

/-- The decoder of a two-channel stream at the start of the mono frame of
scenario S1. -/
def channel_mismatch_decoder : decoders_ALACDecoder :=
  ALACDecoder_init (bitstream_of scenario_S1_frame) 44100 2 3 16 4 4 40 10 14


/-- Scenario S4, the decoder after the frame is read. -/
def scenario_S4_decoder_after : decoders_ALACDecoder :=
  { scenario_S4_decoder with
    bitstream := { remaining := [], consumed := 128, pushed_back := 1 }
    total_frames := 98
    samples := [[0x123456, 0x123400]]
    subframe_samples := [[0x1234, 0x1234]]
    wasted_bits_samples := [[0x56, 0x00]]
    residuals := [[0x1234, 0]]
    subframe_headers := [{ prediction_type := 0, prediction_quantitization := 0,
                           rice_modifier := 0, predictor_coef_table := [0] }] }

/-- Scenario S4, the frame list returned. -/
def scenario_S4_framelist : pcm_FrameList :=
  { frames := 2, channels := 1, bits_per_sample := 24, samples_length := 2,
    samples := [some 0x123456, some 0x123400] }


/-! ## Concrete residual codes -/

/-- The bits after the unary prefix 110 of a Rice code with k = 4: the field 0110
and three more bits. -/
def rice_field_6 : List Bool := field_bits 4 6 ++ field_bits 3 5

/-- A reader at the Rice code 110 0110: two one-bits, the zero-bit, the field 6. -/
def rice_code_35 : Bitstream :=
  bitstream_of (List.replicate 2 true ++ false :: rice_field_6)

/-- The bits after the unary prefix 110 of a Rice code with k = 4 whose field is
0001, and three more bits. -/
def rice_field_1 : List Bool := field_bits 4 1 ++ field_bits 3 5

/-- A reader at the Rice code 110 0001: two one-bits, the zero-bit, the field 1. -/
def rice_code_30 : Bitstream :=
  bitstream_of (List.replicate 2 true ++ false :: rice_field_1)


/-! ## The rounds of the residual loop -/

/-- The variables of the loop of `ALACDecoder_read_residuals` when it tests its guard:
the counter `i`, `history`, `sign_modifier`, the residual buffer and the reader. -/
structure residuals_state where
  i : Int
  history : Int
  sign_modifier : Int
  residuals : i_array
  bitstream : Bitstream
  deriving DecidableEq, Repr

/-- One round of the loop `for (i = 0; i < residual_count; i++)` of
`ALACDecoder_read_residuals`, from a state in which the guard holds: the body
and the loop's `i++`. It is the body of `read_residuals_loop`. -/
def read_residuals_round (residual_count sample_size history_multiplier maximum_k : Int)
    (s : residuals_state) : Except Failure residuals_state :=
  match LOG2 (wrap32 (shr s.history 9 + 3)) with
  | .error e => .error e
  | .ok log =>
  match ALACDecoder_read_residual s.bitstream (MIN log maximum_k) sample_size with
  | .error e => .error e
  | .ok (x, bs1) =>
    if update_history s.history (wrap32 (x + s.sign_modifier)) history_multiplier < 128 ∧
        s.i + 1 < residual_count then
      match LOG2 (update_history s.history (wrap32 (x + s.sign_modifier))
              history_multiplier) with
      | .error e => .error e
      | .ok log1 =>
      match ALACDecoder_read_residual bs1
              (zero_block_k log1
                (update_history s.history (wrap32 (x + s.sign_modifier)) history_multiplier)
                maximum_k) 16 with
      | .error e => .error e
      | .ok (block_size, bs2) =>
        .ok { i := counter_after_block s.i block_size
              history := 0
              sign_modifier := sign_modifier_after_block block_size
              residuals := residuals_after_block
                (ia_append s.residuals (signed_residual (wrap32 (x + s.sign_modifier))))
                block_size
              bitstream := bs2 }
    else
      .ok { i := s.i + 1
            history := update_history s.history (wrap32 (x + s.sign_modifier))
              history_multiplier
            sign_modifier := 0
            residuals := ia_append s.residuals (signed_residual (wrap32 (x + s.sign_modifier)))
            bitstream := bs1 }

/-- The states that the loop of `ALACDecoder_read_residuals` is in after each of
its rounds, first round first, for as long as the guard holds and the round
is completed (at most `fuel` rounds). -/
def read_residuals_states (residual_count sample_size history_multiplier maximum_k : Int) :
    (fuel : Nat) → residuals_state → List residuals_state
  | 0, _ => []
  | fuel + 1, s =>
    if s.i < residual_count then
      match read_residuals_round residual_count sample_size history_multiplier maximum_k s with
      | .error _ => []
      | .ok s1 =>
        s1 :: read_residuals_states residual_count sample_size history_multiplier maximum_k
                fuel s1
    else []

/-- The state in which `ALACDecoder_read_residuals` enters its loop. -/
def read_residuals_start (bs : Bitstream) (initial_history : Int) : residuals_state :=
  { i := 0, history := initial_history, sign_modifier := 0, residuals := [], bitstream := bs }


/-- A residual stream whose first code is the escape with 16 bits: nine one-bits,
then the value 9320 in 16 bits. -/
def escape_residual_bits : List Bool := field_bits 9 511 ++ field_bits 16 9320


/-- The frame list that `ALACDecoder_read` returns when no frame is left. -/
def end_framelist (self : decoders_ALACDecoder) : pcm_FrameList :=
  { frames := 0, channels := self.channels, bits_per_sample := self.bits_per_sample,
    samples_length := 0, samples := [] }

/-- The decoder of scenario S1 with no frame left: total_frames = 0. -/
def finished_decoder : decoders_ALACDecoder :=
  ALACDecoder_init (bitstream_of scenario_S1_frame) 44100 1 4 16 0 4 40 10 14


/-! ## The adaptation procedure of the specification -/

/-- Spec-side (specification 4.5, step 5): the sign applied at one adaptation
step, `sign(val)` if the original residual is positive, else `-sign(val)`. -/
def spec_adaptation_sign (original_sign val : Int) : Int :=
  if original_sign > 0 then SIGN_ONLY val else -SIGN_ONLY val

/-- Spec-side (specification 4.5, step 5): the running residual after the step
`j`, decreased by `((val * sign) >> q) * (j + 1)`, in 32-bit arithmetic. -/
def spec_running_residual (residual val sign q : Int) (j : Nat) : Int :=
  wrap32 (residual - wrap32 (shr (wrap32 (val * sign)) q * (j + 1)))

/-- Spec-side (specification 4.5, step 5): the adaptation steps `j`, `j + 1`, ... of
a table of `N` coefficients at the sample `i`, at most `n` of them, with
`val = base - samples[i - N + j]`; `coef[N - j - 1]` is decreased by the sign,
and the steps stop after the first one at which the sign of the running
residual differs from the original sign. -/
def spec_adaptation_loop (samples : i_array) (i N : Nat) (base original_sign q : Int) :
    (n j : Nat) → (coef : i_array) → (residual : Int) → i_array
  | 0, _, coef, _ => coef
  | n + 1, j, coef, residual =>
    if SIGN_ONLY (spec_running_residual residual
          (wrap32 (base - samples.getD (i - N + j) 0))
          (spec_adaptation_sign original_sign (wrap32 (base - samples.getD (i - N + j) 0)))
          q j) ≠ original_sign then
      coef.set (N - j - 1) (wrap32 (coef.getD (N - j - 1) 0 -
        spec_adaptation_sign original_sign (wrap32 (base - samples.getD (i - N + j) 0))))
    else
      spec_adaptation_loop samples i N base original_sign q n (j + 1)
        (coef.set (N - j - 1) (wrap32 (coef.getD (N - j - 1) 0 -
          spec_adaptation_sign original_sign (wrap32 (base - samples.getD (i - N + j) 0)))))
        (spec_running_residual residual
          (wrap32 (base - samples.getD (i - N + j) 0))
          (spec_adaptation_sign original_sign (wrap32 (base - samples.getD (i - N + j) 0)))
          q j)

/-- Spec-side (specification 4.5, step 5): the number of adaptation steps made from
the step `j` on, at most `n`. -/
def spec_adaptation_steps (samples : i_array) (i N : Nat) (base original_sign q : Int) :
    (n j : Nat) → (residual : Int) → Nat
  | 0, _, _ => 0
  | n + 1, j, residual =>
    if SIGN_ONLY (spec_running_residual residual
          (wrap32 (base - samples.getD (i - N + j) 0))
          (spec_adaptation_sign original_sign (wrap32 (base - samples.getD (i - N + j) 0)))
          q j) ≠ original_sign then 1
    else
      1 + spec_adaptation_steps samples i N base original_sign q n (j + 1)
        (spec_running_residual residual
          (wrap32 (base - samples.getD (i - N + j) 0))
          (spec_adaptation_sign original_sign (wrap32 (base - samples.getD (i - N + j) 0)))
          q j)

/-- Spec-side (specification 4.5, step 5): the coefficient table after the sample
`i` with the residual `residual`, `base = samples[i - N - 1]`: unchanged when
the residual is 0, adapted otherwise. -/
def spec_adaptation (samples : i_array) (i : Nat) (q : Int) (coef : i_array)
    (residual : Int) : i_array :=
  if residual = 0 then coef
  else
    spec_adaptation_loop samples i coef.length (samples.getD (i - coef.length - 1) 0)
      (SIGN_ONLY residual) q coef.length 0 coef residual

/-- Spec-side (specification 4.5, step 5): the number of coefficients that the
adaptation after the sample `i` reaches: none when the residual is 0. -/
def spec_adaptation_reach (samples : i_array) (i : Nat) (q : Int) (coef : i_array)
    (residual : Int) : Nat :=
  if residual = 0 then 0
  else
    spec_adaptation_steps samples i coef.length (samples.getD (i - coef.length - 1) 0)
      (SIGN_ONLY residual) q coef.length 0 residual


/-- A subframe header in a stream: prediction type 0, quantization 9, Rice
modifier 4, two coefficients 0x0010 and 0xFFF0, then three more bits. -/
def subframe_header_bits : List Bool :=
  field_bits 4 0 ++ field_bits 4 9 ++ field_bits 3 4 ++ field_bits 5 2 ++
  field_bits 16 0x0010 ++ field_bits 16 0xFFF0 ++ field_bits 3 5

/-- A subframe header as an earlier frame may have left it, with a table of four
adapted coefficients. -/
def used_subframe_header : alac_subframe_header :=
  { prediction_type := 0, prediction_quantitization := 4, rice_modifier := 4,
    predictor_coef_table := [3, -1, 7, 2] }


/-! ## Rounds of the residual loop without 32-bit overflow -/

/-- The history update `history += (decoded_value * history_multiplier) -
((history * history_multiplier) >> 9)` without 32-bit overflow: each of its
operations gives a value that an `int` holds. -/
def history_update_without_overflow (history decoded_value history_multiplier : Int) :
    Prop :=
  in_int32 (decoded_value * history_multiplier) ∧
  in_int32 (history * history_multiplier) ∧
  in_int32 (decoded_value * history_multiplier - shr (history * history_multiplier) 9) ∧
  in_int32 (history +
    (decoded_value * history_multiplier - shr (history * history_multiplier) 9))

instance (history decoded_value history_multiplier : Int) :
    Decidable (history_update_without_overflow history decoded_value history_multiplier) := by
  unfold history_update_without_overflow; exact inferInstance

/-- The round of the residual loop that starts in the state `s` computes
`decoded_value` and the new `history` without 32-bit overflow: the sum of the
value read and `sign_modifier` is an `int`, and so is every operation of the
history update when the update is made (`decoded_value <= 0xFFFF`). It says
nothing of a round that stops before, at the end of the stream. -/
def round_without_overflow (sample_size history_multiplier maximum_k : Int)
    (s : residuals_state) : Prop :=
  match LOG2 (wrap32 (shr s.history 9 + 3)) with
  | .error _ => True
  | .ok log =>
    match ALACDecoder_read_residual s.bitstream (MIN log maximum_k) sample_size with
    | .error _ => True
    | .ok (x, _) =>
      in_int32 (x + s.sign_modifier) ∧
      (x + s.sign_modifier ≤ 0xFFFF →
        history_update_without_overflow s.history (x + s.sign_modifier) history_multiplier)

instance (sample_size history_multiplier maximum_k : Int) (s : residuals_state) :
    Decidable (round_without_overflow sample_size history_multiplier maximum_k s) := by
  unfold round_without_overflow
  split
  · exact inferInstance
  · split
    · exact inferInstance
    · exact inferInstance


/-- The residual bits of scenario S4 and the three bits after them: the escape
code of the decoded value 9320 (nine 1-bits, then 16 bits), the residual 0 as
a 0-bit and eight 0-bits, then 111. -/
def scenario_S4_residual_bits : List Bool :=
  field_bits 9 511 ++ field_bits 16 9320 ++ field_bits 1 0 ++ field_bits 8 0 ++
  field_bits 3 7


/-- A compressed mono frame for a stream of 32 bits per sample whose subframe
header announces no coefficient: header with has_size = 0 (so output_samples
is max_samples_per_frame), wasted_bits = 0 and is_not_compressed = 0;
interlacing bytes 0x00 0x00; subframe header with prediction type 0,
quantization 1, rice modifier 0 and the coefficient count 0; the first
residual as the escape code, nine 1-bits and the 32-bit field 0xFFFFFFFF;
eight 0-bits; the signature 111 and five padding bits. -/
def negative_residual_frame : List Bool :=
  field_bits 3 0 ++ field_bits 16 0 ++ field_bits 1 0 ++ field_bits 2 0 ++ field_bits 1 0 ++
  field_bits 8 0 ++ field_bits 8 0 ++
  field_bits 4 0 ++ field_bits 4 1 ++ field_bits 3 0 ++ field_bits 5 0 ++
  field_bits 9 511 ++ field_bits 32 0xFFFFFFFF ++ field_bits 8 0 ++
  field_bits 3 7 ++ field_bits 5 0

/-- The decoder of a mono stream of 32 bits per sample with at most 2 samples per
frame, at the start of `negative_residual_frame`. -/
def negative_residual_decoder : decoders_ALACDecoder :=
  ALACDecoder_init (bitstream_of negative_residual_frame) 44100 1 4 32 100 2 40 10 14


/-! # Theorems -/

set_option maxRecDepth 65536

/-! ## Basic facts -/

theorem wrap32_of_in_int32 {x : Int} (h : in_int32 x) : wrap32 x = x := by
  unfold in_int32 at h
  unfold wrap32
  rw [Int.emod_eq_of_lt (by omega) (by omega)]
  omega

theorem wrap32_in_int32 (x : Int) : in_int32 (wrap32 x) := by
  unfold in_int32 wrap32
  have h1 := Int.emod_nonneg (x + 2147483648) (show (4294967296 : Int) ≠ 0 by norm_num)
  have h2 := Int.emod_lt_of_pos (x + 2147483648) (show (0 : Int) < 4294967296 by norm_num)
  constructor <;> omega

theorem wrap32_wrap32 (x : Int) : wrap32 (wrap32 x) = wrap32 x :=
  wrap32_of_in_int32 (wrap32_in_int32 x)

theorem ia_data_of_lt {a : i_array} {i : Nat} (h : i < a.length) :
    ia_data a (i : Int) = .ok a[i] := by
  unfold ia_data
  simp [List.getElem?_eq_getElem h]

theorem ia_data_of_le {a : i_array} {i : Nat} (h : a.length ≤ i) :
    ia_data a (i : Int) = .error .undefined := by
  unfold ia_data
  simp [List.getElem?_eq_none h]

theorem iaa_getitem_of_lt {a : ia_array} {i : Nat} (h : i < a.length) :
    iaa_getitem a i = .ok a[i] := by
  unfold iaa_getitem
  simp [List.getElem?_eq_getElem h]

theorem iaa_update_of_lt {a : ia_array} {i : Nat} (f : i_array → i_array) (h : i < a.length) :
    iaa_update a i f = .ok (a.set i (f a[i])) := by
  unfold iaa_update
  simp [List.getElem?_eq_getElem h]

/-! ## Channel decorrelation -/

theorem decorrelate_stereo_loop_eq (channel1 channel2 : i_array) (shift lw : Int) :
    ∀ (n i : Nat) (left right : i_array), i + n = channel1.length →
      channel1.length ≤ channel2.length →
      decorrelate_stereo_loop channel1 channel2 shift lw n i left right =
        .ok (left ++ List.zipWith (fun c1 c2 => wrap32 (c2 + decorrelate_right shift lw c1 c2))
                      (channel1.drop i) (channel2.drop i),
             right ++ List.zipWith (fun c1 c2 => decorrelate_right shift lw c1 c2)
                      (channel1.drop i) (channel2.drop i)) := by
  intro n
  induction n with
  | zero =>
    intro i left right hi _
    have : channel1.drop i = [] := List.drop_eq_nil_of_le (by omega)
    simp [decorrelate_stereo_loop, this]
  | succ n ih =>
    intro i left right hi hle
    have h1 : i < channel1.length := by omega
    have h2 : i < channel2.length := by omega
    rw [decorrelate_stereo_loop, ia_data_of_lt h1, ia_data_of_lt h2]
    simp only []
    rw [ih (i + 1) _ _ (by omega) hle]
    rw [List.drop_eq_getElem_cons h1, List.drop_eq_getElem_cons h2,
      List.zipWith_cons_cons, List.zipWith_cons_cons]
    simp only [ia_append, decorrelate_right, List.append_assoc, List.singleton_append]

theorem decorrelate_copy_loop_spec (input : ia_array) :
    ∀ (n i : Nat) (output : ia_array), i + n ≤ input.length → i + n ≤ output.length →
      ∃ out, decorrelate_copy_loop input n i output = .ok out ∧
        out.length = output.length ∧
        (∀ t, i ≤ t → t < i + n → out[t]? = input[t]?) ∧
        (∀ t, (t < i ∨ i + n ≤ t) → out[t]? = output[t]?) := by
  intro n
  induction n with
  | zero =>
    intro i output _ _
    exact ⟨output, rfl, rfl, fun t h1 h2 => by omega, fun _ _ => rfl⟩
  | succ n ih =>
    intro i output h1 h2
    have hi1 : i < input.length := by omega
    have hi2 : i < output.length := by omega
    rw [decorrelate_copy_loop, iaa_getitem_of_lt hi1]
    simp only []
    rw [iaa_update_of_lt _ hi2]
    simp only []
    obtain ⟨out, hout, hlen, hin, hrest⟩ :=
      ih (i + 1) (output.set i (ia_copy output[i] input[i])) (by omega)
        (by rw [List.length_set]; omega)
    refine ⟨out, hout, by rw [hlen, List.length_set], ?_, ?_⟩
    · intro t ht1 ht2
      by_cases hti : t = i
      · subst hti
        rw [hrest t (Or.inl (by omega)), List.getElem?_set]
        simp [hi2, ia_copy, List.getElem?_eq_getElem hi1]
      · exact hin t (by omega) (by omega)
    · intro t ht
      rw [hrest t (by omega), List.getElem?_set]
      have : i ≠ t := by omega
      simp [this]

/-- The arithmetic shift by a count that is not negative: division by 2^count,
rounded towards minus infinity. -/
theorem shr_of_nonneg (x n : Int) (h : 0 ≤ n) : shr x n = x / 2 ^ n.toNat := by
  unfold shr shl
  by_cases h0 : n = 0
  · subst h0; simp
  · rw [if_neg (by omega)]
    simp

/-- C2: on two input channels with a left weight other than 0 and a shift count
from 0 to 31 (the counts for which C defines `>>` on an `int`), the
decorrelator returns, in output channel 1,
right[i] = ch0[i] - ((ch1[i] * leftweight) >> shift) for every index i of
channel 0, and in output channel 0, left[i] = ch1[i] + right[i]; the shift is
the arithmetic one, a division by 2^shift rounded down; both in C's 32-bit
arithmetic, which is plain integer arithmetic when the values fit. -/
theorem decorrelate_channels_stereo (output : ia_array) (channel0 channel1 : i_array)
    (interlacing_shift interlacing_leftweight : Int)
    (hlw : interlacing_leftweight ≠ 0)
    (hshift : 0 ≤ interlacing_shift ∧ interlacing_shift < 32)
    (hout : 2 ≤ output.length)
    (hlen : channel0.length ≤ channel1.length) :
    ∃ left right : i_array,
      ALACDecoder_decorrelate_channels output [channel0, channel1]
        interlacing_shift interlacing_leftweight = .ok ((output.set 0 left).set 1 right) ∧
      left.length = channel0.length ∧ right.length = channel0.length ∧
      ∀ (i : Nat) (c0 c1 : Int), channel0[i]? = some c0 → channel1[i]? = some c1 →
        ∃ r l : Int, right[i]? = some r ∧ left[i]? = some l ∧
          r = wrap32 (c0 - shr (wrap32 (c1 * interlacing_leftweight)) interlacing_shift) ∧
          r = wrap32 (c0 -
            wrap32 (c1 * interlacing_leftweight) / 2 ^ interlacing_shift.toNat) ∧
          l = wrap32 (c1 + r) ∧
          (in_int32 (c1 * interlacing_leftweight) →
            in_int32 (c0 - shr (c1 * interlacing_leftweight) interlacing_shift) →
            in_int32 (c1 + r) →
            r = c0 - shr (c1 * interlacing_leftweight) interlacing_shift ∧ l = c1 + r) := by
  have h0 : (0 : Nat) < output.length := by omega
  have h1 : (1 : Nat) < output.length := by omega
  refine ⟨List.zipWith (fun c1 c2 => wrap32 (c2 + decorrelate_right interlacing_shift
            interlacing_leftweight c1 c2)) channel0 channel1,
          List.zipWith (fun c1 c2 => decorrelate_right interlacing_shift
            interlacing_leftweight c1 c2) channel0 channel1, ?_, ?_, ?_, ?_⟩
  · unfold ALACDecoder_decorrelate_channels
    rw [if_neg (by simp), iaa_getitem_of_lt (by simp), iaa_getitem_of_lt (by simp),
      iaa_getitem_of_lt h0, iaa_getitem_of_lt h1]
    simp only [List.getElem_cons_zero, List.getElem_cons_succ, if_neg hlw]
    rw [decorrelate_stereo_loop_eq channel0 channel1 _ _ channel0.length 0 _ _ (by omega) hlen]
    simp [ia_reset]
  · simp [List.length_zipWith, hlen]
  · simp [List.length_zipWith, hlen]
  · intro i c0 c1 hc0 hc1
    refine ⟨decorrelate_right interlacing_shift interlacing_leftweight c0 c1,
      wrap32 (c1 + decorrelate_right interlacing_shift interlacing_leftweight c0 c1),
      ?_, ?_, rfl, ?_, rfl, ?_⟩
    · simp [List.getElem?_zipWith, hc0, hc1]
    · simp [List.getElem?_zipWith, hc0, hc1]
    · unfold decorrelate_right
      rw [shr_of_nonneg _ _ hshift.1]
    · intro ha hb hc
      have hr : decorrelate_right interlacing_shift interlacing_leftweight c0 c1 =
          c0 - shr (c1 * interlacing_leftweight) interlacing_shift := by
        unfold decorrelate_right
        rw [wrap32_of_in_int32 ha, wrap32_of_in_int32 hb]
      exact ⟨hr, wrap32_of_in_int32 hc⟩

/-- C2, scenario S3: ch0 = [1000, 2000, 3000], ch1 = [10, 20, 30], shift 2 and
left weight 1 give right = [998, 1995, 2993] and left = [1008, 2015, 3023]. -/
theorem decorrelate_channels_stereo_witness :
    ((1 : Int) ≠ 0 ∧ ((0 : Int) ≤ 2 ∧ (2 : Int) < 32) ∧ 2 ≤ ([[], []] : ia_array).length ∧
      ([1000, 2000, 3000] : i_array).length ≤ ([10, 20, 30] : i_array).length) ∧
    ALACDecoder_decorrelate_channels [[], []] [[1000, 2000, 3000], [10, 20, 30]] 2 1 =
      .ok [[1008, 2015, 3023], [998, 1995, 2993]] ∧
    ∃ left right : i_array,
      ALACDecoder_decorrelate_channels [[], []] [[1000, 2000, 3000], [10, 20, 30]] 2 1 =
        .ok ((([[], []] : ia_array).set 0 left).set 1 right) ∧
      left.length = 3 ∧ right.length = 3 ∧
      ∀ (i : Nat) (c0 c1 : Int), ([1000, 2000, 3000] : i_array)[i]? = some c0 →
        ([10, 20, 30] : i_array)[i]? = some c1 →
        ∃ r l : Int, right[i]? = some r ∧ left[i]? = some l ∧
          r = wrap32 (c0 - shr (wrap32 (c1 * 1)) 2) ∧
          r = wrap32 (c0 - wrap32 (c1 * 1) / 2 ^ (2 : Int).toNat) ∧
          l = wrap32 (c1 + r) ∧
          (in_int32 (c1 * 1) → in_int32 (c0 - shr (c1 * 1) 2) → in_int32 (c1 + r) →
            r = c0 - shr (c1 * 1) 2 ∧ l = c1 + r) :=
  ⟨by decide, by decide,
   decorrelate_channels_stereo [[], []] [1000, 2000, 3000] [10, 20, 30] 2 1
     (by decide) (by decide) (by decide) (by decide)⟩

/-- C10: the decorrelator is a pure copy when the channel count is not 2, and when
it is 2 and the left weight is 0: whatever the shift, every output channel
with an input channel of the same index ends up equal to it, and the other
output channels are not touched. -/
theorem decorrelate_channels_pure_copy (output input : ia_array)
    (interlacing_shift interlacing_leftweight : Int)
    (hout : input.length ≤ output.length)
    (h : input.length ≠ 2 ∨ interlacing_leftweight = 0) :
    ∃ out : ia_array,
      ALACDecoder_decorrelate_channels output input interlacing_shift
        interlacing_leftweight = .ok out ∧
      out.length = output.length ∧
      (∀ i, i < input.length → out[i]? = input[i]?) ∧
      (∀ i, input.length ≤ i → out[i]? = output[i]?) := by
  by_cases h2 : input.length = 2
  · have hlw : interlacing_leftweight = 0 := by
      rcases h with h | h
      · exact absurd h2 h
      · exact h
    have i0 : (0 : Nat) < input.length := by omega
    have i1 : (1 : Nat) < input.length := by omega
    have o0 : (0 : Nat) < output.length := by omega
    have o1 : (1 : Nat) < output.length := by omega
    refine ⟨(output.set 0 input[0]).set 1 input[1], ?_, by simp, ?_, ?_⟩
    · unfold ALACDecoder_decorrelate_channels
      rw [if_neg (by simp [h2]), iaa_getitem_of_lt i0, iaa_getitem_of_lt i1,
        iaa_getitem_of_lt o0, iaa_getitem_of_lt o1]
      simp [hlw, ia_copy]
    · intro i hi
      have hi' : i = 0 ∨ i = 1 := by omega
      rcases hi' with rfl | rfl
      · simp [List.getElem?_set, o0, List.getElem?_eq_getElem i0]
      · simp [List.getElem?_set, o1, List.getElem?_eq_getElem i1]
    · intro i hi
      have e0 : ¬ (0 = i) := by omega
      have e1 : ¬ (1 = i) := by omega
      simp [List.getElem?_set, e0, e1]
  · obtain ⟨out, hout1, hlen, hin, hrest⟩ :=
      decorrelate_copy_loop_spec input input.length 0 output (by omega) (by omega)
    refine ⟨out, ?_, hlen, ?_, ?_⟩
    · unfold ALACDecoder_decorrelate_channels
      rw [if_pos h2]
      exact hout1
    · intro i hi
      exact hin i (by omega) (by omega)
    · intro i hi
      exact hrest i (Or.inr (by omega))

/-- C10 at concrete inputs: three channels, and two channels with left weight 0. -/
theorem decorrelate_channels_pure_copy_witness :
    (([[1, 2], [3], [4, 5, 6]] : ia_array).length ≤ ([[9], [], [7]] : ia_array).length ∧
      (([[1, 2], [3], [4, 5, 6]] : ia_array).length ≠ 2 ∨ (5 : Int) = 0)) ∧
    ALACDecoder_decorrelate_channels [[9], [], [7]] [[1, 2], [3], [4, 5, 6]] 3 5 =
      .ok [[1, 2], [3], [4, 5, 6]] ∧
    ALACDecoder_decorrelate_channels [[9], [8]] [[1, 2], [3, 4]] 3 0 = .ok [[1, 2], [3, 4]] ∧
    ∃ out : ia_array,
      ALACDecoder_decorrelate_channels [[9], [], [7]] [[1, 2], [3], [4, 5, 6]] 3 5 = .ok out ∧
      out.length = ([[9], [], [7]] : ia_array).length ∧
      (∀ i, i < ([[1, 2], [3], [4, 5, 6]] : ia_array).length →
        out[i]? = ([[1, 2], [3], [4, 5, 6]] : ia_array)[i]?) ∧
      (∀ i, ([[1, 2], [3], [4, 5, 6]] : ia_array).length ≤ i →
        out[i]? = ([[9], [], [7]] : ia_array)[i]?) :=
  ⟨by decide, by decide, by decide,
   decorrelate_channels_pure_copy [[9], [], [7]] [[1, 2], [3], [4, 5, 6]] 3 5
     (by decide) (by decide)⟩


/-! ## The bit reader -/

theorem bits_value_foldl_lt (bits : List Bool) :
    ∀ (acc n : Nat), acc < 2 ^ n →
      bits.foldl (fun acc b => 2 * acc + (if b then 1 else 0)) acc < 2 ^ (n + bits.length) := by
  induction bits with
  | nil => intro acc n h; simpa using h
  | cons b rest ih =>
    intro acc n h
    have h2 : 2 * acc + (if b then 1 else 0) < 2 ^ (n + 1) := by
      rw [pow_succ]
      split <;> omega
    have := ih (2 * acc + (if b then 1 else 0)) (n + 1) h2
    simpa [List.foldl, Nat.add_assoc, Nat.add_comm 1] using this

theorem bits_value_lt (bits : List Bool) : bits_value bits < 2 ^ bits.length := by
  have := bits_value_foldl_lt bits 0 0 (by norm_num)
  simpa [bits_value] using this

theorem read_bits_ok (bs : Bitstream) (count : Nat) (h : count ≤ bs.remaining.length) :
    read_bits bs count = .ok (bits_value (bs.remaining.take count), bs.advance count) := by
  unfold read_bits
  rw [if_pos h]

theorem read_bits_one_true (bs : Bitstream) (rest : List Bool)
    (h : bs.remaining = true :: rest) :
    read_bits bs 1 = .ok (1, bs.advance 1) := by
  rw [read_bits_ok bs 1 (by rw [h]; simp)]
  simp [h, bits_value]

theorem read_bits_one_false (bs : Bitstream) (rest : List Bool)
    (h : bs.remaining = false :: rest) :
    read_bits bs 1 = .ok (0, bs.advance 1) := by
  rw [read_bits_ok bs 1 (by rw [h]; simp)]
  simp [h, bits_value]

theorem advance_advance (bs : Bitstream) (m n : Nat) :
    (bs.advance m).advance n = bs.advance (m + n) := by
  simp [Bitstream.advance, List.drop_drop, Nat.add_assoc, Nat.add_comm n m]

/-! ## The unary prefix of a residual -/

/-- The unary loop over a run of `m` one-bits: it adds `m` to `x` and goes on
with the rest of the stream, as long as `x` stays within the threshold. -/
theorem read_residual_unary_ones :
    ∀ (m fuel : Nat) (x : Int) (bs : Bitstream), 0 ≤ x → x + m ≤ 9 →
      bs.remaining.take m = List.replicate m true →
      read_residual_unary (fuel + m) x bs = read_residual_unary fuel (x + m) (bs.advance m) := by
  intro m
  induction m with
  | zero =>
    intro fuel x bs _ _ _
    simp [Bitstream.advance]
  | succ m ih =>
    intro fuel x bs hx hxm htake
    obtain ⟨rest, hrest⟩ : ∃ rest, bs.remaining = true :: rest := by
      cases hr : bs.remaining with
      | nil => rw [hr] at htake; simp [List.replicate] at htake
      | cons b rest =>
        rw [hr] at htake
        simp [List.replicate] at htake
        exact ⟨rest, by rw [htake.1]⟩
    have hstep : read_residual_unary (fuel + m + 1) x bs =
        read_residual_unary (fuel + m) (wrap32 (x + 1)) (bs.advance 1) := by
      rw [read_residual_unary, if_pos (by unfold RICE_THRESHOLD; push_cast at hxm; omega),
        read_bits_one_true bs rest hrest]
      simp
    have hw : wrap32 (x + 1) = x + 1 :=
      wrap32_of_in_int32 (by unfold in_int32; push_cast at hxm; omega)
    rw [show fuel + (m + 1) = fuel + m + 1 by omega, hstep, hw,
      ih fuel (x + 1) (bs.advance 1) (by omega) (by push_cast at hxm ⊢; omega)
        (by
          simp only [Bitstream.advance]
          rw [hrest] at htake ⊢
          simp [List.replicate] at htake ⊢
          exact htake),
      advance_advance]
    congr 1
    · push_cast; ring
    · rw [Nat.add_comm]

theorem read_residual_unary_nine (bs : Bitstream)
    (h : bs.remaining.take 9 = List.replicate 9 true) :
    read_residual_unary 10 0 bs = .ok (9, bs.advance 9) := by
  have := read_residual_unary_ones 9 1 0 bs (by norm_num) (by norm_num) h
  rw [show (1 : Nat) + 9 = 10 by norm_num] at this
  rw [this]
  simp [read_residual_unary, RICE_THRESHOLD]

theorem to_unsigned_of_nonneg {x : Int} (h0 : 0 ≤ x) (h1 : x < 4294967296) :
    to_unsigned x = x.toNat := by
  unfold to_unsigned
  rw [Int.emod_eq_of_lt h0 h1]

/-- The escape code for a sample size from 0 to 31: when the next nine bits are
all 1, `ALACDecoder_read_residual` returns, whatever `k` is, the unsigned value
of the following `sample_size` bits, takes exactly 9 + `sample_size` bits and
pushes no bit back. -/
theorem read_residual_escape (bs : Bitstream) (k sample_size : Int)
    (hones : bs.remaining.take 9 = List.replicate 9 true)
    (hsize : 0 ≤ sample_size ∧ sample_size ≤ 31)
    (hlen : 9 + sample_size.toNat ≤ bs.remaining.length) :
    ALACDecoder_read_residual bs k sample_size =
      .ok ((bits_value ((bs.remaining.drop 9).take sample_size.toNat) : Int),
           { remaining := bs.remaining.drop (9 + sample_size.toNat)
             consumed := bs.consumed + (9 + sample_size.toNat)
             pushed_back := bs.pushed_back }) := by
  have hu : to_unsigned sample_size = sample_size.toNat :=
    to_unsigned_of_nonneg hsize.1 (by omega)
  have hlt : bits_value ((bs.remaining.drop 9).take sample_size.toNat) < 2147483648 := by
    have h1 := bits_value_lt ((bs.remaining.drop 9).take sample_size.toNat)
    have h2 : ((bs.remaining.drop 9).take sample_size.toNat).length ≤ 31 := by
      rw [List.length_take]
      have : sample_size.toNat ≤ 31 := by omega
      omega
    calc bits_value ((bs.remaining.drop 9).take sample_size.toNat)
        < 2 ^ ((bs.remaining.drop 9).take sample_size.toNat).length := h1
      _ ≤ 2 ^ 31 := Nat.pow_le_pow_right (by norm_num) h2
      _ = 2147483648 := by norm_num
  have hw : wrap32 (bits_value ((bs.remaining.drop 9).take sample_size.toNat)) =
      bits_value ((bs.remaining.drop 9).take sample_size.toNat) :=
    wrap32_of_in_int32 (by unfold in_int32; omega)
  rw [← hw]
  unfold ALACDecoder_read_residual
  rw [read_residual_unary_nine bs hones]
  simp only []
  rw [if_pos (by unfold RICE_THRESHOLD; norm_num), hu,
    read_bits_ok _ _ (by simp [Bitstream.advance]; omega)]
  simp [Bitstream.advance, List.drop_drop, Nat.add_comm]
  omega

/-- The escape code of scenario S5: with k = 0 and sample_size = 10, nine one-bits
and then 1010101010 give 682. -/
theorem read_residual_escape_scenario_S5 :
    ALACDecoder_read_residual
        ⟨[true, true, true, true, true, true, true, true, true,
          true, false, true, false, true, false, true, false, true, false], 0, 0⟩ 0 10 =
      .ok (682, ⟨[], 19, 0⟩) := by
  decide

/-- C4 at the failing input: with sample_size = 32, after nine one-bits the
thirty-two one-bits spell the unsigned value 4294967295, and
`ALACDecoder_read_residual`, which holds the field in an `int`, returns -1;
with sample_size = 31 the thirty-one one-bits that follow the nine come back
as the unsigned value 2147483647. -/
theorem read_residual_escape_negative :
    ALACDecoder_read_residual ⟨List.replicate 41 true, 0, 0⟩ 0 32 = .ok (-1, ⟨[], 41, 0⟩) ∧
    bits_value (((List.replicate 41 true).drop 9).take 32) = 4294967295 ∧
    (-1 : Int) ≠ ((4294967295 : Nat) : Int) ∧
    ALACDecoder_read_residual ⟨List.replicate 41 true, 0, 0⟩ 0 31 =
      .ok (2147483647, ⟨[true], 40, 0⟩) := by
  refine ⟨?_, ?_, ?_, ?_⟩
  · decide
  · decide
  · decide
  · decide


/-! ## Subframe prediction -/

theorem ia_data_ok {a : i_array} {x : Int} (h0 : 0 ≤ x) (h1 : x < a.length) :
    ∃ v, ia_data a x = .ok v ∧ a[x.toNat]? = some v := by
  have hlt : x.toNat < a.length := by omega
  refine ⟨a[x.toNat], ?_, List.getElem?_eq_getElem hlt⟩
  unfold ia_data
  simp [h0, List.getElem?_eq_getElem hlt]

theorem warm_up_loop_spec (residuals : i_array) :
    ∀ (n i : Nat) (samples : i_array), 1 ≤ i → samples.length = i →
      i + n ≤ residuals.length →
      ∃ out, warm_up_loop residuals n i samples = .ok out ∧ out.length = i + n ∧
        (∀ t, t < i → out[t]? = samples[t]?) ∧
        (∀ t, i ≤ t → t < i + n → ∃ r s, residuals[t]? = some r ∧ out[t - 1]? = some s ∧
          out[t]? = some (wrap32 (r + s))) := by
  intro n
  induction n with
  | zero =>
    intro i samples _ hlen _
    exact ⟨samples, rfl, by simpa using hlen, fun _ _ => rfl, fun t h1 h2 => by omega⟩
  | succ n ih =>
    intro i samples hi hlen hres
    have hr : i < residuals.length := by omega
    obtain ⟨s, hs, hs'⟩ := ia_data_ok (a := samples) (x := (i : Int) - 1) (by omega) (by omega)
    have htoNat : ((i : Int) - 1).toNat = i - 1 := by omega
    rw [htoNat] at hs'
    rw [warm_up_loop, ia_data_of_lt hr, hs]
    simp only []
    obtain ⟨out, hout, hlen', hpre, hstep⟩ :=
      ih (i + 1) (ia_append samples (wrap32 (residuals[i] + s))) (by omega)
        (by simp [ia_append, hlen]) (by omega)
    refine ⟨out, hout, by omega, ?_, ?_⟩
    · intro t ht
      rw [hpre t (by omega)]
      simp [ia_append, List.getElem?_append_left (show t < samples.length by omega)]
    · intro t ht1 ht2
      by_cases hti : t = i
      · subst hti
        refine ⟨residuals[t], s, List.getElem?_eq_getElem hr, ?_, ?_⟩
        · rw [hpre (t - 1) (by omega)]
          simp only [ia_append]
          rw [List.getElem?_append_left (by omega)]
          exact hs'
        · rw [hpre t (by omega)]
          simp only [ia_append]
          rw [List.getElem?_append_right (by omega)]
          simp [hlen]
      · exact hstep t (by omega) (by omega)

theorem lpc_sum_loop_ok (coefficients samples : i_array) (i : Nat) (buffer0 : Int) :
    ∀ (n j : Nat) (lpc_sum : Int), j + n ≤ coefficients.length → j + n ≤ i →
      i ≤ samples.length →
      ∃ v, lpc_sum_loop coefficients samples i buffer0 n j lpc_sum = .ok v := by
  intro n
  induction n with
  | zero => intro j lpc_sum _ _ _; exact ⟨lpc_sum, rfl⟩
  | succ n ih =>
    intro j lpc_sum h1 h2 h3
    obtain ⟨s, hs, _⟩ := ia_data_ok (a := samples) (x := (i : Int) - j - 1)
      (by omega) (by omega)
    rw [lpc_sum_loop, ia_data_of_lt (show j < coefficients.length by omega), hs]
    simp only []
    exact ih (j + 1) _ (by omega) (by omega) h3

theorem adapt_loop_ok (samples : i_array) (i : Nat) (buffer0 original_sign q : Int)
    (size : Nat) :
    ∀ (n j : Nat) (coefficients : i_array) (residual : Int), coefficients.length = size →
      j + n ≤ size → size ≤ i → i ≤ samples.length →
      ∃ out, adapt_loop samples i buffer0 original_sign q size n j coefficients residual =
        .ok out ∧ out.length = size := by
  intro n
  induction n with
  | zero => intro j coefficients residual h _ _ _; exact ⟨coefficients, rfl, h⟩
  | succ n ih =>
    intro j coefficients residual hlen h1 h2 h3
    obtain ⟨s, hs, _⟩ := ia_data_ok (a := samples) (x := (i : Int) - size + j)
      (by omega) (by omega)
    obtain ⟨c, hc, _⟩ := ia_data_ok (a := coefficients) (x := (size : Int) - j - 1)
      (by omega) (by omega)
    rw [adapt_loop, hs, hc]
    simp only []
    generalize (if original_sign ≥ 0 then SIGN_ONLY (wrap32 (buffer0 - s))
      else wrap32 (-SIGN_ONLY (wrap32 (buffer0 - s)))) = sign
    split
    · exact ⟨_, rfl, by rw [List.length_set]; exact hlen⟩
    · exact ih (j + 1) _ _ (by rw [List.length_set]; exact hlen) (by omega) h2 h3

theorem subframe_loop_ok (residuals : i_array) (q : Int) :
    ∀ (n i : Nat) (samples coefficients : i_array), samples.length = i →
      coefficients.length + 1 ≤ i → i + n ≤ residuals.length →
      ∃ out coefficients1, subframe_loop residuals q n i samples coefficients =
          .ok (out, coefficients1) ∧
        out.length = i + n ∧ coefficients1.length = coefficients.length ∧
        (∀ t, t < i → out[t]? = samples[t]?) := by
  intro n
  induction n with
  | zero =>
    intro i samples coefficients hlen _ _
    exact ⟨samples, coefficients, rfl, by simpa using hlen, rfl, fun _ _ => rfl⟩
  | succ n ih =>
    intro i samples coefficients hlen hN hres
    obtain ⟨b, hb, _⟩ := ia_data_ok (a := samples)
      (x := (i : Int) - ((coefficients.length : Int) + 1)) (by omega) (by omega)
    obtain ⟨lpc, hlpc⟩ := lpc_sum_loop_ok coefficients samples i b coefficients.length 0
      (wrap32 (shl 1 (q - 1))) (by omega) (by omega) (by omega)
    rw [subframe_loop, ia_data_of_lt (show i < residuals.length by omega), hb]
    simp only []
    rw [hlpc]
    simp only []
    have hpre : ∀ (v : Int) (t : Nat), t < i → (ia_append samples v)[t]? = samples[t]? := by
      intro v t ht
      simp [ia_append, List.getElem?_append_left (show t < samples.length by omega)]
    split
    · obtain ⟨c1, hc1, hc1len⟩ := adapt_loop_ok
        (ia_append samples (wrap32 (wrap64 (residuals[i] + wrap64 (shr lpc q + b)))))
        i b (SIGN_ONLY residuals[i]) q coefficients.length coefficients.length 0 coefficients
        residuals[i] rfl (by omega) (by omega) (by simp [ia_append]; omega)
      rw [hc1]
      simp only []
      obtain ⟨out, c2, hout, h1, h2, h3⟩ := ih (i + 1) _ c1
        (show (ia_append samples (wrap32 (wrap64 (residuals[i] + wrap64 (shr lpc q + b))))).length
            = i + 1 by simp [ia_append, hlen])
        (by omega) (by omega)
      refine ⟨out, c2, hout, by omega, by omega, ?_⟩
      intro t ht
      rw [h3 t (by omega), hpre _ t ht]
    · obtain ⟨out, c2, hout, h1, h2, h3⟩ := ih (i + 1) _ coefficients
        (show (ia_append samples (wrap32 (wrap64 (residuals[i] + wrap64 (shr lpc q + b))))).length
            = i + 1 by simp [ia_append, hlen])
        (by omega) (by omega)
      refine ⟨out, c2, hout, by omega, h2, ?_⟩
      intro t ht
      rw [h3 t (by omega), hpre _ t ht]

/-- The predictor on a residual buffer that holds at least the warm-up samples:
it returns, the sample buffer is as long as the residual buffer, the
coefficient table keeps its size, and the first `N + 1` samples are the ones
that the warm-up loop leaves. -/
theorem decode_subframe_ok (samples residuals coefficients : i_array) (q : Int)
    (hN : 1 ≤ coefficients.length) (hL : coefficients.length + 1 ≤ residuals.length) :
    ∃ warm out coefficients1,
      warm_up_loop residuals coefficients.length 1 [residuals[0]] = .ok warm ∧
      ALACDecoder_decode_subframe samples residuals coefficients q =
        .ok (out, coefficients1) ∧
      out.length = residuals.length ∧ coefficients1.length = coefficients.length ∧
      (∀ t, t < coefficients.length + 1 → out[t]? = warm[t]?) := by
  obtain ⟨warm, hwarm, hwlen, _, _⟩ := warm_up_loop_spec residuals coefficients.length 1
    [residuals[0]] (le_refl 1) rfl (by omega)
  obtain ⟨out, c1, hout, h1, h2, h3⟩ := subframe_loop_ok residuals q
    (residuals.length - (coefficients.length + 1)) (coefficients.length + 1) warm coefficients
    (by omega) (le_refl _) (by omega)
  refine ⟨warm, out, c1, hwarm, ?_, by omega, h2, h3⟩
  unfold ALACDecoder_decode_subframe
  rw [if_neg (by omega)]
  have h0 : ia_data residuals 0 = .ok residuals[0] :=
    ia_data_of_lt (show 0 < residuals.length by omega)
  rw [h0]
  simp only [ia_reset, ia_append, List.nil_append]
  rw [hwarm]
  exact hout

/-- C5: for a coefficient table of size N ≥ 1 and a residual buffer of at least
N + 1 values, `ALACDecoder_decode_subframe` returns samples with
samples[0] = residuals[0] and samples[j] = residuals[j] + samples[j-1] (a
32-bit sum) for j = 1..N; these N + 1 samples are the same for every
coefficient table of that size and every predictor_quantitization. -/
theorem decode_subframe_warm_up (samples residuals : i_array) (N : Nat)
    (hN : 1 ≤ N) (hL : N + 1 ≤ residuals.length) :
    ∃ warm : i_array, warm.length = N + 1 ∧ warm[0]? = residuals[0]? ∧
      (∀ j, 1 ≤ j → j ≤ N → ∃ r s, residuals[j]? = some r ∧ warm[j - 1]? = some s ∧
        warm[j]? = some (wrap32 (r + s)) ∧ (in_int32 (r + s) → warm[j]? = some (r + s))) ∧
      ∀ (coefficients : i_array) (predictor_quantitization : Int),
        coefficients.length = N →
        ∃ out coefficients1,
          ALACDecoder_decode_subframe samples residuals coefficients
            predictor_quantitization = .ok (out, coefficients1) ∧
          ∀ j, j ≤ N → out[j]? = warm[j]? := by
  have h0 : 0 < residuals.length := by omega
  obtain ⟨warm, hwarm, hwlen, hpre, hstep⟩ := warm_up_loop_spec residuals N 1
    [residuals[0]] (le_refl 1) rfl (by omega)
  refine ⟨warm, by omega, ?_, ?_, ?_⟩
  · rw [hpre 0 (by omega)]
    simp [List.getElem?_eq_getElem h0]
  · intro j hj1 hj2
    obtain ⟨r, s, hr, hs, hw⟩ := hstep j hj1 (by omega)
    refine ⟨r, s, hr, hs, hw, ?_⟩
    intro hin
    rw [hw, wrap32_of_in_int32 hin]
  · intro coefficients q hlen
    subst hlen
    obtain ⟨warm1, out, c1, hwarm1, hdec, _, _, hout⟩ :=
      decode_subframe_ok samples residuals coefficients q hN hL
    rw [hwarm] at hwarm1
    cases hwarm1
    exact ⟨out, c1, hdec, fun j hj => hout j (by omega)⟩

/-- C5, scenario S2: four coefficients, all 0, q = 0 and the residuals
[100, 3, 7, -2, 5] give the samples [100, 103, 110, 108, 113]. -/
theorem decode_subframe_warm_up_witness :
    (1 ≤ 4 ∧ 4 + 1 ≤ ([100, 3, 7, -2, 5] : i_array).length) ∧
    ALACDecoder_decode_subframe [] [100, 3, 7, -2, 5] [0, 0, 0, 0] 0 =
      .ok ([100, 103, 110, 108, 113], [0, 0, 0, 0]) ∧
    ∃ warm : i_array, warm.length = 4 + 1 ∧ warm[0]? = ([100, 3, 7, -2, 5] : i_array)[0]? ∧
      (∀ j, 1 ≤ j → j ≤ 4 → ∃ r s, ([100, 3, 7, -2, 5] : i_array)[j]? = some r ∧
        warm[j - 1]? = some s ∧
        warm[j]? = some (wrap32 (r + s)) ∧ (in_int32 (r + s) → warm[j]? = some (r + s))) ∧
      ∀ (coefficients : i_array) (predictor_quantitization : Int),
        coefficients.length = 4 →
        ∃ out coefficients1,
          ALACDecoder_decode_subframe [] [100, 3, 7, -2, 5] coefficients
            predictor_quantitization = .ok (out, coefficients1) ∧
          ∀ j, j ≤ 4 → out[j]? = warm[j]? :=
  ⟨by decide, by decide,
   decode_subframe_warm_up [] [100, 3, 7, -2, 5] 4 (by decide) (by decide)⟩

/-- C6, as amended: in scenario S2 the residual buffer holds N + 1 = 5 values, so
the loop of the LPC step runs no round and the sample at index 4 is the last
warm-up sample, residuals[4] + samples[3] = 5 + 108 = 113. -/
theorem decode_subframe_scenario_S2 :
    ALACDecoder_decode_subframe [] [100, 3, 7, -2, 5] [0, 0, 0, 0] 0 =
      .ok ([100, 103, 110, 108, 113], [0, 0, 0, 0]) ∧
    warm_up_loop [100, 3, 7, -2, 5] 4 1 [100] = .ok [100, 103, 110, 108, 113] ∧
    ([100, 3, 7, -2, 5] : i_array).length - (([0, 0, 0, 0] : i_array).length + 1) = 0 ∧
    ([100, 103, 110, 108, 113] : i_array)[4]? = some (wrap32 (5 + 108)) ∧
    wrap32 (5 + 108) = 113 := by
  refine ⟨?_, ?_, ?_, ?_, ?_⟩ <;> decide

/-- C6 as first stated fails: in scenario S2 the sample at index 4 is 113, not
the 105 = residuals[4] + samples[0] of an LPC step with base samples[0]. -/
theorem decode_subframe_scenario_S2_counterexample :
    ∃ out coefficients1,
      ALACDecoder_decode_subframe [] [100, 3, 7, -2, 5] [0, 0, 0, 0] 0 =
        .ok (out, coefficients1) ∧
      out[4]? = some 113 ∧ out[4]? ≠ some (5 + 100) :=
  ⟨[100, 103, 110, 108, 113], [0, 0, 0, 0], by decide, by decide, by decide⟩


/-! ## Interleaved blocks -/

theorem field_value_advance (bs : Bitstream) (width k index : Nat) :
    field_value (bs.advance (k * width)).remaining width index =
      field_value bs.remaining width (k + index) := by
  simp only [field_value, Bitstream.advance, List.drop_drop]
  congr 3
  ring

theorem reads_field_wasted (wasted_bits_size : Int) :
    reads_field (read_wasted_sample wasted_bits_size) (to_unsigned wasted_bits_size)
      (fun v => wrap32 v) := by
  intro bs h
  unfold read_wasted_sample
  rw [read_bits_ok bs _ h]


/-! ## Frames -/

theorem iaa_reset_length (a : ia_array) : (iaa_reset a).length = a.length := by
  simp [iaa_reset]

theorem iaa_reset_getElem? (a : ia_array) (c : Nat) (h : c < a.length) :
    (iaa_reset a)[c]? = some [] := by
  simp [iaa_reset, ia_reset, List.getElem?_eq_getElem h]

/-- What `write_frame` leaves of the decoder: only `total_frames` changes. -/
theorem write_frame_samples (self self1 : decoders_ALACDecoder) (output_samples : Nat)
    (framelist : pcm_FrameList) (h : write_frame self output_samples = .ok (self1, framelist)) :
    self1.samples = self.samples ∧ self1.bitstream = self.bitstream ∧
    self1.subframe_samples = self.subframe_samples ∧
    self1.wasted_bits_samples = self.wasted_bits_samples ∧
    self1.residuals = self.residuals ∧ self1.subframe_headers = self.subframe_headers ∧
    ∃ channel0, self.samples[0]? = some channel0 ∧ framelist.frames = channel0.length := by
  unfold write_frame at h
  split at h
  · cases h
  · rename_i channel0 hc0
    simp only [] at h
    split at h
    · cases h
    · simp only [Except.ok.injEq, Prod.mk.injEq] at h
      obtain ⟨h1, h2⟩ := h
      subst h1 h2
      refine ⟨rfl, rfl, rfl, rfl, rfl, rfl, channel0, ?_, rfl⟩
      unfold iaa_getitem at hc0
      split at hc0
      · rename_i a ha
        cases hc0
        exact ha
      · cases hc0

/-- The decoder that a successful `ALACDecoder_read` returns is the one that the
frame's body left, up to the position of the reader and `total_frames`. -/
theorem read_ok_body (self self2 : decoders_ALACDecoder) (framelist : pcm_FrameList)
    (htotal : 1 ≤ self.total_frames) (h : ALACDecoder_read self = .ok (self2, framelist)) :
    ∃ self1 frame_header,
      read_frame_body { self with samples := iaa_reset self.samples } =
        .ok (self1, frame_header) ∧
      self2.samples = self1.samples ∧ self2.subframe_samples = self1.subframe_samples ∧
      self2.wasted_bits_samples = self1.wasted_bits_samples ∧
      self2.residuals = self1.residuals ∧ self2.subframe_headers = self1.subframe_headers ∧
      ∃ channel0, self1.samples[0]? = some channel0 ∧ framelist.frames = channel0.length := by
  unfold ALACDecoder_read at h
  simp only [] at h
  rw [if_neg (by simp; omega)] at h
  split at h
  · cases h
  · rename_i selfa hdr hframe
    unfold read_frame at hframe
    split at hframe
    · cases hframe
    · rename_i selfb hdrb hbody
      split at hframe
      · cases hframe
      · rename_i sig bs3 hsig
        split at hframe
        · cases hframe
        · simp only [Except.ok.injEq, Prod.mk.injEq] at hframe
          obtain ⟨h1, h2⟩ := hframe
          subst h1 h2
          obtain ⟨e1, _, e3, e4, e5, e6, e7⟩ := write_frame_samples _ _ _ _ h
          exact ⟨selfb, hdrb, hbody, e1, e3, e4, e5, e6, e7⟩

/-- C7 at the failing input: asked for 2 residuals, `ALACDecoder_read_residuals`
comes back with 6, because the block of 5 zeros that follows the first
residual is appended whole. -/
theorem read_residuals_overshoot :
    ALACDecoder_read_residuals (bitstream_of overshoot_residual_bits) [] 2 16 10 40 14 =
      .ok ([0, 0, 0, 0, 0, 0], { remaining := [], consumed := 6, pushed_back := 0 }) ∧
    ([0, 0, 0, 0, 0, 0] : i_array).length ≠ 2 := by
  constructor <;> decide

/-- C8 at the failing input: the frame's header declares output_samples = 2 (has_size
is 0 and max_samples_per_frame is 2), the read succeeds, and the frame list
holds 6 PCM frames, of which only the first 2 are written. -/
theorem read_frame_count_overshoot :
    ALACDecoder_read_frame_header overshoot_decoder.bitstream
        overshoot_decoder.max_samples_per_frame =
      .ok ({ channels := 1, has_size := 0, wasted_bits := 0, is_not_compressed := 0,
             output_samples := 2 },
           { remaining := overshoot_frame.drop 23, consumed := 23, pushed_back := 0 }) ∧
    (ALACDecoder_read overshoot_decoder).map (fun r => (r.1.samples, r.1.residuals, r.2)) =
      .ok ([[0, 0, 0, 0, 0, 0]], [[0, 0, 0, 0, 0, 0]],
           { frames := 6, channels := 1, bits_per_sample := 16, samples_length := 6,
             samples := [some 0, some 0, none, none, none, none] }) := by
  constructor <;> decide


/-! ## Which failures a function can end in -/

theorem read_bits_error {bs : Bitstream} {count : Nat} {e : Failure}
    (h : read_bits bs count = .error e) : e = .io_error := by
  unfold read_bits at h
  split at h
  · cases h
  · cases h; rfl

theorem read_bits_ok_inv {bs bs1 : Bitstream} {count v : Nat}
    (h : read_bits bs count = .ok (v, bs1)) :
    count ≤ bs.remaining.length ∧ v = bits_value (bs.remaining.take count) ∧
      bs1 = bs.advance count := by
  unfold read_bits at h
  split at h
  · rename_i hle
    simp only [Except.ok.injEq, Prod.mk.injEq] at h
    exact ⟨hle, h.1.symm, h.2.symm⟩
  · cases h

theorem read_signed_bits_error {bs : Bitstream} {count : Nat} {e : Failure}
    (h : read_signed_bits bs count = .error e) : e = .io_error := by
  unfold read_signed_bits at h
  split at h
  · rename_i e1 h1
    cases h
    exact read_bits_error h1
  · cases h

theorem read_frame_header_error {bs : Bitstream} {m : Int} {e : Failure}
    (h : ALACDecoder_read_frame_header bs m = .error e) : e = .io_error := by
  unfold ALACDecoder_read_frame_header at h
  repeat' split at h
  all_goals first
    | (cases h; done)
    | (rename_i hx; cases h; exact read_bits_error hx)

theorem read_coefficients_loop_error :
    ∀ (n : Nat) (table : i_array) (bs : Bitstream) (e : Failure),
      read_coefficients_loop n table bs = .error e → e = .io_error := by
  intro n
  induction n with
  | zero => intro table bs e h; cases h
  | succ n ih =>
    intro table bs e h
    rw [read_coefficients_loop] at h
    split at h
    · rename_i hx; cases h; exact read_signed_bits_error hx
    · exact ih _ _ _ h

theorem read_subframe_header_error {bs : Bitstream} {hdr : alac_subframe_header}
    {e : Failure} (h : ALACDecoder_read_subframe_header bs hdr = .error e) :
    e = .io_error := by
  unfold ALACDecoder_read_subframe_header at h
  repeat' split at h
  all_goals first
    | (cases h; done)
    | (rename_i hx; cases h; first
        | exact read_bits_error hx
        | exact read_coefficients_loop_error _ _ _ _ hx)

theorem ia_data_error {a : i_array} {x : Int} {e : Failure}
    (h : ia_data a x = .error e) : e = .undefined := by
  unfold ia_data at h
  repeat' split at h
  all_goals first
    | (cases h; done)
    | (cases h; rfl)

theorem iaa_getitem_error {a : ia_array} {i : Nat} {e : Failure}
    (h : iaa_getitem a i = .error e) : e = .undefined := by
  unfold iaa_getitem at h
  split at h
  · cases h
  · cases h; rfl

theorem iaa_getitem_ok_inv {a : ia_array} {i : Nat} {v : i_array}
    (h : iaa_getitem a i = .ok v) : a[i]? = some v := by
  unfold iaa_getitem at h
  split at h
  · rename_i w hw; cases h; exact hw
  · cases h

theorem iaa_update_error {a : ia_array} {i : Nat} {f : i_array → i_array} {e : Failure}
    (h : iaa_update a i f = .error e) : e = .undefined := by
  unfold iaa_update at h
  split at h
  · cases h
  · cases h; rfl

theorem interleaved_row_error (read : Bitstream → Except Failure (Int × Bitstream))
    (hread : ∀ bs e, read bs = .error e → ¬ e.is_value_error) :
    ∀ (n channel : Nat) (arrays : ia_array) (bs : Bitstream) (e : Failure),
      interleaved_row read n channel arrays bs = .error e → ¬ e.is_value_error := by
  intro n
  induction n with
  | zero => intro channel arrays bs e h; cases h
  | succ n ih =>
    intro channel arrays bs e h
    rw [interleaved_row] at h
    split at h
    · rename_i hx; cases h; exact hread _ _ hx
    · split at h
      · rename_i hx; cases h; rw [iaa_update_error hx]; simp [Failure.is_value_error]
      · exact ih _ _ _ _ h

theorem interleaved_block_error (read : Bitstream → Except Failure (Int × Bitstream))
    (hread : ∀ bs e, read bs = .error e → ¬ e.is_value_error) (channels : Nat) :
    ∀ (n : Nat) (arrays : ia_array) (bs : Bitstream) (e : Failure),
      interleaved_block read channels n arrays bs = .error e → ¬ e.is_value_error := by
  intro n
  induction n with
  | zero => intro arrays bs e h; cases h
  | succ n ih =>
    intro arrays bs e h
    rw [interleaved_block] at h
    split at h
    · rename_i hx; cases h; exact interleaved_row_error read hread _ _ _ _ _ hx
    · exact ih _ _ _ h

theorem read_uncompressed_sample_error (bits_per_sample : Int) (bs : Bitstream) (e : Failure)
    (h : read_uncompressed_sample bits_per_sample bs = .error e) : ¬ e.is_value_error := by
  unfold read_uncompressed_sample at h
  rw [read_signed_bits_error h]
  simp [Failure.is_value_error]

theorem read_wasted_sample_error (wasted_bits_size : Int) (bs : Bitstream) (e : Failure)
    (h : read_wasted_sample wasted_bits_size bs = .error e) : ¬ e.is_value_error := by
  unfold read_wasted_sample at h
  split at h
  · rename_i hx; cases h; rw [read_bits_error hx]; simp [Failure.is_value_error]
  · cases h

theorem LOG2_loop_error :
    ∀ (fuel : Nat) (value bits : Int) (e : Failure),
      LOG2_loop fuel value bits = .error e → e = .diverges := by
  intro fuel
  induction fuel with
  | zero =>
    intro value bits e h
    rw [LOG2_loop] at h
    split at h
    · cases h; rfl
    · cases h
  | succ fuel ih =>
    intro value bits e h
    rw [LOG2_loop] at h
    split at h
    · exact ih _ _ _ h
    · cases h

theorem LOG2_error {value : Int} {e : Failure} (h : LOG2 value = .error e) :
    e = .diverges :=
  LOG2_loop_error _ _ _ _ h

theorem read_residual_unary_error :
    ∀ (fuel : Nat) (x : Int) (bs : Bitstream) (e : Failure),
      read_residual_unary fuel x bs = .error e → ¬ e.is_value_error := by
  intro fuel
  induction fuel with
  | zero =>
    intro x bs e h
    rw [read_residual_unary] at h
    split at h
    · cases h; simp [Failure.is_value_error]
    · cases h
  | succ fuel ih =>
    intro x bs e h
    rw [read_residual_unary] at h
    split at h
    · split at h
      · rename_i hx; cases h; rw [read_bits_error hx]; simp [Failure.is_value_error]
      · split at h
        · exact ih _ _ _ h
        · cases h
    · cases h

theorem read_residual_error {bs : Bitstream} {k sample_size : Int} {e : Failure}
    (h : ALACDecoder_read_residual bs k sample_size = .error e) : ¬ e.is_value_error := by
  unfold ALACDecoder_read_residual at h
  generalize hu : read_residual_unary 10 0 bs = r at h
  cases r with
  | error e1 =>
    simp only [] at h
    cases h
    exact read_residual_unary_error _ _ _ _ hu
  | ok p =>
    obtain ⟨x, bs1⟩ := p
    simp only [] at h
    repeat' split at h
    all_goals first
      | (cases h; done)
      | (rename_i hx; cases h; rw [read_bits_error hx]; simp [Failure.is_value_error])

theorem read_residuals_loop_error (residual_count sample_size history_multiplier maximum_k : Int) :
    ∀ (fuel : Nat) (i history sign_modifier : Int) (residuals : i_array) (bs : Bitstream)
      (e : Failure),
      read_residuals_loop residual_count sample_size history_multiplier maximum_k fuel i
        history sign_modifier residuals bs = .error e → ¬ e.is_value_error := by
  intro fuel
  induction fuel with
  | zero =>
    intro i history sign_modifier residuals bs e h
    rw [read_residuals_loop] at h
    split at h
    · cases h; simp [Failure.is_value_error]
    · cases h
  | succ fuel ih =>
    intro i history sign_modifier residuals bs e h
    rw [read_residuals_loop] at h
    split at h
    · split at h
      · rename_i hx; cases h; rw [LOG2_error hx]; simp [Failure.is_value_error]
      · split at h
        · rename_i hx; cases h; exact read_residual_error hx
        · split at h
          · split at h
            · rename_i hx; cases h; rw [LOG2_error hx]; simp [Failure.is_value_error]
            · split at h
              · rename_i hx; cases h; exact read_residual_error hx
              · exact ih _ _ _ _ _ _ h
          · exact ih _ _ _ _ _ _ h
    · cases h

theorem read_residuals_error {bs : Bitstream} {residuals : i_array}
    {residual_count sample_size initial_history history_multiplier maximum_k : Int}
    {e : Failure}
    (h : ALACDecoder_read_residuals bs residuals residual_count sample_size initial_history
      history_multiplier maximum_k = .error e) : ¬ e.is_value_error :=
  read_residuals_loop_error _ _ _ _ _ _ _ _ _ _ _ h

theorem read_residuals_channels_loop_error
    (residual_count sample_size initial_history history_multiplier maximum_k : Int) :
    ∀ (n i : Nat) (residuals : ia_array) (bs : Bitstream) (e : Failure),
      read_residuals_channels_loop residual_count sample_size initial_history
        history_multiplier maximum_k n i residuals bs = .error e → ¬ e.is_value_error := by
  intro n
  induction n with
  | zero => intro i residuals bs e h; cases h
  | succ n ih =>
    intro i residuals bs e h
    rw [read_residuals_channels_loop] at h
    split at h
    · rename_i hx; cases h; rw [iaa_getitem_error hx]; simp [Failure.is_value_error]
    · split at h
      · rename_i hx; cases h; exact read_residuals_error hx
      · exact ih _ _ _ _ h

theorem warm_up_loop_error (residuals : i_array) :
    ∀ (n i : Nat) (samples : i_array) (e : Failure),
      warm_up_loop residuals n i samples = .error e → e = .undefined := by
  intro n
  induction n with
  | zero => intro i samples e h; cases h
  | succ n ih =>
    intro i samples e h
    rw [warm_up_loop] at h
    split at h
    · exact ih _ _ _ h
    · cases h; rfl

theorem lpc_sum_loop_error (coefficients samples : i_array) (i : Nat) (buffer0 : Int) :
    ∀ (n j : Nat) (lpc_sum : Int) (e : Failure),
      lpc_sum_loop coefficients samples i buffer0 n j lpc_sum = .error e → e = .undefined := by
  intro n
  induction n with
  | zero => intro j lpc_sum e h; cases h
  | succ n ih =>
    intro j lpc_sum e h
    rw [lpc_sum_loop] at h
    split at h
    · exact ih _ _ _ h
    · cases h; rfl

theorem adapt_loop_error (samples : i_array) (i : Nat) (buffer0 original_sign q : Int)
    (size : Nat) :
    ∀ (n j : Nat) (coefficients : i_array) (residual : Int) (e : Failure),
      adapt_loop samples i buffer0 original_sign q size n j coefficients residual = .error e →
      e = .undefined := by
  intro n
  induction n with
  | zero => intro j coefficients residual e h; cases h
  | succ n ih =>
    intro j coefficients residual e h
    rw [adapt_loop] at h
    split at h
    · simp only [] at h
      generalize (if original_sign ≥ 0 then SIGN_ONLY (wrap32 (buffer0 - _))
        else wrap32 (-SIGN_ONLY (wrap32 (buffer0 - _)))) = sign at h
      split at h
      · cases h
      · exact ih _ _ _ _ h
    · cases h; rfl

theorem subframe_loop_error (residuals : i_array) (q : Int) :
    ∀ (n i : Nat) (samples coefficients : i_array) (e : Failure),
      subframe_loop residuals q n i samples coefficients = .error e → e = .undefined := by
  intro n
  induction n with
  | zero => intro i samples coefficients e h; cases h
  | succ n ih =>
    intro i samples coefficients e h
    rw [subframe_loop] at h
    split at h
    · split at h
      · rename_i hx; cases h; exact lpc_sum_loop_error _ _ _ _ _ _ _ _ hx
      · simp only [] at h
        split at h
        · split at h
          · rename_i hx; cases h; exact adapt_loop_error _ _ _ _ _ _ _ _ _ _ _ hx
          · exact ih _ _ _ _ h
        · exact ih _ _ _ _ h
    · cases h; rfl

/-- The predictor fails either outside defined behaviour or, on an empty
coefficient table, with its `ValueError`. -/
theorem decode_subframe_error {samples residuals coefficients : i_array} {q : Int}
    {e : Failure} (h : ALACDecoder_decode_subframe samples residuals coefficients q = .error e) :
    e = .undefined ∨ (e = .value_error .coefficient_count ∧ coefficients.length = 0) := by
  unfold ALACDecoder_decode_subframe at h
  split at h
  · cases h
    exact Or.inr ⟨rfl, by omega⟩
  · split at h
    · rename_i hx; cases h; exact Or.inl (ia_data_error hx)
    · split at h
      · rename_i hx; cases h; exact Or.inl (warm_up_loop_error _ _ _ _ _ hx)
      · exact Or.inl (subframe_loop_error _ _ _ _ _ _ _ h)

theorem decode_subframe_ok_inv {samples residuals coefficients out coefficients1 : i_array}
    {q : Int}
    (h : ALACDecoder_decode_subframe samples residuals coefficients q =
      .ok (out, coefficients1)) : 1 ≤ coefficients.length := by
  unfold ALACDecoder_decode_subframe at h
  split at h
  · cases h
  · omega

theorem decorrelate_copy_loop_error (input : ia_array) :
    ∀ (n i : Nat) (output : ia_array) (e : Failure),
      decorrelate_copy_loop input n i output = .error e → e = .undefined := by
  intro n
  induction n with
  | zero => intro i output e h; cases h
  | succ n ih =>
    intro i output e h
    rw [decorrelate_copy_loop] at h
    split at h
    · rename_i hx; cases h; exact iaa_getitem_error hx
    · split at h
      · rename_i hx; cases h; exact iaa_update_error hx
      · exact ih _ _ _ h

theorem decorrelate_stereo_loop_error (channel1 channel2 : i_array) (shift lw : Int) :
    ∀ (n i : Nat) (left right : i_array) (e : Failure),
      decorrelate_stereo_loop channel1 channel2 shift lw n i left right = .error e →
      e = .undefined := by
  intro n
  induction n with
  | zero => intro i left right e h; cases h
  | succ n ih =>
    intro i left right e h
    rw [decorrelate_stereo_loop] at h
    split at h
    · exact ih _ _ _ _ h
    · cases h; rfl

theorem decorrelate_channels_error {output input : ia_array} {shift lw : Int} {e : Failure}
    (h : ALACDecoder_decorrelate_channels output input shift lw = .error e) :
    e = .undefined := by
  unfold ALACDecoder_decorrelate_channels at h
  split at h
  · exact decorrelate_copy_loop_error _ _ _ _ _ h
  · split at h
    · simp only [] at h
      split at h
      · cases h
      · split at h
        · rename_i hx; cases h; exact decorrelate_stereo_loop_error _ _ _ _ _ _ _ _ _ hx
        · cases h
    · cases h; rfl

theorem merge_wasted_channel_loop_error (shift : Int) (wasted : i_array) :
    ∀ (n j : Nat) (channel : i_array) (e : Failure),
      merge_wasted_channel_loop shift wasted n j channel = .error e → e = .undefined := by
  intro n
  induction n with
  | zero => intro j channel e h; cases h
  | succ n ih =>
    intro j channel e h
    rw [merge_wasted_channel_loop] at h
    split at h
    · exact ih _ _ _ h
    · cases h; rfl

theorem merge_wasted_bits_loop_error (shift : Int) (output_samples : Nat)
    (wasted_bits_samples : ia_array) :
    ∀ (n i : Nat) (samples : ia_array) (e : Failure),
      merge_wasted_bits_loop shift output_samples wasted_bits_samples n i samples = .error e →
      e = .undefined := by
  intro n
  induction n with
  | zero => intro i samples e h; cases h
  | succ n ih =>
    intro i samples e h
    rw [merge_wasted_bits_loop] at h
    split at h
    · split at h
      · rename_i hx; cases h; exact merge_wasted_channel_loop_error _ _ _ _ _ _ hx
      · exact ih _ _ _ h
    · cases h; rfl

theorem write_frame_channel_loop_error (channels : Int) (channel_data : i_array) :
    ∀ (n : Nat) (i j : Int) (samples : List (Option Int)) (e : Failure),
      write_frame_channel_loop channels channel_data n i j samples = .error e →
      e = .undefined := by
  intro n
  induction n with
  | zero => intro i j samples e h; cases h
  | succ n ih =>
    intro i j samples e h
    rw [write_frame_channel_loop] at h
    split at h
    · rename_i hx; cases h; exact ia_data_error hx
    · split at h
      · exact ih _ _ _ _ h
      · cases h; rfl

theorem write_frame_loop_error (self_samples : ia_array) (channels : Int)
    (output_samples : Nat) :
    ∀ (n channel : Nat) (samples : List (Option Int)) (e : Failure),
      write_frame_loop self_samples channels output_samples n channel samples = .error e →
      e = .undefined := by
  intro n
  induction n with
  | zero => intro channel samples e h; cases h
  | succ n ih =>
    intro channel samples e h
    rw [write_frame_loop] at h
    split at h
    · rename_i hx; cases h; exact iaa_getitem_error hx
    · split at h
      · rename_i hx; cases h; exact write_frame_channel_loop_error _ _ _ _ _ _ _ hx
      · exact ih _ _ _ h

theorem write_frame_error {self : decoders_ALACDecoder} {output_samples : Nat} {e : Failure}
    (h : write_frame self output_samples = .error e) : e = .undefined := by
  unfold write_frame at h
  split at h
  · rename_i hx; cases h; exact iaa_getitem_error hx
  · simp only [] at h
    split at h
    · rename_i hx; cases h; exact write_frame_loop_error _ _ _ _ _ _ _ hx
    · cases h


/-! ## The stages of a compressed frame -/

/-- What `ALACDecoder_read_subframe_header` returns does not depend on the header it
overwrites. -/
theorem read_subframe_header_fresh (bs : Bitstream) (h1 h2 : alac_subframe_header) :
    ALACDecoder_read_subframe_header bs h1 = ALACDecoder_read_subframe_header bs h2 := by
  unfold ALACDecoder_read_subframe_header
  simp only [ia_reset]

theorem read_subframe_headers_loop_ok :
    ∀ (n i : Nat) (hs hs1 : List alac_subframe_header) (bs bs1 : Bitstream),
      read_subframe_headers_loop n i hs bs = .ok (hs1, bs1) →
      (∀ h ∈ parse_subframe_headers n bs, h.prediction_type = 0) ∧
      hs1.length = hs.length ∧
      (parse_subframe_headers n bs).length = n ∧
      (∀ t, t < n → hs1[i + t]? = (parse_subframe_headers n bs)[t]?) ∧
      (∀ t, t < i → hs1[t]? = hs[t]?) := by
  intro n
  induction n with
  | zero =>
    intro i hs hs1 bs bs1 h
    rw [read_subframe_headers_loop] at h
    cases h
    simp [parse_subframe_headers]
  | succ n ih =>
    intro i hs hs1 bs bs1 h
    rw [read_subframe_headers_loop] at h
    split at h
    · cases h
    · rename_i h0 hh0
      split at h
      · cases h
      · rename_i hd bs2 hread
        split at h
        · cases h
        · rename_i hpt
          obtain ⟨a1, a2, a3, a4, a5⟩ := ih _ _ _ _ _ h
          have hparse : parse_subframe_headers (n + 1) bs =
              hd :: parse_subframe_headers n bs2 := by
            rw [parse_subframe_headers, read_subframe_header_fresh bs _ h0, hread]
          have hi : i < hs.length := by
            by_contra hc
            rw [List.getElem?_eq_none (by omega)] at hh0
            cases hh0
          rw [hparse]
          refine ⟨?_, ?_, ?_, ?_, ?_⟩
          · intro x hx
            rcases List.mem_cons.mp hx with rfl | hx
            · simpa using hpt
            · exact a1 x hx
          · rw [a2, List.length_set]
          · simp [a3]
          · intro t ht
            cases t with
            | zero =>
              rw [Nat.add_zero, a5 i (by omega), List.getElem?_set]
              simp [hi]
            | succ t =>
              have := a4 t (by omega)
              rw [show i + (t + 1) = i + 1 + t by omega, this]
              simp
          · intro t ht
            rw [a5 t (by omega), List.getElem?_set]
            have : ¬ (i = t) := by omega
            simp [this]

theorem read_subframe_headers_loop_error :
    ∀ (n i : Nat) (hs : List alac_subframe_header) (bs : Bitstream) (e : Failure),
      read_subframe_headers_loop n i hs bs = .error e →
      ¬ e.is_value_error ∨
      (e = .value_error .prediction_type ∧
        ∃ h ∈ parse_subframe_headers n bs, h.prediction_type ≠ 0) := by
  intro n
  induction n with
  | zero => intro i hs bs e h; cases h
  | succ n ih =>
    intro i hs bs e h
    rw [read_subframe_headers_loop] at h
    split at h
    · cases h; exact Or.inl (by simp [Failure.is_value_error])
    · rename_i h0 hh0
      split at h
      · rename_i hx
        cases h
        rw [read_subframe_header_error hx]
        exact Or.inl (by simp [Failure.is_value_error])
      · rename_i hd bs2 hread
        have hparse : parse_subframe_headers (n + 1) bs =
            hd :: parse_subframe_headers n bs2 := by
          rw [parse_subframe_headers, read_subframe_header_fresh bs _ h0, hread]
        split at h
        · rename_i hpt
          cases h
          refine Or.inr ⟨rfl, hd, ?_, hpt⟩
          rw [hparse]
          exact List.mem_cons_self _ _
        · rcases ih _ _ _ _ h with h1 | ⟨h1, x, hx, hx2⟩
          · exact Or.inl h1
          · refine Or.inr ⟨h1, x, ?_, hx2⟩
            rw [hparse]
            exact List.mem_cons_of_mem _ hx

theorem decode_subframes_loop_ok (residuals : ia_array) :
    ∀ (n i : Nat) (ss ss1 : ia_array) (hs hs1 : List alac_subframe_header),
      decode_subframes_loop residuals n i ss hs = .ok (ss1, hs1) →
      ∀ t, i ≤ t → t < i + n →
        ∃ h, hs[t]? = some h ∧ 1 ≤ h.predictor_coef_table.length := by
  intro n
  induction n with
  | zero => intro i ss ss1 hs hs1 _ t h1 h2; omega
  | succ n ih =>
    intro i ss ss1 hs hs1 h t ht1 ht2
    rw [decode_subframes_loop] at h
    split at h
    · rename_i cs cr hd _ _ hh
      split at h
      · cases h
      · rename_i hdec
        by_cases hti : t = i
        · subst hti
          exact ⟨hd, hh, decode_subframe_ok_inv hdec⟩
        · obtain ⟨x, hx1, hx2⟩ := ih _ _ _ _ _ h t (by omega) (by omega)
          rw [List.getElem?_set] at hx1
          have : ¬ (i = t) := by omega
          simp only [this, if_false] at hx1
          exact ⟨x, hx1, hx2⟩
    · cases h

theorem decode_subframes_loop_error (residuals : ia_array) :
    ∀ (n i : Nat) (ss : ia_array) (hs : List alac_subframe_header) (e : Failure),
      decode_subframes_loop residuals n i ss hs = .error e →
      e = .undefined ∨
      (e = .value_error .coefficient_count ∧
        ∃ t h, i ≤ t ∧ t < i + n ∧ hs[t]? = some h ∧ h.predictor_coef_table.length = 0) := by
  intro n
  induction n with
  | zero => intro i ss hs e h; cases h
  | succ n ih =>
    intro i ss hs e h
    rw [decode_subframes_loop] at h
    split at h
    · rename_i cs cr hd _ _ hh
      split at h
      · rename_i hdec
        cases h
        rcases decode_subframe_error hdec with h1 | ⟨h1, h2⟩
        · exact Or.inl h1
        · exact Or.inr ⟨h1, i, hd, le_refl _, by omega, hh, h2⟩
      · rcases ih _ _ _ _ h with h1 | ⟨h1, t, x, t1, t2, t3, t4⟩
        · exact Or.inl h1
        · rw [List.getElem?_set] at t3
          have : ¬ (i = t) := by omega
          simp only [this, if_false] at t3
          exact Or.inr ⟨h1, t, x, by omega, by omega, t3, t4⟩
    · cases h; exact Or.inl rfl

theorem read_frame_wasted_bits_error {self : decoders_ALACDecoder}
    {frame_header : alac_frame_header} {bs : Bitstream} {e : Failure}
    (h : read_frame_wasted_bits self frame_header bs = .error e) : ¬ e.is_value_error := by
  unfold read_frame_wasted_bits at h
  split at h
  · exact interleaved_block_error _ (read_wasted_sample_error _) _ _ _ _ _ h
  · cases h

theorem merge_frame_wasted_bits_error {self : decoders_ALACDecoder}
    {frame_header : alac_frame_header} {samples : ia_array} {e : Failure}
    (h : merge_frame_wasted_bits self frame_header samples = .error e) : e = .undefined := by
  unfold merge_frame_wasted_bits at h
  split at h
  · exact merge_wasted_bits_loop_error _ _ _ _ _ _ _ h
  · cases h

/-- The reader after the two interlacing bytes. -/
theorem read_two_bytes {bs bs1 bs2 : Bitstream} {v1 v2 : Nat}
    (h1 : read_bits bs 8 = .ok (v1, bs1)) (h2 : read_bits bs1 8 = .ok (v2, bs2)) :
    bs2 = bs.advance 16 ∧ v1 = bits_value (bs.remaining.take 8) ∧
      v2 = bits_value ((bs.remaining.drop 8).take 8) := by
  obtain ⟨_, a2, a3⟩ := read_bits_ok_inv h1
  obtain ⟨_, b2, b3⟩ := read_bits_ok_inv h2
  subst a3
  refine ⟨?_, a2, ?_⟩
  · rw [b3, advance_advance]
  · rw [b2]; simp [Bitstream.advance]

/-- What a successful `read_compressed_input` has done. -/
theorem read_compressed_input_ok {self self1 : decoders_ALACDecoder}
    {frame_header : alac_frame_header} {shift lw : Int}
    (h : read_compressed_input self frame_header = .ok (self1, shift, lw)) :
    self1.samples = self.samples ∧ self1.channels = self.channels ∧
    self1.subframe_samples = self.subframe_samples ∧
    shift = bits_value (self.bitstream.remaining.take 8) ∧
    lw = bits_value ((self.bitstream.remaining.drop 8).take 8) ∧
    (∃ bs3 bs4, read_subframe_headers_loop self.channels.toNat 0 self.subframe_headers
        (self.bitstream.advance 16) = .ok (self1.subframe_headers, bs3) ∧
      read_frame_wasted_bits self frame_header bs3 = .ok (self1.wasted_bits_samples, bs4)) := by
  unfold read_compressed_input at h
  split at h
  · cases h
  · rename_i v1 bs1 h1
    split at h
    · cases h
    · rename_i v2 bs2 h2
      obtain ⟨e1, e2, e3⟩ := read_two_bytes h1 h2
      subst e1
      split at h
      · cases h
      · rename_i hs bs3 hh
        split at h
        · cases h
        · rename_i w bs4 hw
          split at h
          · cases h
          · simp only [Except.ok.injEq, Prod.mk.injEq] at h
            obtain ⟨a1, a2, a3⟩ := h
            subst a1 a2 a3
            exact ⟨rfl, rfl, rfl, by rw [e2], by rw [e3], bs3, bs4, hh, hw⟩

theorem read_compressed_input_error {self : decoders_ALACDecoder}
    {frame_header : alac_frame_header} {e : Failure}
    (h : read_compressed_input self frame_header = .error e) :
    ¬ e.is_value_error ∨
    (e = .value_error .prediction_type ∧
      ∃ x ∈ parse_subframe_headers self.channels.toNat (self.bitstream.advance 16),
        x.prediction_type ≠ 0) := by
  unfold read_compressed_input at h
  split at h
  · rename_i hx; cases h; rw [read_bits_error hx]
    exact Or.inl (by simp [Failure.is_value_error])
  · rename_i v1 bs1 h1
    split at h
    · rename_i hx; cases h; rw [read_bits_error hx]
      exact Or.inl (by simp [Failure.is_value_error])
    · rename_i v2 bs2 h2
      obtain ⟨e1, _, _⟩ := read_two_bytes h1 h2
      subst e1
      split at h
      · rename_i hx; cases h
        exact read_subframe_headers_loop_error _ _ _ _ _ hx
      · split at h
        · rename_i hx; cases h
          exact Or.inl (read_frame_wasted_bits_error hx)
        · split at h
          · rename_i hx; cases h
            exact Or.inl (read_residuals_channels_loop_error _ _ _ _ _ _ _ _ _ _ hx)
          · cases h

/-- What a successful `read_compressed_frame` has done. -/
theorem read_compressed_frame_ok {self self2 : decoders_ALACDecoder}
    {frame_header : alac_frame_header}
    (h : read_compressed_frame self frame_header = .ok self2) :
    ∃ self1 shift lw hs decorrelated,
      read_compressed_input self frame_header = .ok (self1, shift, lw) ∧
      decode_subframes_loop self1.residuals self1.channels.toNat 0 self1.subframe_samples
        self1.subframe_headers = .ok (self2.subframe_samples, hs) ∧
      ALACDecoder_decorrelate_channels self1.samples self2.subframe_samples shift lw =
        .ok decorrelated ∧
      merge_frame_wasted_bits self1 frame_header decorrelated = .ok self2.samples ∧
      self2.wasted_bits_samples = self1.wasted_bits_samples ∧
      self2.channels = self1.channels := by
  unfold read_compressed_frame at h
  split at h
  · cases h
  · rename_i self1 shift lw hin
    split at h
    · cases h
    · rename_i ss hs hdec
      split at h
      · cases h
      · rename_i d hd
        split at h
        · cases h
        · rename_i s1 hm
          simp only [Except.ok.injEq] at h
          subst h
          exact ⟨self1, shift, lw, hs, d, hin, hdec, hd, hm, rfl, rfl⟩

/-! ## Wasted bits -/

theorem ia_data_ok_inv {a : i_array} {j : Nat} {v : Int} (h : ia_data a (j : Int) = .ok v) :
    a[j]? = some v := by
  unfold ia_data at h
  split at h
  · split at h
    · rename_i w hw
      cases h
      simpa using hw
    · cases h
  · cases h

theorem merge_wasted_channel_loop_ok (shift : Int) (wasted : i_array) :
    ∀ (n j : Nat) (channel out : i_array),
      merge_wasted_channel_loop shift wasted n j channel = .ok out →
      out.length = channel.length ∧
      (∀ t, j ≤ t → t < j + n → ∃ d w, channel[t]? = some d ∧ wasted[t]? = some w ∧
        out[t]? = some (wrap32 (Int.lor (wrap32 (shl d shift)) w))) ∧
      (∀ t, (t < j ∨ j + n ≤ t) → out[t]? = channel[t]?) := by
  intro n
  induction n with
  | zero =>
    intro j channel out h
    rw [merge_wasted_channel_loop] at h
    cases h
    exact ⟨rfl, fun t h1 h2 => by omega, fun _ _ => rfl⟩
  | succ n ih =>
    intro j channel out h
    rw [merge_wasted_channel_loop] at h
    split at h
    · rename_i d w hd hw
      have hd1 := ia_data_ok_inv hd
      have hw1 := ia_data_ok_inv hw
      have hj : j < channel.length := by
        by_contra hc
        rw [List.getElem?_eq_none (by omega)] at hd1
        cases hd1
      obtain ⟨a1, a2, a3⟩ := ih _ _ _ h
      refine ⟨by rw [a1, List.length_set], ?_, ?_⟩
      · intro t t1 t2
        by_cases htj : t = j
        · subst htj
          refine ⟨d, w, hd1, hw1, ?_⟩
          rw [a3 t (Or.inl (by omega)), List.getElem?_set]
          simp [hj]
        · obtain ⟨d1, w1, b1, b2, b3⟩ := a2 t (by omega) (by omega)
          rw [List.getElem?_set] at b1
          have : ¬ (j = t) := by omega
          simp only [this, if_false] at b1
          exact ⟨d1, w1, b1, b2, b3⟩
      · intro t ht
        rw [a3 t (by omega), List.getElem?_set]
        have : ¬ (j = t) := by omega
        simp [this]
    · cases h

theorem merge_wasted_bits_loop_ok (shift : Int) (output_samples : Nat)
    (wasted_bits_samples : ia_array) :
    ∀ (n i : Nat) (samples out : ia_array),
      merge_wasted_bits_loop shift output_samples wasted_bits_samples n i samples = .ok out →
      (∀ c, i ≤ c → c < i + n → ∃ channel wasted merged,
        samples[c]? = some channel ∧ wasted_bits_samples[c]? = some wasted ∧
        out[c]? = some merged ∧
        merge_wasted_channel_loop shift wasted output_samples 0 channel = .ok merged) ∧
      (∀ c, c < i → out[c]? = samples[c]?) := by
  intro n
  induction n with
  | zero =>
    intro i samples out h
    rw [merge_wasted_bits_loop] at h
    cases h
    exact ⟨fun c h1 h2 => by omega, fun _ _ => rfl⟩
  | succ n ih =>
    intro i samples out h
    rw [merge_wasted_bits_loop] at h
    split at h
    · rename_i channel wasted hc hw
      split at h
      · cases h
      · rename_i merged hm
        have hc1 := iaa_getitem_ok_inv hc
        have hw1 := iaa_getitem_ok_inv hw
        have hi : i < samples.length := by
          by_contra hcon
          rw [List.getElem?_eq_none (by omega)] at hc1
          cases hc1
        obtain ⟨a1, a2⟩ := ih _ _ _ h
        refine ⟨?_, ?_⟩
        · intro c c1 c2
          by_cases hci : c = i
          · subst hci
            refine ⟨channel, wasted, merged, hc1, hw1, ?_, hm⟩
            rw [a2 c (by omega), List.getElem?_set]
            simp [hi]
          · obtain ⟨x, y, z, b1, b2, b3, b4⟩ := a1 c (by omega) (by omega)
            rw [List.getElem?_set] at b1
            have : ¬ (i = c) := by omega
            simp only [this, if_false] at b1
            exact ⟨x, y, z, b1, b2, b3, b4⟩
        · intro c hc2
          rw [a2 c (by omega), List.getElem?_set]
          have : ¬ (i = c) := by omega
          simp [this]
    · cases h

theorem read_bits_lt {bs bs1 : Bitstream} {count v : Nat}
    (h : read_bits bs count = .ok (v, bs1)) : v < 2 ^ count := by
  obtain ⟨_, h2, _⟩ := read_bits_ok_inv h
  rw [h2]
  have h3 := bits_value_lt (bs.remaining.take count)
  have h4 : (bs.remaining.take count).length ≤ count := by
    rw [List.length_take]; omega
  exact lt_of_lt_of_le h3 (Nat.pow_le_pow_right (by norm_num) h4)

/-- The ranges of the header's bit fields. -/
theorem read_frame_header_ranges {bs bs1 : Bitstream} {m : Int}
    {frame_header : alac_frame_header}
    (h : ALACDecoder_read_frame_header bs m = .ok (frame_header, bs1)) :
    1 ≤ frame_header.channels ∧ frame_header.channels ≤ 8 ∧ frame_header.has_size < 2 ∧
    frame_header.wasted_bits < 4 ∧ frame_header.is_not_compressed < 2 := by
  unfold ALACDecoder_read_frame_header at h
  split at h
  · cases h
  · rename_i c b1 hc
    split at h
    · cases h
    · split at h
      · cases h
      · rename_i hs b3 hhs
        split at h
        · cases h
        · rename_i w b4 hw
          split at h
          · cases h
          · rename_i nc b5 hnc
            have r1 := read_bits_lt hc
            have r2 := read_bits_lt hhs
            have r3 := read_bits_lt hw
            have r4 := read_bits_lt hnc
            split at h
            · split at h
              · cases h
              · simp only [Except.ok.injEq, Prod.mk.injEq] at h
                obtain ⟨h1, _⟩ := h
                subst h1
                simp only []
                omega
            · simp only [Except.ok.injEq, Prod.mk.injEq] at h
              obtain ⟨h1, _⟩ := h
              subst h1
              simp only []
              omega

/-- C3: when `ALACDecoder_read` succeeds on a compressed frame with wasted_bits = w > 0,
the final samples[ch][i] is (d << (8 * w)) | wasted_bits_samples[ch][i], in
32-bit arithmetic, for every channel ch and every i < output_samples, where d
is the sample at that position that `ALACDecoder_decorrelate_channels` returns
for the decoded subframes and the frame's interlacing shift and left weight. -/
theorem read_wasted_bits_merge (self self2 : decoders_ALACDecoder)
    (framelist : pcm_FrameList) (frame_header : alac_frame_header) (bs1 : Bitstream)
    (htotal : 1 ≤ self.total_frames)
    (hhdr : ALACDecoder_read_frame_header self.bitstream self.max_samples_per_frame =
      .ok (frame_header, bs1))
    (hcomp : frame_header.is_not_compressed = 0)
    (hw : 0 < frame_header.wasted_bits)
    (hread : ALACDecoder_read self = .ok (self2, framelist)) :
    ∃ decorrelated : ia_array,
      ALACDecoder_decorrelate_channels (iaa_reset self.samples) self2.subframe_samples
        (bits_value (bs1.remaining.take 8))
        (bits_value ((bs1.remaining.drop 8).take 8)) = .ok decorrelated ∧
      ∀ ch i, ch < self.channels.toNat → i < frame_header.output_samples →
        ∃ (dch wch sch : i_array) (d w : Int),
          decorrelated[ch]? = some dch ∧ self2.wasted_bits_samples[ch]? = some wch ∧
          self2.samples[ch]? = some sch ∧ dch[i]? = some d ∧ wch[i]? = some w ∧
          sch[i]? = some (wrap32 (Int.lor (wrap32 (shl d (8 * frame_header.wasted_bits))) w)) := by
  obtain ⟨selfb, hdrb, hbody, e1, e2, e3, _⟩ := read_ok_body self self2 framelist htotal hread
  unfold read_frame_body at hbody
  simp only [] at hbody
  rw [hhdr] at hbody
  simp only [] at hbody
  split at hbody
  · cases hbody
  · split at hbody
    · cases hbody
    · rename_i selfc hsamples
      simp only [Except.ok.injEq, Prod.mk.injEq] at hbody
      obtain ⟨hb1, hb2⟩ := hbody
      subst hb1 hb2
      unfold read_frame_samples at hsamples
      rw [if_neg (by simp [hcomp])] at hsamples
      obtain ⟨self1, shift, lw, hs, d, hin, hdec, hd, hm, hwb, hch⟩ :=
        read_compressed_frame_ok hsamples
      obtain ⟨i1, i2, i3, i4, i5, _⟩ := read_compressed_input_ok hin
      simp only [] at i1 i2 i4 i5
      rw [e1, e3, e2]
      rw [i1, i4, i5] at hd
      refine ⟨d, hd, ?_⟩
      intro ch i hch1 hi
      unfold merge_frame_wasted_bits at hm
      rw [if_pos hw] at hm
      obtain ⟨m1, _⟩ := merge_wasted_bits_loop_ok _ _ _ _ _ _ _ hm
      obtain ⟨dch, wch, sch, c1, c2, c3, c4⟩ := m1 ch (by omega) (by rw [i2]; omega)
      obtain ⟨_, m2, _⟩ := merge_wasted_channel_loop_ok _ _ _ _ _ _ c4
      obtain ⟨dv, wv, d1, d2, d3⟩ := m2 i (by omega) (by omega)
      have hrange := (read_frame_header_ranges hhdr).2.2.2.1
      have hshift : wrap32 ((frame_header.wasted_bits : Int) * 8) =
          8 * (frame_header.wasted_bits : Int) := by
        rw [wrap32_of_in_int32 (by unfold in_int32; omega)]
        ring
      rw [hshift] at d3
      exact ⟨dch, wch, sch, dv, wv, c1, by rw [hwb]; exact c2, c3, d1, d2, d3⟩


/-- C3, scenario S4: with one wasted byte per sample, the decorrelated sample 0x1234
and the wasted-bits sample 0x56 give the final sample 0x123456. -/
theorem read_wasted_bits_merge_witness :
    (1 ≤ scenario_S4_decoder.total_frames ∧
      ALACDecoder_read_frame_header scenario_S4_decoder.bitstream
        scenario_S4_decoder.max_samples_per_frame =
          .ok (scenario_S4_header, scenario_S4_after_header) ∧
      scenario_S4_header.is_not_compressed = 0 ∧ 0 < scenario_S4_header.wasted_bits ∧
      ALACDecoder_read scenario_S4_decoder =
        .ok (scenario_S4_decoder_after, scenario_S4_framelist)) ∧
    (scenario_S4_decoder_after.subframe_samples = [[0x1234, 0x1234]] ∧
      scenario_S4_decoder_after.wasted_bits_samples = [[0x56, 0x00]] ∧
      scenario_S4_decoder_after.samples = [[0x123456, 0x123400]] ∧
      wrap32 (Int.lor (wrap32 (shl 0x1234 (8 * 1))) 0x56) = 0x123456) ∧
    ∃ decorrelated : ia_array,
      ALACDecoder_decorrelate_channels (iaa_reset scenario_S4_decoder.samples)
        scenario_S4_decoder_after.subframe_samples
        (bits_value (scenario_S4_after_header.remaining.take 8))
        (bits_value ((scenario_S4_after_header.remaining.drop 8).take 8)) =
          .ok decorrelated ∧
      ∀ ch i, ch < scenario_S4_decoder.channels.toNat →
        i < scenario_S4_header.output_samples →
        ∃ (dch wch sch : i_array) (d w : Int),
          decorrelated[ch]? = some dch ∧
          scenario_S4_decoder_after.wasted_bits_samples[ch]? = some wch ∧
          scenario_S4_decoder_after.samples[ch]? = some sch ∧
          dch[i]? = some d ∧ wch[i]? = some w ∧
          sch[i]? = some (wrap32 (Int.lor
            (wrap32 (shl d (8 * scenario_S4_header.wasted_bits))) w)) :=
  ⟨⟨by decide, by decide, by decide, by decide, by decide⟩,
   ⟨by decide, by decide, by decide, by decide⟩,
   read_wasted_bits_merge scenario_S4_decoder scenario_S4_decoder_after scenario_S4_framelist
     scenario_S4_header scenario_S4_after_header (by decide) (by decide) (by decide)
     (by decide) (by decide)⟩


/-! ## When a frame is rejected -/

theorem read_uncompressed_frame_error {self : decoders_ALACDecoder}
    {frame_header : alac_frame_header} {e : Failure}
    (h : read_uncompressed_frame self frame_header = .error e) : ¬ e.is_value_error := by
  unfold read_uncompressed_frame at h
  split at h
  · rename_i hx
    cases h
    exact interleaved_block_error _ (read_uncompressed_sample_error _) _ _ _ _ _ hx
  · cases h

theorem read_compressed_frame_error {self : decoders_ALACDecoder}
    {frame_header : alac_frame_header} {e : Failure}
    (h : read_compressed_frame self frame_header = .error e) :
    ¬ e.is_value_error ∨
    (e = .value_error .prediction_type ∧
      ∃ x ∈ parse_subframe_headers self.channels.toNat (self.bitstream.advance 16),
        x.prediction_type ≠ 0) ∨
    (e = .value_error .coefficient_count ∧
      ∃ x ∈ parse_subframe_headers self.channels.toNat (self.bitstream.advance 16),
        x.predictor_coef_table.length = 0) := by
  unfold read_compressed_frame at h
  split at h
  · rename_i hx
    cases h
    rcases read_compressed_input_error hx with h1 | h1
    · exact Or.inl h1
    · exact Or.inr (Or.inl h1)
  · rename_i self1 shift lw hin
    obtain ⟨_, i2, _, _, _, bs3, bs4, hloop, _⟩ := read_compressed_input_ok hin
    obtain ⟨_, _, _, p4, _⟩ := read_subframe_headers_loop_ok _ _ _ _ _ _ hloop
    split at h
    · rename_i hx
      cases h
      rcases decode_subframes_loop_error _ _ _ _ _ _ hx with h1 | ⟨h1, t, x, t1, t2, t3, t4⟩
      · rw [h1]; exact Or.inl (by simp [Failure.is_value_error])
      · refine Or.inr (Or.inr ⟨h1, x, ?_, t4⟩)
        have := p4 t (by rw [i2] at t2; omega)
        rw [Nat.zero_add, t3] at this
        exact List.mem_iff_getElem?.mpr ⟨t, this.symm⟩
    · split at h
      · rename_i hx
        cases h
        rw [decorrelate_channels_error hx]
        exact Or.inl (by simp [Failure.is_value_error])
      · split at h
        · rename_i hx
          cases h
          rw [merge_frame_wasted_bits_error hx]
          exact Or.inl (by simp [Failure.is_value_error])
        · cases h

/-- A frame whose body is read has every subframe header that the stream spells
accepted: prediction type 0 and at least one coefficient. -/
theorem read_compressed_frame_accepts {self self2 : decoders_ALACDecoder}
    {frame_header : alac_frame_header}
    (h : read_compressed_frame self frame_header = .ok self2) :
    ∀ x ∈ parse_subframe_headers self.channels.toNat (self.bitstream.advance 16),
      x.prediction_type = 0 ∧ 1 ≤ x.predictor_coef_table.length := by
  obtain ⟨self1, shift, lw, hs, d, hin, hdec, _, _, _, _⟩ := read_compressed_frame_ok h
  obtain ⟨_, i2, _, _, _, bs3, bs4, hloop, _⟩ := read_compressed_input_ok hin
  obtain ⟨p1, _, p3, p4, _⟩ := read_subframe_headers_loop_ok _ _ _ _ _ _ hloop
  intro x hx
  refine ⟨p1 x hx, ?_⟩
  obtain ⟨t, ht⟩ := List.mem_iff_getElem?.mp hx
  have htn : t < self.channels.toNat := by
    by_contra hc
    rw [List.getElem?_eq_none (by omega)] at ht
    cases ht
  have h4 := p4 t htn
  rw [Nat.zero_add, ht] at h4
  obtain ⟨y, hy1, hy2⟩ := decode_subframes_loop_ok _ _ _ _ _ _ _ hdec t (by omega)
    (by rw [i2]; omega)
  rw [h4] at hy1
  cases hy1
  exact hy2

theorem read_frame_body_error {self : decoders_ALACDecoder} {kind : ValueErrorKind}
    (h : read_frame_body self = .error (.value_error kind)) :
    (kind = .channel_count ∧ frame_channel_mismatch self) ∨
    (kind = .prediction_type ∧ frame_unsupported_prediction self) ∨
    (kind = .coefficient_count ∧ frame_empty_coefficients self) := by
  unfold read_frame_body at h
  split at h
  · rename_i hx
    cases h
    have := read_frame_header_error hx
    cases this
  · rename_i frame_header bs1 hhdr
    split at h
    · rename_i hne
      cases h
      exact Or.inl ⟨rfl, frame_header, bs1, hhdr, hne⟩
    · split at h
      · rename_i e1 hx
        cases h
        unfold read_frame_samples at hx
        split at hx
        · exact absurd trivial (read_uncompressed_frame_error hx)
        · rename_i hnc
          have hfs : frame_subframe_headers self =
              parse_subframe_headers self.channels.toNat (bs1.advance 16) := by
            unfold frame_subframe_headers
            rw [hhdr]
            simp only []
            rw [if_neg hnc]
          rcases read_compressed_frame_error hx with h1 | ⟨h1, h2⟩ | ⟨h1, h2⟩
          · exact absurd trivial h1
          · cases h1
            refine Or.inr (Or.inl ⟨rfl, ?_⟩)
            unfold frame_unsupported_prediction
            rw [hfs]
            exact h2
          · cases h1
            refine Or.inr (Or.inr ⟨rfl, ?_⟩)
            unfold frame_empty_coefficients
            rw [hfs]
            exact h2
      · cases h

theorem read_frame_body_accepts {self self1 : decoders_ALACDecoder}
    {frame_header : alac_frame_header}
    (h : read_frame_body self = .ok (self1, frame_header)) :
    ¬ frame_channel_mismatch self ∧ ¬ frame_unsupported_prediction self ∧
    ¬ frame_empty_coefficients self := by
  unfold read_frame_body at h
  split at h
  · cases h
  · rename_i hdr bs1 hhdr
    split at h
    · cases h
    · rename_i heq
      split at h
      · cases h
      · rename_i self2 hx
        have hall : ∀ x ∈ frame_subframe_headers self,
            x.prediction_type = 0 ∧ 1 ≤ x.predictor_coef_table.length := by
          unfold frame_subframe_headers
          rw [hhdr]
          simp only []
          unfold read_frame_samples at hx
          split at hx
          · rename_i hnc
            rw [if_pos hnc]
            intro x hx1
            cases hx1
          · rename_i hnc
            rw [if_neg hnc]
            exact read_compressed_frame_accepts hx
        refine ⟨?_, ?_, ?_⟩
        · rintro ⟨hdr2, bs2, h2, hne⟩
          rw [hhdr] at h2
          simp only [Except.ok.injEq, Prod.mk.injEq] at h2
          rw [← h2.1] at hne
          exact hne (not_not.mp heq)
        · rintro ⟨x, hx1, hx2⟩
          exact hx2 (hall x hx1).1
        · rintro ⟨x, hx1, hx2⟩
          have := (hall x hx1).2
          omega

/-- The `ValueError`s of `ALACDecoder_read` and their four causes: the header's
channel count differs from the stream's; the frame is compressed and a
subframe has a prediction type other than 0; the frame is compressed and a
subframe has no coefficient; the 3 bits after the frame's body are not 111.
A `ValueError` has one of these causes; and when one of them holds the call
returns no frame: it fails, with the `ValueError` unless the stream ends, a
read leaves a buffer or LOG2 does not return before the check is reached. -/
theorem read_value_error_causes (self : decoders_ALACDecoder)
    (htotal : 1 ≤ self.total_frames) :
    ((∃ kind, ALACDecoder_read self = .error (.value_error kind)) →
      (frame_channel_mismatch self ∨ frame_unsupported_prediction self ∨
        frame_empty_coefficients self ∨ frame_bad_signature self)) ∧
    ((frame_channel_mismatch self ∨ frame_unsupported_prediction self ∨
        frame_empty_coefficients self ∨ frame_bad_signature self) →
      ∃ e, ALACDecoder_read self = .error e) := by
  have hunfold : ALACDecoder_read self =
      match read_frame { self with samples := iaa_reset self.samples } with
      | .error e => .error e
      | .ok (self1, frame_header) => write_frame self1 frame_header.output_samples := by
    unfold ALACDecoder_read
    simp only []
    rw [if_neg (by simp; omega)]
  have hm1 : frame_channel_mismatch { self with samples := iaa_reset self.samples } ↔
      frame_channel_mismatch self := Iff.rfl
  have hm2 : frame_unsupported_prediction { self with samples := iaa_reset self.samples } ↔
      frame_unsupported_prediction self := Iff.rfl
  have hm3 : frame_empty_coefficients { self with samples := iaa_reset self.samples } ↔
      frame_empty_coefficients self := Iff.rfl
  refine ⟨?_, ?_⟩
  · rintro ⟨kind, he⟩
    rw [hunfold] at he
    split at he
    · rename_i e1 hframe
      cases he
      unfold read_frame at hframe
      split at hframe
      · rename_i e2 hbody
        cases hframe
        rcases read_frame_body_error hbody with ⟨_, h1⟩ | ⟨_, h1⟩ | ⟨_, h1⟩
        · exact Or.inl (hm1.mp h1)
        · exact Or.inr (Or.inl (hm2.mp h1))
        · exact Or.inr (Or.inr (Or.inl (hm3.mp h1)))
      · rename_i self1 hdr hbody
        split at hframe
        · rename_i hx
          cases hframe
          have := read_bits_error hx
          cases this
        · rename_i sig bs1 hsig
          split at hframe
          · rename_i hne
            exact Or.inr (Or.inr (Or.inr ⟨self1, hdr, sig, bs1, hbody, hsig, hne⟩))
          · cases hframe
    · have := write_frame_error he
      cases this
  · intro hcond
    rw [hunfold]
    unfold read_frame
    cases hbody : read_frame_body { self with samples := iaa_reset self.samples } with
    | error e => exact ⟨e, rfl⟩
    | ok p =>
      obtain ⟨self1, hdr⟩ := p
      obtain ⟨n1, n2, n3⟩ := read_frame_body_accepts hbody
      rcases hcond with h1 | h1 | h1 | h1
      · exact absurd (hm1.mpr h1) n1
      · exact absurd (hm2.mpr h1) n2
      · exact absurd (hm3.mpr h1) n3
      · obtain ⟨self2, hdr2, sig, bs1, hb, hs, hne⟩ := h1
        rw [hbody] at hb
        simp only [Except.ok.injEq, Prod.mk.injEq] at hb
        obtain ⟨hb1, hb2⟩ := hb
        subst hb1 hb2
        simp only []
        rw [hs]
        simp only []
        rw [if_pos hne]
        exact ⟨_, rfl⟩


/-- One rejected frame per cause: the frame of scenario S1 with the signature 101,
a frame with a channel count other than the stream's, a frame with the
prediction type 1 and a frame with no coefficient; the frame of scenario S1
itself is accepted. -/
theorem read_value_error_frames :
    ALACDecoder_read bad_signature_decoder = .error (.value_error .signature) ∧
    ALACDecoder_read channel_mismatch_decoder = .error (.value_error .channel_count) ∧
    ALACDecoder_read unsupported_prediction_decoder =
      .error (.value_error .prediction_type) ∧
    ALACDecoder_read empty_coefficients_decoder =
      .error (.value_error .coefficient_count) ∧
    (ALACDecoder_read scenario_S1_decoder).map (fun r => r.2.frames) = .ok 4 := by
  refine ⟨?_, ?_, ?_, ?_, ?_⟩
  · decide
  · decide
  · decide
  · decide
  · decide

/-- C9 at the failing input: `negative_residual_frame` is compressed, its header
gives output_samples = 2, its one subframe header has no coefficient, and the
stream holds the whole frame of 112 bits; `ALACDecoder_read` does not come
back with the `ValueError` for the coefficient count, because the first
residual, the 32-bit escape field 0xFFFFFFFF, is returned as -1, the history
becomes 10 + (-1) * 40 = -30, and LOG2 does not return on it. With 16 bits
per sample the same frame is rejected for its coefficient count. -/
theorem read_hangs_before_value_error :
    (ALACDecoder_read_frame_header negative_residual_decoder.bitstream
        negative_residual_decoder.max_samples_per_frame).map (fun r => r.1) =
      .ok { channels := 1, has_size := 0, wasted_bits := 0, is_not_compressed := 0,
            output_samples := 2 } ∧
    negative_residual_frame.length = 112 ∧
    frame_subframe_headers negative_residual_decoder =
      [{ prediction_type := 0, prediction_quantitization := 1, rice_modifier := 0,
         predictor_coef_table := [] }] ∧
    frame_empty_coefficients negative_residual_decoder ∧
    (ALACDecoder_read_residual (bitstream_of (negative_residual_frame.drop 55)) 1 32).map
      (fun r => r.1) = .ok (-1) ∧
    update_history 10 (-1) 40 = -30 ∧
    LOG2 (-30) = .error .diverges ∧
    ALACDecoder_read negative_residual_decoder = .error .diverges ∧
    ALACDecoder_read { negative_residual_decoder with bits_per_sample := 16 } =
      .error (.value_error .coefficient_count) := by
  refine ⟨?_, ?_, ?_, ⟨_, List.mem_singleton.mpr rfl, rfl⟩, ?_, ?_, ?_, ?_, ?_⟩
  · decide
  · decide
  · decide
  · decide
  · decide
  · decide
  · decide
  · decide



/-! ## LOG2 -/

theorem shr_one (v : Int) : shr v 1 = v / 2 := by
  unfold shr shl
  simp

theorem shr_nonneg_count (v : Int) (n : Nat) : shr v n = v / 2 ^ n := by
  unfold shr shl
  by_cases h : n = 0
  · subst h; simp
  · rw [if_neg (by omega)]
    simp

/-- The loop of `LOG2` on a value of at most `fuel` bits: it ends, after as many
rounds `n` as the value has bits. -/
theorem LOG2_loop_spec :
    ∀ (fuel : Nat) (value bits : Int), 0 ≤ value → value < 2 ^ fuel → -1 ≤ bits →
      bits + fuel < 2147483648 →
      ∃ n : Nat, n ≤ fuel ∧ LOG2_loop fuel value bits = .ok (bits + n) ∧
        ((value = 0 ∧ n = 0) ∨ (1 ≤ n ∧ (2 : Int) ^ (n - 1) ≤ value ∧ value < 2 ^ n)) := by
  intro fuel
  induction fuel with
  | zero =>
    intro value bits h0 h1 _ _
    have hv : value = 0 := by simp at h1; omega
    subst hv
    exact ⟨0, le_refl _, by simp [LOG2_loop], Or.inl ⟨rfl, rfl⟩⟩
  | succ fuel ih =>
    intro value bits h0 h1 hb1 hb2
    by_cases hv : value = 0
    · subst hv
      exact ⟨0, by omega, by simp [LOG2_loop], Or.inl ⟨rfl, rfl⟩⟩
    · have hpow : (2 : Int) ^ (fuel + 1) = 2 * 2 ^ fuel := by rw [pow_succ]; ring
      have hhalf : value / 2 < 2 ^ fuel := by omega
      have hw : wrap32 (bits + 1) = bits + 1 :=
        wrap32_of_in_int32 (by unfold in_int32; push_cast at hb2; omega)
      obtain ⟨n, hn, hloop, hcase⟩ := ih (value / 2) (bits + 1) (by omega) hhalf (by omega)
        (by push_cast at hb2 ⊢; omega)
      refine ⟨n + 1, by omega, ?_, Or.inr ⟨by omega, ?_⟩⟩
      · rw [LOG2_loop, if_pos hv, shr_one, hw, hloop]
        congr 1
        push_cast
        ring
      · rcases hcase with ⟨hz, hn0⟩ | ⟨hn1, hlo, hhi⟩
        · subst hn0
          simp
          omega
        · have e1 : (2 : Int) ^ n = 2 * 2 ^ (n - 1) := by
            conv_lhs => rw [show n = (n - 1) + 1 by omega]
            rw [pow_succ]; ring
          have e2 : (2 : Int) ^ (n + 1) = 2 * 2 ^ n := by rw [pow_succ]; ring
          rw [Nat.add_sub_cancel, e2]
          constructor <;> omega

/-- C12: LOG2(0) = -1, and for every v > 0 that an `int` holds LOG2 returns the
index l of the highest set bit of v: 2^l <= v < 2^(l+1). -/
theorem LOG2_floor (v : Int) (hpos : 0 < v) (hint : v < 2147483648) :
    LOG2 0 = .ok (-1) ∧
    ∃ l : Nat, LOG2 v = .ok (l : Int) ∧ (2 : Int) ^ l ≤ v ∧ v < 2 ^ (l + 1) := by
  refine ⟨by decide, ?_⟩
  obtain ⟨n, _, hloop, hcase⟩ := LOG2_loop_spec 32 v (-1) (by omega)
    (by norm_num; omega) (le_refl _) (by norm_num)
  rcases hcase with ⟨hz, _⟩ | ⟨hn1, hlo, hhi⟩
  · omega
  · refine ⟨n - 1, ?_, hlo, ?_⟩
    · unfold LOG2
      rw [hloop]
      congr 1
      omega
    · rw [show n - 1 + 1 = n by omega]
      exact hhi

/-- C12 at concrete values: LOG2(0) = -1, LOG2(1) = 0, LOG2(731) = 9 and
LOG2(2^31 - 1) = 30. -/
theorem LOG2_floor_witness :
    ((0 : Int) < 731 ∧ (731 : Int) < 2147483648) ∧
    LOG2 1 = .ok 0 ∧ LOG2 731 = .ok 9 ∧ LOG2 2147483647 = .ok 30 ∧
    (LOG2 0 = .ok (-1) ∧
      ∃ l : Nat, LOG2 731 = .ok (l : Int) ∧ (2 : Int) ^ l ≤ 731 ∧ (731 : Int) < 2 ^ (l + 1)) :=
  ⟨by decide, by decide, by decide, by decide, LOG2_floor 731 (by decide) (by decide)⟩




/-! ## 32-bit arithmetic -/

theorem wrap32_exists (x : Int) : ∃ t : Int, wrap32 x = x + 4294967296 * t := by
  refine ⟨-((x + 2147483648) / 4294967296), ?_⟩
  unfold wrap32
  have := Int.emod_add_ediv (x + 2147483648) 4294967296
  omega

theorem wrap32_add_mul (a t : Int) : wrap32 (a + 4294967296 * t) = wrap32 a := by
  unfold wrap32
  rw [show a + 4294967296 * t + 2147483648 = a + 2147483648 + 4294967296 * t by ring,
    Int.add_mul_emod_self_left]

theorem wrap32_add_left (a b : Int) : wrap32 (wrap32 a + b) = wrap32 (a + b) := by
  obtain ⟨t, ht⟩ := wrap32_exists a
  rw [ht, show a + 4294967296 * t + b = a + b + 4294967296 * t by ring, wrap32_add_mul]

theorem wrap32_add_right (a b : Int) : wrap32 (a + wrap32 b) = wrap32 (a + b) := by
  rw [add_comm, wrap32_add_left, add_comm]

theorem wrap32_sub_left (a b : Int) : wrap32 (wrap32 a - b) = wrap32 (a - b) := by
  rw [sub_eq_add_neg, wrap32_add_left, ← sub_eq_add_neg]

theorem wrap32_sub_right (a b : Int) : wrap32 (a - wrap32 b) = wrap32 (a - b) := by
  obtain ⟨t, ht⟩ := wrap32_exists b
  rw [ht, show a - (b + 4294967296 * t) = a - b + 4294967296 * (-t) by ring, wrap32_add_mul]

theorem wrap32_mul_right (a b : Int) : wrap32 (a * wrap32 b) = wrap32 (a * b) := by
  obtain ⟨t, ht⟩ := wrap32_exists b
  rw [ht, show a * (b + 4294967296 * t) = a * b + 4294967296 * (a * t) by ring, wrap32_add_mul]

theorem wrap32_mul_left (a b : Int) : wrap32 (wrap32 a * b) = wrap32 (a * b) := by
  rw [mul_comm, wrap32_mul_right, mul_comm]

theorem shl_one_nonneg (k : Int) (hk : 0 ≤ k) : shl 1 k = 2 ^ k.toNat := by
  unfold shl
  rw [if_pos hk]
  ring

/-! ## Rice-coded residuals -/

theorem bits_value_append_singleton (l : List Bool) (b : Bool) :
    bits_value (l ++ [b]) = 2 * bits_value l + (if b then 1 else 0) := by
  simp [bits_value, List.foldl_append]

/-- A field whose value is 0 or 1 ends in the bit that tells which. -/
theorem last_bit_of_small_field (rest : List Bool) (K : Nat) (hK : 1 ≤ K)
    (hlen : K ≤ rest.length) (hsmall : bits_value (rest.take K) ≤ 1) :
    decide (bits_value (rest.take K) = 1) :: rest.drop K = rest.drop (K - 1) := by
  have hlt : K - 1 < rest.length := by omega
  have htake : rest.take K = rest.take (K - 1) ++ [rest[K - 1]] := by
    conv_lhs => rw [show K = (K - 1) + 1 by omega]
    rw [List.take_succ, List.getElem?_eq_getElem hlt]
    rfl
  rw [htake, bits_value_append_singleton] at hsmall ⊢
  rw [List.drop_eq_getElem_cons hlt, show K - 1 + 1 = K by omega]
  congr 1
  cases hb : rest[K - 1]
  · simp only [hb, Bool.false_eq_true, if_false, Nat.add_zero, decide_eq_false_iff_not] at hsmall ⊢
    omega
  · simp only [hb, if_true, decide_eq_true_eq] at hsmall ⊢
    omega

theorem remaining_after_unary (bs : Bitstream) (x : Nat) (rest : List Bool)
    (hbits : bs.remaining = List.replicate x true ++ false :: rest) :
    (bs.advance (x + 1)).remaining = rest := by
  simp only [Bitstream.advance, hbits]
  rw [show List.replicate x true ++ false :: rest =
    (List.replicate x true ++ [false]) ++ rest by simp]
  rw [List.drop_append_of_le_length (by simp)]
  simp

/-- The unary loop over `x ≤ 8` one-bits and the zero-bit that ends them. -/
theorem read_residual_unary_prefix (bs : Bitstream) (x : Nat) (rest : List Bool)
    (hx : x ≤ 8) (hbits : bs.remaining = List.replicate x true ++ false :: rest) :
    read_residual_unary 10 0 bs = .ok ((x : Int), bs.advance (x + 1)) := by
  have h1 := read_residual_unary_ones x (10 - x) 0 bs (le_refl _) (by omega)
    (by rw [hbits]; simp [List.take_append_eq_append_take])
  rw [show 10 - x + x = 10 by omega] at h1
  rw [h1, show 10 - x = (9 - x) + 1 by omega, read_residual_unary,
    if_pos (by unfold RICE_THRESHOLD; omega),
    read_bits_one_false (bs.advance x) rest (by simp [Bitstream.advance, hbits])]
  simp [advance_advance]

/-- C18: after x <= 8 one-bits and a zero-bit, `ALACDecoder_read_residual` returns x
for k <= 1, having taken x + 1 bits; for k > 1 it reads a k-bit field e and
returns x * (2^k - 1) + e - 1 when e > 1, having taken x + 1 + k bits, and
x * (2^k - 1) when e <= 1, after pushing back one bit of value e, the last
bit of the field, so that x + k bits are taken and the next read sees that
bit again. The values are those of C's 32-bit `int` arithmetic, the plain
integers for k <= 27. -/
theorem read_residual_rice (bs : Bitstream) (x : Nat) (rest : List Bool)
    (k sample_size : Int) (hx : x ≤ 8)
    (hbits : bs.remaining = List.replicate x true ++ false :: rest) :
    (k ≤ 1 → ALACDecoder_read_residual bs k sample_size = .ok ((x : Int), bs.advance (x + 1))) ∧
    (1 < k → k ≤ 31 → k.toNat ≤ rest.length →
      ∀ e : Nat, e = bits_value (rest.take k.toNat) →
        (1 < e →
          ALACDecoder_read_residual bs k sample_size =
            .ok (wrap32 ((x : Int) * (2 ^ k.toNat - 1) + e - 1), bs.advance (x + 1 + k.toNat)) ∧
          (k ≤ 27 → wrap32 ((x : Int) * (2 ^ k.toNat - 1) + e - 1) =
            (x : Int) * (2 ^ k.toNat - 1) + e - 1)) ∧
        (e ≤ 1 →
          ALACDecoder_read_residual bs k sample_size =
            .ok (wrap32 ((x : Int) * (2 ^ k.toNat - 1)),
                 { remaining := decide (e = 1) :: rest.drop k.toNat
                   consumed := bs.consumed + (x + 1 + k.toNat) - 1
                   pushed_back := bs.pushed_back + 1 }) ∧
          decide (e = 1) :: rest.drop k.toNat = rest.drop (k.toNat - 1) ∧
          (k ≤ 27 → wrap32 ((x : Int) * (2 ^ k.toNat - 1)) = (x : Int) * (2 ^ k.toNat - 1)))) := by
  have hunary := read_residual_unary_prefix bs x rest hx hbits
  have hxle : ¬ ((x : Int) > RICE_THRESHOLD) := by unfold RICE_THRESHOLD; omega
  constructor
  · intro hk
    unfold ALACDecoder_read_residual
    rw [hunary]
    simp only []
    rw [if_neg hxle, if_neg (by omega)]
  · intro hk1 hk31 hlen e he
    have hK : k.toNat ≤ 31 := by omega
    have hu : to_unsigned k = k.toNat := to_unsigned_of_nonneg (by omega) (by omega)
    have hrem : (bs.advance (x + 1)).remaining = rest :=
      remaining_after_unary bs x rest hbits
    have hread : read_bits (bs.advance (x + 1)) k.toNat =
        .ok (e, bs.advance (x + 1 + k.toNat)) := by
      rw [read_bits_ok _ _ (by rw [hrem]; exact hlen), hrem, he, advance_advance]
    have hebound : e < 2 ^ k.toNat := by
      rw [he]
      have h3 := bits_value_lt (rest.take k.toNat)
      have h4 : (rest.take k.toNat).length ≤ k.toNat := by rw [List.length_take]; omega
      exact lt_of_lt_of_le h3 (Nat.pow_le_pow_right (by norm_num) h4)
    have hpow31 : (2 : Nat) ^ k.toNat ≤ 2 ^ 31 := Nat.pow_le_pow_right (by norm_num) hK
    have he31 : wrap32 (e : Int) = e := wrap32_of_in_int32 (by unfold in_int32; omega)
    have hx1 : wrap32 ((x : Int) * wrap32 (wrap32 (shl 1 k) - 1)) =
        wrap32 ((x : Int) * (2 ^ k.toNat - 1)) := by
      rw [wrap32_sub_left, wrap32_mul_right, shl_one_nonneg k (by omega)]
    have hexact : k ≤ 27 → ∀ d : Int, 0 ≤ d → d < 2 ^ 27 →
        wrap32 ((x : Int) * (2 ^ k.toNat - 1) + d) = (x : Int) * (2 ^ k.toNat - 1) + d := by
      intro hk27 d hd0 hd1
      have hp : (2 : Int) ^ k.toNat ≤ 2 ^ 27 := by
        have : (2 : Nat) ^ k.toNat ≤ 2 ^ 27 :=
          Nat.pow_le_pow_right (by norm_num) (by omega)
        exact_mod_cast this
      have hp1 : (1 : Int) ≤ 2 ^ k.toNat := by
        have : 1 ≤ (2 : Nat) ^ k.toNat := Nat.one_le_two_pow
        exact_mod_cast this
      have hxi : (x : Int) ≤ 8 := by omega
      have hx0 : (0 : Int) ≤ x := by omega
      apply wrap32_of_in_int32
      unfold in_int32
      norm_num at hp hd1
      constructor
      · nlinarith
      · nlinarith
    constructor
    · intro he1
      constructor
      · unfold ALACDecoder_read_residual
        rw [hunary]
        simp only []
        rw [if_neg hxle, if_pos hk1, hu, hread]
        simp only []
        rw [he31, if_pos (by omega), hx1, wrap32_add_left, wrap32_add_right,
          show (x : Int) * (2 ^ k.toNat - 1) + ((e : Int) - 1) =
            (x : Int) * (2 ^ k.toNat - 1) + e - 1 by ring]
      · intro hk27
        have hp : (2 : Nat) ^ k.toNat ≤ 2 ^ 27 :=
          Nat.pow_le_pow_right (by norm_num) (by omega)
        have := hexact hk27 ((e : Int) - 1) (by omega) (by norm_num at hp ⊢; omega)
        rw [show (x : Int) * (2 ^ k.toNat - 1) + ((e : Int) - 1) =
          (x : Int) * (2 ^ k.toNat - 1) + e - 1 by ring] at this
        exact this
    · intro he1
      refine ⟨?_, ?_, ?_⟩
      · unfold ALACDecoder_read_residual
        rw [hunary]
        simp only []
        rw [if_neg hxle, if_pos hk1, hu, hread]
        simp only []
        rw [he31, if_neg (by omega), hx1]
        have hrem2 : (bs.advance (x + 1 + k.toNat)).remaining = rest.drop k.toNat := by
          rw [← advance_advance]
          simp only [Bitstream.advance] at hrem ⊢
          rw [hrem]
        have hub : ∀ b, unread_bit (bs.advance (x + 1 + k.toNat)) b =
            { remaining := b :: rest.drop k.toNat
              consumed := bs.consumed + (x + 1 + k.toNat) - 1
              pushed_back := bs.pushed_back + 1 } := by
          intro b
          unfold unread_bit
          rw [hrem2]
          rfl
        by_cases h1 : e = 1
        · rw [if_pos (by rw [h1]; rfl), hub]
          simp [h1]
        · rw [if_neg (by intro hc; apply h1; exact_mod_cast hc), hub]
          simp [h1]
      · rw [he]
        exact last_bit_of_small_field rest k.toNat (by omega) hlen (by rw [← he]; exact he1)
      · intro hk27
        have := hexact hk27 0 (le_refl _) (by norm_num)
        simpa using this

/-- C18 at concrete codes with k = 4: 110 0110 returns 2 * 15 + 6 - 1 = 35 after
7 bits; 110 0001 returns 2 * 15 = 30 and pushes the last bit back, so that 6
bits are taken and the bit 1 is the next one read; with k = 1 the code 110
returns 2 after 3 bits. -/
theorem read_residual_rice_witness :
    (2 ≤ 8 ∧ rice_code_35.remaining = List.replicate 2 true ++ false :: rice_field_6 ∧
      (1 : Int) < 4 ∧ (4 : Int) ≤ 31 ∧ (4 : Int).toNat ≤ rice_field_6.length ∧
      6 = bits_value (rice_field_6.take (4 : Int).toNat) ∧ 1 < 6) ∧
    ALACDecoder_read_residual rice_code_35 4 16 =
      .ok (35, { remaining := field_bits 3 5, consumed := 7, pushed_back := 0 }) ∧
    ALACDecoder_read_residual rice_code_30 4 16 =
      .ok (30, { remaining := true :: field_bits 3 5, consumed := 6, pushed_back := 1 }) ∧
    ALACDecoder_read_residual rice_code_35 1 16 =
      .ok (2, { remaining := rice_field_6, consumed := 3, pushed_back := 0 }) ∧
    ALACDecoder_read_residual rice_code_35 4 16 =
      .ok (wrap32 (((2 : Nat) : Int) * (2 ^ (4 : Int).toNat - 1) + ((6 : Nat) : Int) - 1),
           rice_code_35.advance (2 + 1 + (4 : Int).toNat)) :=
  ⟨⟨by decide, by decide, by decide, by decide, by decide, by decide, by decide⟩,
   by decide, by decide, by decide,
   ((((read_residual_rice rice_code_35 2 rice_field_6 4 16 (by decide) (by decide)).2
      (by decide) (by decide) (by decide)) 6 (by decide)).1 (by decide)).1⟩



/-! ## The rounds of the residual loop -/

/-- The loop of `ALACDecoder_read_residuals` runs `read_residuals_round` for as long
as its guard holds. -/
theorem read_residuals_loop_round
    (residual_count sample_size history_multiplier maximum_k : Int) (fuel : Nat)
    (s : residuals_state) :
    read_residuals_loop residual_count sample_size history_multiplier maximum_k (fuel + 1)
        s.i s.history s.sign_modifier s.residuals s.bitstream =
      if s.i < residual_count then
        match read_residuals_round residual_count sample_size history_multiplier maximum_k s with
        | .error e => .error e
        | .ok s1 =>
          read_residuals_loop residual_count sample_size history_multiplier maximum_k fuel
            s1.i s1.history s1.sign_modifier s1.residuals s1.bitstream
      else .ok (s.residuals, s.bitstream) := by
  rw [read_residuals_loop]
  unfold read_residuals_round
  by_cases hi : s.i < residual_count
  · rw [if_pos hi, if_pos hi]
    cases LOG2 (wrap32 (shr s.history 9 + 3)) with
    | error e => rfl
    | ok log =>
      simp only []
      cases ALACDecoder_read_residual s.bitstream (MIN log maximum_k) sample_size with
      | error e => rfl
      | ok p =>
        obtain ⟨x, bs1⟩ := p
        simp only []
        by_cases hz : update_history s.history (wrap32 (x + s.sign_modifier))
            history_multiplier < 128 ∧ s.i + 1 < residual_count
        · rw [if_pos hz, if_pos hz]
          cases LOG2 (update_history s.history (wrap32 (x + s.sign_modifier))
              history_multiplier) with
          | error e => rfl
          | ok log1 =>
            simp only []
            cases ALACDecoder_read_residual bs1 (zero_block_k log1
                (update_history s.history (wrap32 (x + s.sign_modifier)) history_multiplier)
                maximum_k) 16 with
            | error e => rfl
            | ok q => rfl
        · rw [if_neg hz, if_neg hz]
  · rw [if_neg hi, if_neg hi]

theorem append_zero_block_eq (n : Nat) (residuals : i_array) :
    append_zero_block n residuals = residuals ++ List.replicate n 0 := by
  induction n generalizing residuals with
  | zero => simp [append_zero_block]
  | succ n ih =>
    rw [append_zero_block, ih, ia_append, List.append_assoc]
    congr 1

/-- LOG2 of a negative value never comes back. -/
theorem LOG2_loop_negative :
    ∀ (fuel : Nat) (value bits : Int), value < 0 →
      LOG2_loop fuel value bits = .error .diverges := by
  intro fuel
  induction fuel with
  | zero =>
    intro value bits h
    rw [LOG2_loop, if_pos (by omega)]
  | succ fuel ih =>
    intro value bits h
    rw [LOG2_loop, if_pos (by omega), shr_one]
    exact ih _ _ (by omega)

/-- What LOG2 returns, when it returns, for an `int`: -1 for 0 and the index of the
highest set bit otherwise. -/
theorem LOG2_ok_inv {v l : Int} (hint : v < 2147483648) (h : LOG2 v = .ok l) :
    0 ≤ v ∧ -1 ≤ l ∧ l ≤ 30 ∧
      ((v = 0 ∧ l = -1) ∨ (0 ≤ l ∧ (2 : Int) ^ l.toNat ≤ v ∧ v < 2 ^ (l.toNat + 1))) := by
  have h0 : 0 ≤ v := by
    by_contra hc
    unfold LOG2 at h
    rw [LOG2_loop_negative 32 v (-1) (by omega)] at h
    cases h
  obtain ⟨n, hn, hloop, hcase⟩ := LOG2_loop_spec 32 v (-1) h0
    (by norm_num; omega) (le_refl _) (by norm_num)
  unfold LOG2 at h
  rw [hloop] at h
  simp only [Except.ok.injEq] at h
  subst h
  rcases hcase with ⟨hz, hn0⟩ | ⟨hn1, hlo, hhi⟩
  · subst hn0
    exact ⟨h0, by simp, by simp, Or.inl ⟨hz, by simp⟩⟩
  · have hn31 : n ≤ 31 := by
      by_contra hc
      have : (2 : Int) ^ 31 ≤ 2 ^ (n - 1) :=
        pow_le_pow_right₀ (by norm_num) (by omega)
      norm_num at this
      omega
    have e : ((-1 : Int) + (n : Int)).toNat = n - 1 := by omega
    refine ⟨h0, by omega, by omega, Or.inr ⟨by omega, ?_, ?_⟩⟩
    · rw [e]; exact hlo
    · rw [e, show n - 1 + 1 = n by omega]; exact hhi

theorem read_residual_unary_range :
    ∀ (fuel : Nat) (x : Int) (bs : Bitstream) (u : Int) (bs1 : Bitstream),
      read_residual_unary fuel x bs = .ok (u, bs1) → 0 ≤ x → x ≤ 9 → x ≤ u ∧ u ≤ 9 := by
  intro fuel
  induction fuel with
  | zero =>
    intro x bs u bs1 h h0 h9
    rw [read_residual_unary] at h
    split at h
    · cases h
    · simp only [Except.ok.injEq, Prod.mk.injEq] at h
      omega
  | succ fuel ih =>
    intro x bs u bs1 h h0 h9
    rw [read_residual_unary] at h
    split at h
    · rename_i hx
      unfold RICE_THRESHOLD at hx
      split at h
      · cases h
      · split at h
        · have hw : wrap32 (x + 1) = x + 1 :=
            wrap32_of_in_int32 (by unfold in_int32; omega)
          rw [hw] at h
          have := ih _ _ _ _ h (by omega) (by omega)
          omega
        · simp only [Except.ok.injEq, Prod.mk.injEq] at h
          omega
    · simp only [Except.ok.injEq, Prod.mk.injEq] at h
      omega

/-- The value that `ALACDecoder_read_residual` returns for a Rice parameter of at
most 27 and a sample size from 0 to 30 is not negative and leaves room for
the sign modifier. -/
theorem read_residual_range {bs bs1 : Bitstream} {k sample_size x : Int}
    (hk : k ≤ 27) (hs0 : 0 ≤ sample_size) (hs1 : sample_size ≤ 30)
    (h : ALACDecoder_read_residual bs k sample_size = .ok (x, bs1)) :
    0 ≤ x ∧ x < 2147483647 := by
  unfold ALACDecoder_read_residual at h
  generalize hu : read_residual_unary 10 0 bs = r at h
  cases r with
  | error e => simp only [] at h; cases h
  | ok p =>
    obtain ⟨u, bs2⟩ := p
    obtain ⟨u0, u9⟩ := read_residual_unary_range _ _ _ _ _ hu (le_refl _) (by norm_num)
    simp only [] at h
    split at h
    · split at h
      · cases h
      · rename_i v bs3 hv
        simp only [Except.ok.injEq, Prod.mk.injEq] at h
        have hlt := read_bits_lt hv
        rw [to_unsigned_of_nonneg hs0 (by omega)] at hlt
        have hp : (2 : Nat) ^ sample_size.toNat ≤ 2 ^ 30 :=
          Nat.pow_le_pow_right (by norm_num) (by omega)
        norm_num at hp
        have hw : wrap32 (v : Int) = v := wrap32_of_in_int32 (by unfold in_int32; omega)
        rw [hw] at h
        omega
    · rename_i hnot
      unfold RICE_THRESHOLD at hnot
      split at h
      · rename_i hk1
        split at h
        · cases h
        · rename_i v bs3 hv
          have hlt := read_bits_lt hv
          rw [to_unsigned_of_nonneg (by omega) (by omega)] at hlt
          have hp : (2 : Nat) ^ k.toNat ≤ 2 ^ 27 :=
            Nat.pow_le_pow_right (by norm_num) (by omega)
          have hp1 : 1 ≤ (2 : Nat) ^ k.toNat := Nat.one_le_two_pow
          norm_num at hp
          have hw : wrap32 (v : Int) = v := wrap32_of_in_int32 (by unfold in_int32; omega)
          have hP : (2 : Int) ^ k.toNat = ((2 ^ k.toNat : Nat) : Int) := by push_cast; rfl
          have hx1 : wrap32 (u * wrap32 (wrap32 (shl 1 k) - 1)) = u * (2 ^ k.toNat - 1) ∧
              0 ≤ u * ((2 : Int) ^ k.toNat - 1) ∧
              u * ((2 : Int) ^ k.toNat - 1) ≤ 8 * (134217728 - 1) := by
            rw [wrap32_sub_left, wrap32_mul_right, shl_one_nonneg k (by omega), hP]
            have b1 : (0 : Int) ≤ u * (((2 ^ k.toNat : Nat) : Int) - 1) :=
              mul_nonneg u0 (by omega)
            have b2 : u * (((2 ^ k.toNat : Nat) : Int) - 1) ≤ 8 * (134217728 - 1) :=
              mul_le_mul (by omega) (by omega) (by omega) (by norm_num)
            exact ⟨wrap32_of_in_int32 (by unfold in_int32; omega), b1, b2⟩
          obtain ⟨e1, e2, e3⟩ := hx1
          rw [hw, e1] at h
          split at h
          · simp only [Except.ok.injEq, Prod.mk.injEq] at h
            rw [wrap32_add_right,
              wrap32_of_in_int32 (by unfold in_int32; omega)] at h
            omega
          · split at h
            · simp only [Except.ok.injEq, Prod.mk.injEq] at h
              omega
            · simp only [Except.ok.injEq, Prod.mk.injEq] at h
              omega
      · simp only [Except.ok.injEq, Prod.mk.injEq] at h
        omega

theorem MIN_le_left (a b : Int) : MIN a b ≤ a := by
  unfold MIN
  split <;> omega

theorem update_history_in_int32 (history decoded_value history_multiplier : Int) :
    in_int32 (update_history history decoded_value history_multiplier) := by
  unfold update_history
  split
  · unfold in_int32; omega
  · exact wrap32_in_int32 _

/-- The history update keeps `history` from 0 to 2^25 when the multiplier is at
most 63 and the decoded value is not negative. -/
theorem update_history_range {history decoded_value history_multiplier : Int}
    (hh0 : 0 ≤ history) (hh1 : history ≤ 33554432) (hd0 : 0 ≤ decoded_value)
    (hm0 : 0 ≤ history_multiplier) (hm1 : history_multiplier ≤ 63) :
    0 ≤ update_history history decoded_value history_multiplier ∧
    update_history history decoded_value history_multiplier ≤ 33554432 ∧
    (decoded_value ≤ 0xFFFF →
      update_history history decoded_value history_multiplier =
        history + decoded_value * history_multiplier -
          history * history_multiplier / 512) := by
  unfold update_history
  split
  · refine ⟨by norm_num, by norm_num, ?_⟩
    intro h; omega
  · rename_i hd
    have hd1 : decoded_value ≤ 65535 := by omega
    have e1 : 0 ≤ history * history_multiplier := mul_nonneg hh0 hm0
    have e2 : 0 ≤ decoded_value * history_multiplier := mul_nonneg hd0 hm0
    have e3 : 0 ≤ history * (63 - history_multiplier) := mul_nonneg hh0 (by omega)
    have e4 : 0 ≤ (65535 - decoded_value) * history_multiplier := mul_nonneg (by omega) hm0
    have e5 : 0 ≤ (33554432 - history) * (512 - history_multiplier) :=
      mul_nonneg (by omega) (by omega)
    have e6 : 0 ≤ decoded_value * (63 - history_multiplier) := mul_nonneg hd0 (by omega)
    have r3 : history * (63 - history_multiplier) =
        63 * history - history * history_multiplier := by ring
    have r4 : (65535 - decoded_value) * history_multiplier =
        65535 * history_multiplier - decoded_value * history_multiplier := by ring
    have r5 : (33554432 - history) * (512 - history_multiplier) =
        17179869184 - 33554432 * history_multiplier - 512 * history +
          history * history_multiplier := by ring
    have r6 : decoded_value * (63 - history_multiplier) =
        63 * decoded_value - decoded_value * history_multiplier := by ring
    rw [r3] at e3
    rw [r4] at e4
    rw [r5] at e5
    rw [r6] at e6
    generalize history * history_multiplier = p at *
    generalize decoded_value * history_multiplier = q at *
    have hshr : shr p 9 = p / 512 := by
      rw [show (9 : Int) = ((9 : Nat) : Int) from rfl, shr_nonneg_count]
      norm_num
    rw [wrap32_of_in_int32 (x := q) (by unfold in_int32; omega),
      wrap32_of_in_int32 (x := p) (by unfold in_int32; omega), hshr,
      wrap32_of_in_int32 (x := q - p / 512) (by unfold in_int32; omega),
      wrap32_of_in_int32 (x := history + (q - p / 512)) (by unfold in_int32; omega)]
    refine ⟨by omega, by omega, ?_⟩
    intro _; omega

/-- One round of the residual loop keeps `history` from 0 to 2^25 and
`sign_modifier` 0 or 1, for a multiplier of at most 63 and a sample size of at
most 30. -/
theorem read_residuals_round_range
    {residual_count sample_size history_multiplier maximum_k : Int}
    {s s1 : residuals_state}
    (hm0 : 0 ≤ history_multiplier) (hm1 : history_multiplier ≤ 63)
    (hs0 : 0 ≤ sample_size) (hs1 : sample_size ≤ 30)
    (hh0 : 0 ≤ s.history) (hh1 : s.history ≤ 33554432)
    (hsm : s.sign_modifier = 0 ∨ s.sign_modifier = 1)
    (h : read_residuals_round residual_count sample_size history_multiplier maximum_k s =
      .ok s1) :
    0 ≤ s1.history ∧ s1.history ≤ 33554432 ∧ (s1.sign_modifier = 0 ∨ s1.sign_modifier = 1) := by
  unfold read_residuals_round at h
  split at h
  · cases h
  · rename_i log hlog
    split at h
    · cases h
    · rename_i x bs1 hx
      have hv : shr s.history 9 + 3 = s.history / 512 + 3 := by
        rw [show (9 : Int) = ((9 : Nat) : Int) from rfl, shr_nonneg_count]; norm_num
      have hv0 : 0 ≤ s.history / 512 := Int.ediv_nonneg hh0 (by norm_num)
      have hv1 : s.history / 512 ≤ 65536 := by omega
      rw [hv, wrap32_of_in_int32 (by unfold in_int32; omega)] at hlog
      obtain ⟨_, _, _, hcase⟩ := LOG2_ok_inv (by omega) hlog
      have l16 : log ≤ 16 := by
        rcases hcase with ⟨_, hl⟩ | ⟨hl0, hlo, _⟩
        · omega
        · by_contra hc
          have : (2 : Int) ^ 17 ≤ 2 ^ log.toNat :=
            pow_le_pow_right₀ (by norm_num) (by omega)
          norm_num at this
          omega
      obtain ⟨x0, x1⟩ := read_residual_range
        (le_trans (MIN_le_left _ _) (by omega)) hs0 hs1 hx
      have hd : wrap32 (x + s.sign_modifier) = x + s.sign_modifier :=
        wrap32_of_in_int32 (by unfold in_int32; omega)
      rw [hd] at h
      obtain ⟨u0, u1, _⟩ := @update_history_range s.history (x + s.sign_modifier)
        history_multiplier hh0 hh1 (by omega) hm0 hm1
      split at h
      · split at h
        · cases h
        · split at h
          · cases h
          · simp only [Except.ok.injEq] at h
            subst h
            refine ⟨le_refl _, by norm_num, ?_⟩
            simp only [sign_modifier_after_block]
            split <;> simp
      · simp only [Except.ok.injEq] at h
        subst h
        exact ⟨u0, u1, Or.inl rfl⟩

theorem read_residuals_states_range
    (residual_count sample_size history_multiplier maximum_k : Int)
    (hm0 : 0 ≤ history_multiplier) (hm1 : history_multiplier ≤ 63)
    (hs0 : 0 ≤ sample_size) (hs1 : sample_size ≤ 30) (fuel : Nat) :
    ∀ s0 : residuals_state, 0 ≤ s0.history → s0.history ≤ 33554432 →
      (s0.sign_modifier = 0 ∨ s0.sign_modifier = 1) →
      ∀ s ∈ read_residuals_states residual_count sample_size history_multiplier maximum_k
          fuel s0,
        0 ≤ s.history ∧ s.history ≤ 33554432 := by
  induction fuel with
  | zero =>
    intro s0 _ _ _ s hs
    simp [read_residuals_states] at hs
  | succ n ih =>
    intro s0 h0 h1 hsm s hs
    rw [read_residuals_states] at hs
    split at hs
    · split at hs
      · simp at hs
      · rename_i s1 hround
        obtain ⟨a0, a1, asm⟩ := read_residuals_round_range hm0 hm1 hs0 hs1 h0 h1 hsm hround
        rcases List.mem_cons.mp hs with hs | hs
        · subst hs; exact ⟨a0, a1⟩
        · exact ih s1 a0 a1 asm s hs
    · simp at hs

/-- C11 (amended): in `ALACDecoder_read_residuals`, for initial_history a uint16,
history_multiplier from 0 to 63 and sample_size from 0 to 30, on any bitstream
and after every completed round of the loop, 0 <= history <= 2^25
(= 512 * 0x10000). -/
theorem read_residuals_history_range
    (bs : Bitstream)
    (residual_count sample_size initial_history history_multiplier maximum_k : Int)
    (fuel : Nat)
    (hi0 : 0 ≤ initial_history) (hi1 : initial_history ≤ 0xFFFF)
    (hm0 : 0 ≤ history_multiplier) (hm1 : history_multiplier ≤ 63)
    (hs0 : 0 ≤ sample_size) (hs1 : sample_size ≤ 30) :
    ∀ s ∈ read_residuals_states residual_count sample_size history_multiplier maximum_k
        fuel (read_residuals_start bs initial_history),
      0 ≤ s.history ∧ s.history ≤ 33554432 :=
  read_residuals_states_range residual_count sample_size history_multiplier maximum_k
    hm0 hm1 hs0 hs1 fuel (read_residuals_start bs initial_history) hi0
    (by simp only [read_residuals_start]; omega) (Or.inl rfl)

/-- C11 (amended) on the stream `escape_residual_bits`, with residual_count = 1,
sample_size = 16, initial_history = 10, history_multiplier = 40 and
maximum_k = 14: the loop makes one round, and the history after it is in
range. -/
theorem read_residuals_history_range_witness :
    (read_residuals_states 1 16 40 14 1
        (read_residuals_start (bitstream_of escape_residual_bits) 10)).length = 1 ∧
    ∀ s ∈ read_residuals_states 1 16 40 14 1
        (read_residuals_start (bitstream_of escape_residual_bits) 10),
      0 ≤ s.history ∧ s.history ≤ 33554432 :=
  ⟨by decide,
   read_residuals_history_range (bitstream_of escape_residual_bits) 1 16 10 40 14 1
     (by decide) (by decide) (by decide) (by decide) (by decide) (by decide)⟩

/-- C11 as stated fails: with initial_history = 10 (a uint16) and
history_multiplier = 40 (a uint8), `ALACDecoder_read_residuals` decodes the
stream `escape_residual_bits` to the one residual 4660, and the history after
the loop's only round is 10 + 9320 * 40 = 372810, above 0xFFFF. -/
theorem read_residuals_history_counterexample :
    ALACDecoder_read_residuals (bitstream_of escape_residual_bits) [] 1 16 10 40 14 =
      .ok ([4660], { remaining := [], consumed := 25, pushed_back := 0 }) ∧
    (read_residuals_states 1 16 40 14 1
        (read_residuals_start (bitstream_of escape_residual_bits) 10)).map
      (fun s => s.history) = [372810] ∧
    ¬ ((372810 : Int) ≤ 0xFFFF) := by
  decide


/-! ## The frame list of an overshooting frame -/

/-- C14 at the failing input: `ALACDecoder_read` succeeds on `overshoot_frame` and
reports 6 PCM frames of 1 channel in a buffer of 6 entries, but the entry
out[2 * 1 + 0] was never written, while samples[0][2] is 0. -/
theorem read_framelist_overshoot :
    (ALACDecoder_read overshoot_decoder).map
        (fun r => (r.2.frames, r.2.channels, r.2.samples.length, r.2.samples[2 * 1 + 0]?,
          r.1.samples[0]?.bind (fun channel => channel[2]?))) =
      .ok (6, 1, 6, some none, some 0) := by
  decide

/-! ## Residual buffers shorter than the warm-up -/

theorem warm_up_loop_short (residuals : i_array) :
    ∀ (n i : Nat) (samples : i_array), i ≤ residuals.length → residuals.length < i + n →
      warm_up_loop residuals n i samples = .error .undefined := by
  intro n
  induction n with
  | zero => intro i samples h1 h2; omega
  | succ n ih =>
    intro i samples h1 h2
    rw [warm_up_loop]
    by_cases hi : i < residuals.length
    · rw [ia_data_of_lt hi]
      cases hs : ia_data samples ((i : Int) - 1) with
      | error e => rfl
      | ok s =>
        simp only []
        exact ih (i + 1) _ (by omega) (by omega)
    · rw [ia_data_of_le (by omega)]

/-- C20 at residual buffers that end within the warm-up: for a coefficient table
of size N >= 1 and a residual buffer of length L with 1 <= L <= N,
`ALACDecoder_decode_subframe` has no defined result, whatever
predictor_quantitization is: its warm-up loop reads `residuals->data[L]`,
which is not an element of the buffer. -/
theorem decode_subframe_short_residuals (samples residuals coefficients : i_array) (q : Int)
    (hL : 1 ≤ residuals.length) (hN : residuals.length ≤ coefficients.length) :
    ALACDecoder_decode_subframe samples residuals coefficients q = .error .undefined := by
  unfold ALACDecoder_decode_subframe
  rw [if_neg (by omega)]
  have h0 : ia_data residuals 0 = .ok residuals[0] :=
    ia_data_of_lt (show 0 < residuals.length by omega)
  rw [h0]
  simp only []
  rw [warm_up_loop_short residuals coefficients.length 1 _ hL (by omega)]

/-- C20 at the failing input: one residual and four coefficients. -/
theorem decode_subframe_short_residuals_witness :
    (1 ≤ ([5] : i_array).length ∧ ([5] : i_array).length ≤ ([0, 0, 0, 0] : i_array).length) ∧
    ALACDecoder_decode_subframe [] [5] [0, 0, 0, 0] 0 = .error .undefined :=
  ⟨by decide, decode_subframe_short_residuals [] [5] [0, 0, 0, 0] 0 (by decide) (by decide)⟩

/-! ## The end of the stream -/

theorem write_frame_channel_loop_zero (channels : Int) (channel_data : i_array) (i j : Int)
    (samples : List (Option Int)) :
    write_frame_channel_loop channels channel_data 0 i j samples = .ok samples := by
  rw [write_frame_channel_loop]

theorem write_frame_loop_zero (self_samples : ia_array) (channels : Int) :
    ∀ (n channel : Nat) (samples : List (Option Int)),
      channel + n ≤ self_samples.length →
      write_frame_loop self_samples channels 0 n channel samples = .ok samples := by
  intro n
  induction n with
  | zero => intro channel samples _; rw [write_frame_loop]
  | succ n ih =>
    intro channel samples h
    rw [write_frame_loop, iaa_getitem_of_lt (show channel < self_samples.length by omega)]
    simp only [write_frame_channel_loop_zero]
    exact ih (channel + 1) samples (by omega)

/-- C15: when total_frames < 1, `ALACDecoder_read` returns a frame list with 0 PCM
frames and an empty buffer, and `ALACDecoder_analyze_frame` returns None; in
both cases the reader and total_frames are as before the call (a decoder
with at least one channel, buffers as `ALACDecoder_init` sizes them, and
total_frames an `int`). -/
theorem read_at_end (self : decoders_ALACDecoder)
    (hwf : self.well_formed) (hch : 1 ≤ self.channels) (hint : in_int32 self.total_frames)
    (htotal : self.total_frames < 1) :
    ALACDecoder_read self =
      .ok ({ self with samples := iaa_reset self.samples }, end_framelist self) ∧
    ({ self with samples := iaa_reset self.samples } : decoders_ALACDecoder).bitstream =
      self.bitstream ∧
    ({ self with samples := iaa_reset self.samples } : decoders_ALACDecoder).total_frames =
      self.total_frames ∧
    ALACDecoder_analyze_frame self = .ok (self, none) := by
  refine ⟨?_, rfl, rfl, ?_⟩
  · obtain ⟨hs, _⟩ := hwf
    have hlen : 0 < self.samples.length := by omega
    have h0 : iaa_getitem (iaa_reset self.samples) 0 = .ok [] := by
      unfold iaa_getitem
      rw [iaa_reset_getElem? _ 0 hlen]
    unfold ALACDecoder_read
    simp only []
    rw [if_pos htotal]
    unfold write_frame
    simp only [h0, List.length_nil, Nat.cast_zero, zero_mul, sub_zero]
    rw [show wrap32 0 = 0 from rfl, wrap32_of_in_int32 hint]
    simp only [Int.toNat_zero, List.replicate_zero]
    rw [write_frame_loop_zero _ _ _ _ _ (by rw [iaa_reset_length]; omega)]
    rfl
  · unfold ALACDecoder_analyze_frame
    rw [if_pos htotal]

/-- C15 on the decoder of scenario S1 with total_frames = 0. -/
theorem read_at_end_witness :
    (finished_decoder.well_formed ∧ 1 ≤ finished_decoder.channels ∧
      in_int32 finished_decoder.total_frames ∧ finished_decoder.total_frames < 1) ∧
    (ALACDecoder_read finished_decoder =
      .ok ({ finished_decoder with samples := iaa_reset finished_decoder.samples },
        end_framelist finished_decoder) ∧
    ({ finished_decoder with samples := iaa_reset finished_decoder.samples } :
        decoders_ALACDecoder).bitstream = finished_decoder.bitstream ∧
    ({ finished_decoder with samples := iaa_reset finished_decoder.samples } :
        decoders_ALACDecoder).total_frames = finished_decoder.total_frames ∧
    ALACDecoder_analyze_frame finished_decoder = .ok (finished_decoder, none)) :=
  ⟨by decide, read_at_end finished_decoder (by decide) (by decide) (by decide) (by decide)⟩


/-! ## Analysis against decoding -/

theorem analyze_subframe_headers_loop_of_read :
    ∀ (n i : Nat) (hs : List alac_subframe_header) (bs : Bitstream)
      (r : List alac_subframe_header × Bitstream),
      read_subframe_headers_loop n i hs bs = .ok r →
      analyze_subframe_headers_loop n i hs bs = .ok r := by
  intro n
  induction n with
  | zero =>
    intro i hs bs r h
    rw [read_subframe_headers_loop] at h
    rw [analyze_subframe_headers_loop]
    exact h
  | succ n ih =>
    intro i hs bs r h
    rw [read_subframe_headers_loop] at h
    rw [analyze_subframe_headers_loop]
    split at h
    · cases h
    · rename_i h0 hh0
      split at h
      · cases h
      · rename_i hd bs2 hread
        split at h
        · cases h
        · exact ih _ _ _ _ h

/-- The reads of the compressed branch are the same in `ALACDecoder_read` and in
`ALACDecoder_analyze_frame`: same reader afterwards, same residuals. -/
theorem analyze_compressed_frame_of_read {self self1 : decoders_ALACDecoder}
    {samples : ia_array} {frame_header : alac_frame_header} {shift lw : Int}
    (h : read_compressed_input { self with samples := samples } frame_header =
      .ok (self1, shift, lw)) :
    ∃ self3 frame, analyze_compressed_frame self frame_header = .ok (self3, frame) ∧
      self3.bitstream = self1.bitstream ∧ self3.residuals = self1.residuals ∧
      frame.residuals = self1.residuals ∧ self3.total_frames = self.total_frames ∧
      frame.output_samples = frame_header.output_samples ∧
      frame.is_not_compressed = frame_header.is_not_compressed := by
  unfold read_compressed_input at h
  simp only [] at h
  split at h
  · cases h
  · rename_i v1 bs1 h1
    split at h
    · cases h
    · rename_i v2 bs2 h2
      split at h
      · cases h
      · rename_i hs bs3 hh
        split at h
        · cases h
        · rename_i w bs4 hw
          split at h
          · cases h
          · rename_i res bs5 hres
            simp only [Except.ok.injEq, Prod.mk.injEq] at h
            obtain ⟨a1, _, _⟩ := h
            subst a1
            unfold analyze_compressed_frame
            rw [h1]
            simp only []
            rw [h2]
            simp only []
            rw [analyze_subframe_headers_loop_of_read _ _ _ _ _ hh]
            simp only []
            unfold read_frame_wasted_bits at hw
            simp only [] at hw
            by_cases hwb : frame_header.wasted_bits > 0
            · rw [if_pos hwb] at hw
              rw [if_pos hwb, hw]
              simp only []
              rw [hres]
              exact ⟨_, _, rfl, rfl, rfl, rfl, rfl, rfl, rfl⟩
            · rw [if_neg hwb] at hw
              simp only [Except.ok.injEq, Prod.mk.injEq] at hw
              obtain ⟨_, b2⟩ := hw
              subst b2
              rw [if_neg hwb]
              simp only []
              rw [hres]
              exact ⟨_, _, rfl, rfl, rfl, rfl, rfl, rfl, rfl⟩

/-- After its reads, the compressed branch of `ALACDecoder_read` leaves the reader
and the residuals alone. -/
theorem read_compressed_frame_reads {self self2 : decoders_ALACDecoder}
    {frame_header : alac_frame_header}
    (h : read_compressed_frame self frame_header = .ok self2) :
    ∃ self1 shift lw, read_compressed_input self frame_header = .ok (self1, shift, lw) ∧
      self2.bitstream = self1.bitstream ∧ self2.residuals = self1.residuals := by
  unfold read_compressed_frame at h
  split at h
  · cases h
  · rename_i self1 shift lw hin
    split at h
    · cases h
    · split at h
      · cases h
      · split at h
        · cases h
        · simp only [Except.ok.injEq] at h
          subst h
          exact ⟨self1, shift, lw, hin, rfl, rfl⟩

/-- C13: when `ALACDecoder_read` succeeds on a compressed frame (a frame is left,
and the header read from the decoder's position has is_not_compressed = 0),
`ALACDecoder_analyze_frame` from the same decoder also succeeds with a frame
dictionary, leaves the reader in the same state (same bits consumed, same
bits remaining), and reports for the channels the residuals that the read
decoded. -/
theorem analyze_frame_matches_read (self self2 : decoders_ALACDecoder)
    (framelist : pcm_FrameList) (frame_header : alac_frame_header) (bs1 : Bitstream)
    (htotal : 1 ≤ self.total_frames)
    (hhdr : ALACDecoder_read_frame_header self.bitstream self.max_samples_per_frame =
      .ok (frame_header, bs1))
    (hc : frame_header.is_not_compressed = 0)
    (hread : ALACDecoder_read self = .ok (self2, framelist)) :
    ∃ self3 frame,
      ALACDecoder_analyze_frame self = .ok (self3, some frame) ∧
      self3.bitstream = self2.bitstream ∧
      frame.residuals = self2.residuals ∧
      frame.is_not_compressed = 0 := by
  unfold ALACDecoder_read at hread
  simp only [] at hread
  rw [if_neg (by omega)] at hread
  split at hread
  · cases hread
  · rename_i selfa hdr hframe
    obtain ⟨_, w2, _, _, w5, _, _⟩ := write_frame_samples _ _ _ _ hread
    unfold read_frame at hframe
    split at hframe
    · cases hframe
    · rename_i selfb hdrb hbody
      split at hframe
      · cases hframe
      · rename_i sig bs3 hsig
        split at hframe
        · cases hframe
        · rename_i hsig7
          simp only [Except.ok.injEq, Prod.mk.injEq] at hframe
          obtain ⟨f1, f2⟩ := hframe
          subst f1 f2
          unfold read_frame_body at hbody
          simp only [] at hbody
          rw [hhdr] at hbody
          simp only [] at hbody
          split at hbody
          · cases hbody
          · split at hbody
            · cases hbody
            · rename_i selfc hsamples
              simp only [Except.ok.injEq, Prod.mk.injEq] at hbody
              obtain ⟨g1, g2⟩ := hbody
              subst g1 g2
              unfold read_frame_samples at hsamples
              rw [if_neg (by simp [hc])] at hsamples
              obtain ⟨self1, shift, lw, hin, r1, r2⟩ := read_compressed_frame_reads hsamples
              obtain ⟨self3, frame, han, s1, _, s3, _, _, s6⟩ :=
                @analyze_compressed_frame_of_read { self with bitstream := bs1 } self1 _
                  frame_header shift lw hin
              refine ⟨{ self3 with
                  bitstream := byte_align_r bs3
                  total_frames := wrap32 (self3.total_frames - frame_header.output_samples) },
                frame, ?_, ?_, ?_, ?_⟩
              rotate_left
              · exact w2.symm
              · rw [s3, w5, r2]
              · rw [s6, hc]
              · unfold ALACDecoder_analyze_frame
                rw [if_neg (by omega), hhdr]
                simp only []
                rw [if_neg (by simp [hc]), han]
                simp only []
                rw [s1, ← r1, hsig]
                simp only []
                rw [if_neg hsig7]

/-- C13 on scenario S4: the read of the compressed 24-bit frame succeeds, and so
does the analysis, at the same reader position and with the same residuals. -/
theorem analyze_frame_matches_read_witness :
    (1 ≤ scenario_S4_decoder.total_frames ∧
      ALACDecoder_read_frame_header scenario_S4_decoder.bitstream
          scenario_S4_decoder.max_samples_per_frame =
        .ok (scenario_S4_header, scenario_S4_after_header) ∧
      scenario_S4_header.is_not_compressed = 0 ∧
      ALACDecoder_read scenario_S4_decoder =
        .ok (scenario_S4_decoder_after, scenario_S4_framelist)) ∧
    ∃ self3 frame,
      ALACDecoder_analyze_frame scenario_S4_decoder = .ok (self3, some frame) ∧
      self3.bitstream = scenario_S4_decoder_after.bitstream ∧
      frame.residuals = scenario_S4_decoder_after.residuals ∧
      frame.is_not_compressed = 0 :=
  ⟨by decide,
   analyze_frame_matches_read scenario_S4_decoder scenario_S4_decoder_after
     scenario_S4_framelist scenario_S4_header scenario_S4_after_header
     (by decide) (by decide) (by decide) (by decide)⟩


/-! ## 64-bit arithmetic -/

theorem wrap64_exists (x : Int) : ∃ t : Int, wrap64 x = x + 18446744073709551616 * t := by
  refine ⟨-((x + 9223372036854775808) / 18446744073709551616), ?_⟩
  unfold wrap64
  have := Int.emod_add_ediv (x + 9223372036854775808) 18446744073709551616
  omega

theorem wrap64_add_mul (a t : Int) : wrap64 (a + 18446744073709551616 * t) = wrap64 a := by
  unfold wrap64
  rw [show a + 18446744073709551616 * t + 9223372036854775808 =
      a + 9223372036854775808 + 18446744073709551616 * t by ring,
    Int.add_mul_emod_self_left]

theorem wrap64_add_left (a b : Int) : wrap64 (wrap64 a + b) = wrap64 (a + b) := by
  obtain ⟨t, ht⟩ := wrap64_exists a
  rw [ht, show a + 18446744073709551616 * t + b = a + b + 18446744073709551616 * t by ring,
    wrap64_add_mul]

theorem wrap64_add_right (a b : Int) : wrap64 (a + wrap64 b) = wrap64 (a + b) := by
  rw [add_comm, wrap64_add_left, add_comm]

theorem wrap64_idem (a : Int) : wrap64 (wrap64 a) = wrap64 a := by
  have h := wrap64_add_left a 0
  simpa using h

theorem wrap64_accumulate (a p s : Int) :
    wrap64 (a + wrap64 p + s) = wrap64 (a + (s + p)) := by
  rw [show a + wrap64 p + s = wrap64 p + (a + s) by ring, wrap64_add_left,
    show p + (a + s) = a + (s + p) by ring]

theorem wrap32_wrap64 (a : Int) : wrap32 (wrap64 a) = wrap32 a := by
  obtain ⟨t, ht⟩ := wrap64_exists a
  rw [ht, show a + 18446744073709551616 * t = a + 4294967296 * (4294967296 * t) by ring,
    wrap32_add_mul]

theorem wrap32_add_wrap64 (a b : Int) : wrap32 (a + wrap64 b) = wrap32 (a + b) := by
  obtain ⟨t, ht⟩ := wrap64_exists b
  rw [ht, show a + (b + 18446744073709551616 * t) = a + b + 4294967296 * (4294967296 * t)
    by ring, wrap32_add_mul]

theorem wrap64_of_in_int32 {x : Int} (h : in_int32 x) : wrap64 x = x := by
  unfold in_int32 at h
  unfold wrap64
  rw [Int.emod_eq_of_lt (by omega) (by omega)]
  omega

/-! ## The prediction of one sample -/

/-- The 64-bit accumulator after the loop over the coefficients: the start value
plus the sum of the products, as an `int64_t`. -/
theorem lpc_sum_loop_value (coefficients samples : i_array) (i : Nat) (buffer0 : Int) :
    ∀ (n j : Nat) (lpc_sum : Int), j + n ≤ coefficients.length → j + n ≤ i →
      i ≤ samples.length → wrap64 lpc_sum = lpc_sum →
      lpc_sum_loop coefficients samples i buffer0 n j lpc_sum =
        .ok (wrap64 (lpc_sum + Finset.sum (Finset.range n) (fun t =>
          coefficients.getD (j + t) 0 *
            wrap32 (samples.getD (i - (j + t) - 1) 0 - buffer0)))) := by
  intro n
  induction n with
  | zero =>
    intro j lpc_sum _ _ _ hw
    rw [lpc_sum_loop]
    simp [hw]
  | succ n ih =>
    intro j lpc_sum h1 h2 h3 hw
    have hj : j < coefficients.length := by omega
    have hs : i - j - 1 < samples.length := by omega
    have hsd : ia_data samples ((i : Int) - j - 1) = .ok samples[i - j - 1] := by
      rw [show (i : Int) - j - 1 = ((i - j - 1 : Nat) : Int) by omega]
      exact ia_data_of_lt hs
    rw [lpc_sum_loop, ia_data_of_lt hj, hsd]
    simp only []
    rw [ih (j + 1) _ (by omega) (by omega) h3 (wrap64_idem _), wrap64_add_left,
      wrap64_accumulate,
      Finset.sum_range_succ']
    have e1 : coefficients.getD j 0 = coefficients[j] := by
      simp [List.getD, List.getElem?_eq_getElem hj]
    have e2 : samples.getD (i - j - 1) 0 = samples[i - j - 1] := by
      simp [List.getD, List.getElem?_eq_getElem hs]
    have e3 : ∀ t, j + 1 + t = j + (t + 1) := by intro t; omega
    simp only [Nat.add_zero, e1, e2, e3]

theorem subframe_loop_add (residuals : i_array) (q : Int) :
    ∀ (m n i : Nat) (samples coefficients : i_array),
      subframe_loop residuals q (m + n) i samples coefficients =
        match subframe_loop residuals q m i samples coefficients with
        | .error e => .error e
        | .ok (samples1, coefficients1) =>
          subframe_loop residuals q n (i + m) samples1 coefficients1 := by
  intro m
  induction m with
  | zero =>
    intro n i samples coefficients
    rw [Nat.zero_add]
    conv_rhs => rw [subframe_loop]
    rfl
  | succ m ih =>
    intro n i samples coefficients
    rw [show m + 1 + n = (m + n) + 1 by omega, subframe_loop]
    conv_rhs => rw [subframe_loop]
    have hi : ∀ k, i + 1 + k = i + (k + 1) := by intro k; omega
    cases hr : ia_data residuals i with
    | error e => rfl
    | ok r =>
      cases hb : ia_data samples ((i : Int) - ((coefficients.length : Int) + 1)) with
      | error e => rfl
      | ok b =>
        simp only []
        cases hl : lpc_sum_loop coefficients samples i b coefficients.length 0
            (wrap32 (shl 1 (q - 1))) with
        | error e => rfl
        | ok lpc =>
          simp only []
          by_cases hz : r ≠ 0
          · rw [if_pos hz, if_pos hz]
            cases ha : adapt_loop
                (ia_append samples (wrap32 (wrap64 (r + wrap64 (shr lpc q + b))))) i b
                (SIGN_ONLY r) q coefficients.length coefficients.length 0 coefficients r with
            | error e => rfl
            | ok c1 =>
              simp only []
              rw [ih, hi]
          · rw [if_neg hz, if_neg hz, ih, hi]

theorem getD_of_getElem? {a : i_array} {t : Nat} {v : Int} (h : a[t]? = some v) :
    a.getD t 0 = v := by
  simp [List.getD, h]

theorem getD_congr {a b : i_array} {t : Nat} (h : a[t]? = b[t]?) :
    a.getD t 0 = b.getD t 0 := by
  simp [List.getD, h]

/-- One round of the loop over the residuals, from a buffer of `i` samples: the
sample appended and the table adapted. -/
theorem subframe_loop_one (residuals : i_array) (q : Int) (i : Nat)
    (samples coefficients : i_array)
    (hlen : samples.length = i) (hN : coefficients.length + 1 ≤ i)
    (hi : i < residuals.length) :
    ∃ v coefficients1,
      subframe_loop residuals q 1 i samples coefficients =
        .ok (ia_append samples v, coefficients1) ∧
      coefficients1.length = coefficients.length ∧
      v = wrap32 (residuals[i] + samples.getD (i - coefficients.length - 1) 0 +
        shr (wrap64 (wrap32 (shl 1 (q - 1)) +
          Finset.sum (Finset.range coefficients.length) (fun j =>
            coefficients.getD j 0 *
              wrap32 (samples.getD (i - j - 1) 0 -
                samples.getD (i - coefficients.length - 1) 0)))) q) ∧
      (residuals[i] = 0 → coefficients1 = coefficients) ∧
      (residuals[i] ≠ 0 →
        adapt_loop (ia_append samples v) i (samples.getD (i - coefficients.length - 1) 0)
          (SIGN_ONLY residuals[i]) q coefficients.length coefficients.length 0
          coefficients residuals[i] = .ok coefficients1) := by
  have hb0 : i - coefficients.length - 1 < samples.length := by omega
  have hb : ia_data samples ((i : Int) - ((coefficients.length : Int) + 1)) =
      .ok samples[i - coefficients.length - 1] := by
    rw [show (i : Int) - ((coefficients.length : Int) + 1) =
      ((i - coefficients.length - 1 : Nat) : Int) by omega]
    exact ia_data_of_lt hb0
  have hbase : samples.getD (i - coefficients.length - 1) 0 =
      samples[i - coefficients.length - 1] :=
    getD_of_getElem? (List.getElem?_eq_getElem hb0)
  have hlpc := lpc_sum_loop_value coefficients samples i
    samples[i - coefficients.length - 1] coefficients.length 0 (wrap32 (shl 1 (q - 1)))
    (by omega) (by omega) (by omega) (wrap64_of_in_int32 (wrap32_in_int32 _))
  simp only [Nat.zero_add] at hlpc
  rw [show (1 : Nat) = 0 + 1 from rfl, subframe_loop, ia_data_of_lt hi, hb]
  simp only []
  rw [hlpc]
  simp only []
  rw [hbase]
  generalize hS : Finset.sum (Finset.range coefficients.length) (fun j =>
    coefficients.getD j 0 * wrap32 (samples.getD (i - j - 1) 0 -
      samples[i - coefficients.length - 1])) = S
  have hv : wrap32 (wrap64 (residuals[i] + wrap64 (shr (wrap64 (wrap32 (shl 1 (q - 1)) + S)) q +
        samples[i - coefficients.length - 1]))) =
      wrap32 (residuals[i] + samples[i - coefficients.length - 1] +
        shr (wrap64 (wrap32 (shl 1 (q - 1)) + S)) q) := by
    rw [wrap32_wrap64, wrap32_add_wrap64]
    generalize shr (wrap64 (wrap32 (shl 1 (q - 1)) + S)) q = z
    rw [show residuals[i] + (z + samples[i - coefficients.length - 1]) =
      residuals[i] + samples[i - coefficients.length - 1] + z by ring]
  rw [hv]
  generalize wrap32 (residuals[i] + samples[i - coefficients.length - 1] +
    shr (wrap64 (wrap32 (shl 1 (q - 1)) + S)) q) = v
  by_cases hz : residuals[i] ≠ 0
  · rw [if_pos hz]
    obtain ⟨c1, hc1, hc1len⟩ := adapt_loop_ok (ia_append samples v) i
      samples[i - coefficients.length - 1] (SIGN_ONLY residuals[i]) q coefficients.length
      coefficients.length 0 coefficients residuals[i] rfl (by omega) (by omega)
      (by simp [ia_append]; omega)
    rw [hc1]
    simp only []
    rw [subframe_loop]
    exact ⟨v, c1, rfl, hc1len, rfl, fun h => absurd h hz, fun _ => hc1⟩
  · rw [if_neg hz, subframe_loop]
    exact ⟨v, coefficients, rfl, rfl, rfl, fun _ => rfl, fun h => absurd h hz⟩

/-- The run of `ALACDecoder_decode_subframe` cut at the sample `i`: the state in
which the round for `i` starts, the round itself, and the rest. -/
theorem decode_subframe_steps (samples residuals coefficients : i_array) (q : Int) (i : Nat)
    (hN : 1 ≤ coefficients.length) (hi0 : coefficients.length + 1 ≤ i)
    (hi1 : i < residuals.length) :
    ∃ warm out coefficients1 before coef v coef1,
      warm_up_loop residuals coefficients.length 1 [residuals[0]] = .ok warm ∧
      ALACDecoder_decode_subframe samples residuals coefficients q =
        .ok (out, coefficients1) ∧
      subframe_loop residuals q (i - (coefficients.length + 1)) (coefficients.length + 1)
        warm coefficients = .ok (before, coef) ∧
      subframe_loop residuals q (i + 1 - (coefficients.length + 1)) (coefficients.length + 1)
        warm coefficients = .ok (ia_append before v, coef1) ∧
      subframe_loop residuals q 1 i before coef = .ok (ia_append before v, coef1) ∧
      before.length = i ∧ coef.length = coefficients.length ∧
      out.length = residuals.length ∧
      (∀ t, t < i + 1 → out[t]? = (ia_append before v)[t]?) ∧
      v = wrap32 (residuals[i] + before.getD (i - coefficients.length - 1) 0 +
        shr (wrap64 (wrap32 (shl 1 (q - 1)) +
          Finset.sum (Finset.range coefficients.length) (fun j =>
            coef.getD j 0 *
              wrap32 (before.getD (i - j - 1) 0 -
                before.getD (i - coefficients.length - 1) 0)))) q) ∧
      (residuals[i] = 0 → coef1 = coef) ∧
      (residuals[i] ≠ 0 →
        adapt_loop (ia_append before v) i (before.getD (i - coefficients.length - 1) 0)
          (SIGN_ONLY residuals[i]) q coefficients.length coefficients.length 0
          coef residuals[i] = .ok coef1) ∧
      coef1.length = coefficients.length := by
  obtain ⟨warm, hwarm, hwlen, _, _⟩ := warm_up_loop_spec residuals coefficients.length 1
    [residuals[0]] (le_refl 1) rfl (by omega)
  obtain ⟨before, coef, hbefore, b1, b2, _⟩ := subframe_loop_ok residuals q
    (i - (coefficients.length + 1)) (coefficients.length + 1) warm coefficients
    (by omega) (le_refl _) (by omega)
  have hblen : before.length = i := by omega
  obtain ⟨v, coef1, hone, c1, hv, hzero, hadapt⟩ := subframe_loop_one residuals q i before
    coef hblen (by omega) hi1
  rw [b2] at hv hadapt
  obtain ⟨out, cfin, hout, o1, _, o3⟩ := subframe_loop_ok residuals q
    (residuals.length - (i + 1)) (i + 1) (ia_append before v) coef1
    (by simp [ia_append, hblen]) (by omega) (by omega)
  have hstep : subframe_loop residuals q (i + 1 - (coefficients.length + 1))
      (coefficients.length + 1) warm coefficients = .ok (ia_append before v, coef1) := by
    rw [show i + 1 - (coefficients.length + 1) = (i - (coefficients.length + 1)) + 1 by omega,
      subframe_loop_add, hbefore]
    simp only []
    rw [show coefficients.length + 1 + (i - (coefficients.length + 1)) = i by omega]
    exact hone
  refine ⟨warm, out, cfin, before, coef, v, coef1, hwarm, ?_, hbefore, hstep, hone, hblen,
    by omega, by omega, o3, hv, hzero, hadapt, by omega⟩
  unfold ALACDecoder_decode_subframe
  rw [if_neg (by omega)]
  have h0 : ia_data residuals 0 = .ok residuals[0] :=
    ia_data_of_lt (show 0 < residuals.length by omega)
  rw [h0]
  simp only [ia_reset, ia_append, List.nil_append]
  rw [hwarm]
  simp only []
  rw [show residuals.length - (coefficients.length + 1) =
      (i + 1 - (coefficients.length + 1)) + (residuals.length - (i + 1)) by omega,
    subframe_loop_add, hstep]
  simp only []
  rw [show coefficients.length + 1 + (i + 1 - (coefficients.length + 1)) = i + 1 by omega]
  exact hout

theorem ia_append_getElem?_lt (a : i_array) (v : Int) {t : Nat} (h : t < a.length) :
    (ia_append a v)[t]? = a[t]? := by
  simp [ia_append, List.getElem?_append_left h]

theorem ia_append_getElem?_length (a : i_array) (v : Int) :
    (ia_append a v)[a.length]? = some v := by
  simp [ia_append]

/-- C16: for a coefficient table of size N >= 1, q from 1 to 15 and an index i with
N + 1 <= i < residuals.length, `ALACDecoder_decode_subframe` returns samples with
samples[i] = (int32)(residuals[i] + base + ((2^(q-1) + sum over j < N of
coef[j] * (samples[i-j-1] - base)) >> q)), where base = samples[i-N-1], coef
is the table in which the loop over the residuals enters its round for i,
each difference is an `int` (32 bits), the sum is an `int64_t` and the shift
is arithmetic; when every difference fits 32 bits the formula holds with the
differences as they are. -/
theorem decode_subframe_lpc (samples residuals coefficients : i_array) (q : Int) (i : Nat)
    (hN : 1 ≤ coefficients.length) (hq1 : 1 ≤ q) (hq15 : q ≤ 15)
    (hi0 : coefficients.length + 1 ≤ i) (hi1 : i < residuals.length) :
    ∃ warm out coefficients1 before coef,
      warm_up_loop residuals coefficients.length 1 [residuals[0]] = .ok warm ∧
      ALACDecoder_decode_subframe samples residuals coefficients q =
        .ok (out, coefficients1) ∧
      subframe_loop residuals q (i - (coefficients.length + 1)) (coefficients.length + 1)
        warm coefficients = .ok (before, coef) ∧
      before.length = i ∧ (∀ t, t < i → out[t]? = before[t]?) ∧
      coef.length = coefficients.length ∧ out.length = residuals.length ∧
      out[i]? = some (wrap32 (residuals[i] + out.getD (i - coefficients.length - 1) 0 +
        shr (wrap64 (2 ^ (q - 1).toNat +
          Finset.sum (Finset.range coefficients.length) (fun j =>
            coef.getD j 0 *
              wrap32 (out.getD (i - j - 1) 0 -
                out.getD (i - coefficients.length - 1) 0)))) q)) ∧
      ((∀ j, j < coefficients.length →
          in_int32 (out.getD (i - j - 1) 0 - out.getD (i - coefficients.length - 1) 0)) →
        out[i]? = some (wrap32 (residuals[i] + out.getD (i - coefficients.length - 1) 0 +
          shr (wrap64 (2 ^ (q - 1).toNat +
            Finset.sum (Finset.range coefficients.length) (fun j =>
              coef.getD j 0 *
                (out.getD (i - j - 1) 0 -
                  out.getD (i - coefficients.length - 1) 0)))) q))) := by
  obtain ⟨warm, out, cfin, before, coef, v, coef1, hwarm, hdec, hbefore, _, _, hblen, hclen,
    holen, hout, hv, _, _, _⟩ := decode_subframe_steps samples residuals coefficients q i hN hi0 hi1
  have hpre : ∀ t, t < i → out[t]? = before[t]? := by
    intro t ht
    rw [hout t (by omega), ia_append_getElem?_lt before v (by omega)]
  have hgd : ∀ t, t < i → before.getD t 0 = out.getD t 0 := by
    intro t ht
    exact (getD_congr (hpre t ht)).symm
  have hbias : wrap32 (shl 1 (q - 1)) = 2 ^ (q - 1).toNat := by
    rw [shl_one_nonneg (q - 1) (by omega)]
    apply wrap32_of_in_int32
    have h1 : (2 : Int) ^ (q - 1).toNat ≤ 2 ^ 14 :=
      pow_le_pow_right₀ (by norm_num) (by omega)
    have h2 : (0 : Int) < 2 ^ (q - 1).toNat := by positivity
    unfold in_int32
    constructor <;> omega
  have hsum : Finset.sum (Finset.range coefficients.length) (fun j =>
        coef.getD j 0 * wrap32 (before.getD (i - j - 1) 0 -
          before.getD (i - coefficients.length - 1) 0)) =
      Finset.sum (Finset.range coefficients.length) (fun j =>
        coef.getD j 0 * wrap32 (out.getD (i - j - 1) 0 -
          out.getD (i - coefficients.length - 1) 0)) := by
    apply Finset.sum_congr rfl
    intro j _
    rw [hgd (i - j - 1) (by omega), hgd (i - coefficients.length - 1) (by omega)]
  rw [hbias, hsum, hgd (i - coefficients.length - 1) (by omega)] at hv
  have hi : out[i]? = some v := by
    rw [hout i (by omega), ← hblen]
    exact ia_append_getElem?_length before v
  refine ⟨warm, out, cfin, before, coef, hwarm, hdec, hbefore, hblen, hpre, hclen, holen,
    by rw [hi, hv], ?_⟩
  intro hfit
  have hsum2 : Finset.sum (Finset.range coefficients.length) (fun j =>
        coef.getD j 0 * wrap32 (out.getD (i - j - 1) 0 -
          out.getD (i - coefficients.length - 1) 0)) =
      Finset.sum (Finset.range coefficients.length) (fun j =>
        coef.getD j 0 * (out.getD (i - j - 1) 0 -
          out.getD (i - coefficients.length - 1) 0)) := by
    apply Finset.sum_congr rfl
    intro j hj
    rw [wrap32_of_in_int32 (hfit j (Finset.mem_range.mp hj))]
  rw [hi, hv, hsum2]

/-- C16 on the residuals [100, 3, 7, -2, 5, -4] with the coefficients [2, -1] and
q = 1, at i = 3: base = 100, the sum is 1 + 2 * 10 - 1 * 3 = 18, and the
sample is -2 + 100 + 9 = 107. -/
theorem decode_subframe_lpc_witness :
    (1 ≤ ([2, -1] : i_array).length ∧ (1 : Int) ≤ 1 ∧ (1 : Int) ≤ 15 ∧
      ([2, -1] : i_array).length + 1 ≤ 3 ∧ 3 < ([100, 3, 7, -2, 5, -4] : i_array).length) ∧
    ALACDecoder_decode_subframe [] [100, 3, 7, -2, 5, -4] [2, -1] 1 =
      .ok ([100, 103, 110, 107, 105, 100], [4, 0]) ∧
    ∃ warm out coefficients1 before coef,
      warm_up_loop [100, 3, 7, -2, 5, -4] ([2, -1] : i_array).length 1
        [([100, 3, 7, -2, 5, -4] : i_array)[0]] = .ok warm ∧
      ALACDecoder_decode_subframe [] [100, 3, 7, -2, 5, -4] [2, -1] 1 =
        .ok (out, coefficients1) ∧
      subframe_loop [100, 3, 7, -2, 5, -4] 1 (3 - (([2, -1] : i_array).length + 1))
        (([2, -1] : i_array).length + 1) warm [2, -1] = .ok (before, coef) ∧
      before.length = 3 ∧ (∀ t, t < 3 → out[t]? = before[t]?) ∧
      coef.length = ([2, -1] : i_array).length ∧
      out.length = ([100, 3, 7, -2, 5, -4] : i_array).length ∧
      out[3]? = some (wrap32 (([100, 3, 7, -2, 5, -4] : i_array)[3] +
        out.getD (3 - ([2, -1] : i_array).length - 1) 0 +
        shr (wrap64 (2 ^ ((1 : Int) - 1).toNat +
          Finset.sum (Finset.range ([2, -1] : i_array).length) (fun j =>
            coef.getD j 0 *
              wrap32 (out.getD (3 - j - 1) 0 -
                out.getD (3 - ([2, -1] : i_array).length - 1) 0)))) 1)) ∧
      ((∀ j, j < ([2, -1] : i_array).length →
          in_int32 (out.getD (3 - j - 1) 0 -
            out.getD (3 - ([2, -1] : i_array).length - 1) 0)) →
        out[3]? = some (wrap32 (([100, 3, 7, -2, 5, -4] : i_array)[3] +
          out.getD (3 - ([2, -1] : i_array).length - 1) 0 +
          shr (wrap64 (2 ^ ((1 : Int) - 1).toNat +
            Finset.sum (Finset.range ([2, -1] : i_array).length) (fun j =>
              coef.getD j 0 *
                (out.getD (3 - j - 1) 0 -
                  out.getD (3 - ([2, -1] : i_array).length - 1) 0)))) 1))) :=
  ⟨by decide, by decide,
   decode_subframe_lpc [] [100, 3, 7, -2, 5, -4] [2, -1] 1 3 (by decide) (by decide)
     (by decide) (by decide) (by decide)⟩


/-! ## The adaptation of the coefficients -/

theorem wrap32_neg_SIGN_ONLY (val : Int) : wrap32 (-SIGN_ONLY val) = -SIGN_ONLY val := by
  unfold SIGN_ONLY
  split
  · rfl
  · split <;> rfl

theorem SIGN_ONLY_ne_zero {residual : Int} (h : residual ≠ 0) : SIGN_ONLY residual ≠ 0 := by
  unfold SIGN_ONLY
  split
  · norm_num
  · split
    · norm_num
    · omega

theorem adaptation_sign_eq {original_sign : Int} (val : Int) (h : original_sign ≠ 0) :
    (if original_sign ≥ 0 then SIGN_ONLY val else wrap32 (-SIGN_ONLY val)) =
      spec_adaptation_sign original_sign val := by
  unfold spec_adaptation_sign
  rw [wrap32_neg_SIGN_ONLY]
  by_cases h1 : original_sign ≥ 0
  · rw [if_pos h1, if_pos (by omega)]
  · rw [if_neg h1, if_neg (by omega)]

/-- The adaptation loop of the code computes the table of the specification's
procedure. -/
theorem adapt_loop_spec (samples1 out : i_array) (i : Nat) (base original_sign q : Int)
    (N : Nat) (hsign : original_sign ≠ 0) (hNi : N ≤ i) (hlen : i ≤ samples1.length)
    (hagree : ∀ t, t < i → samples1[t]? = out[t]?) :
    ∀ (n j : Nat) (coef : i_array) (residual : Int), coef.length = N → j + n ≤ N →
      adapt_loop samples1 i base original_sign q N n j coef residual =
        .ok (spec_adaptation_loop out i N base original_sign q n j coef residual) := by
  intro n
  induction n with
  | zero =>
    intro j coef residual _ _
    rw [adapt_loop, spec_adaptation_loop]
  | succ n ih =>
    intro j coef residual hc hj
    have ht : i - N + j < samples1.length := by omega
    have hs : ia_data samples1 ((i : Int) - N + j) = .ok (out.getD (i - N + j) 0) := by
      rw [show (i : Int) - N + j = ((i - N + j : Nat) : Int) by omega, ia_data_of_lt ht]
      have := hagree (i - N + j) (by omega)
      rw [List.getElem?_eq_getElem ht] at this
      rw [getD_of_getElem? this.symm]
    have hk : N - j - 1 < coef.length := by omega
    have hcd : ia_data coef ((N : Int) - j - 1) = .ok (coef.getD (N - j - 1) 0) := by
      rw [show (N : Int) - j - 1 = ((N - j - 1 : Nat) : Int) by omega, ia_data_of_lt hk,
        getD_of_getElem? (List.getElem?_eq_getElem hk)]
    rw [adapt_loop, hs, hcd, spec_adaptation_loop]
    simp only []
    rw [adaptation_sign_eq _ hsign,
      show ((N : Int) - j - 1).toNat = N - j - 1 by omega]
    unfold spec_running_residual
    by_cases hcond : SIGN_ONLY (wrap32 (residual -
        wrap32 (shr (wrap32 (wrap32 (base - out.getD (i - N + j) 0) *
          spec_adaptation_sign original_sign (wrap32 (base - out.getD (i - N + j) 0)))) q *
          ((j : Int) + 1)))) ≠ original_sign
    · rw [if_pos hcond, if_pos hcond]
    · rw [if_neg hcond, if_neg hcond]
      exact ih (j + 1) _ _ (by rw [List.length_set]; exact hc) (by omega)

/-- The specification's procedure leaves alone the coefficients that its steps do
not reach. -/
theorem spec_adaptation_loop_unreached (samples : i_array) (i N : Nat)
    (base original_sign q : Int) :
    ∀ (n j : Nat) (coef : i_array) (residual : Int) (t : Nat),
      t + j + spec_adaptation_steps samples i N base original_sign q n j residual < N →
      (spec_adaptation_loop samples i N base original_sign q n j coef residual)[t]? =
        coef[t]? := by
  intro n
  induction n with
  | zero =>
    intro j coef residual t _
    rw [spec_adaptation_loop]
  | succ n ih =>
    intro j coef residual t ht
    rw [spec_adaptation_steps] at ht
    rw [spec_adaptation_loop]
    split at ht
    · rename_i hcond
      rw [if_pos hcond, List.getElem?_set_ne (by omega)]
    · rename_i hcond
      rw [if_neg hcond, ih (j + 1) _ _ t (by omega), List.getElem?_set_ne (by omega)]

theorem spec_adaptation_steps_le (samples : i_array) (i N : Nat)
    (base original_sign q : Int) :
    ∀ (n j : Nat) (residual : Int),
      spec_adaptation_steps samples i N base original_sign q n j residual ≤ n := by
  intro n
  induction n with
  | zero => intro j residual; rw [spec_adaptation_steps]
  | succ n ih =>
    intro j residual
    rw [spec_adaptation_steps]
    split
    · omega
    · have := ih (j + 1) (spec_running_residual residual
        (wrap32 (base - samples.getD (i - N + j) 0))
        (spec_adaptation_sign original_sign (wrap32 (base - samples.getD (i - N + j) 0)))
        q j)
      omega

/-- C17: at every step i with N + 1 <= i < residuals.length of
`ALACDecoder_decode_subframe`, the coefficient table after the step (the one in
which the round for i + 1 starts) is the result of the specification's
adaptation procedure on the table before the step: unchanged when
residuals[i] = 0, and otherwise adapted step by step, with every coefficient
that the steps do not reach left as it was. -/
theorem decode_subframe_adaptation (samples residuals coefficients : i_array) (q : Int)
    (i : Nat) (hN : 1 ≤ coefficients.length) (hi0 : coefficients.length + 1 ≤ i)
    (hi1 : i < residuals.length) :
    ∃ warm out coefficients1 before coef after coef1,
      warm_up_loop residuals coefficients.length 1 [residuals[0]] = .ok warm ∧
      ALACDecoder_decode_subframe samples residuals coefficients q =
        .ok (out, coefficients1) ∧
      subframe_loop residuals q (i - (coefficients.length + 1)) (coefficients.length + 1)
        warm coefficients = .ok (before, coef) ∧
      subframe_loop residuals q (i + 1 - (coefficients.length + 1)) (coefficients.length + 1)
        warm coefficients = .ok (after, coef1) ∧
      coef.length = coefficients.length ∧ coef1.length = coefficients.length ∧
      coef1 = spec_adaptation out i q coef residuals[i] ∧
      (residuals[i] = 0 → coef1 = coef) ∧
      spec_adaptation_reach out i q coef residuals[i] ≤ coefficients.length ∧
      (∀ t, t + spec_adaptation_reach out i q coef residuals[i] < coefficients.length →
        coef1[t]? = coef[t]?) := by
  obtain ⟨warm, out, cfin, before, coef, v, coef1, hwarm, hdec, hbefore, hafter, _, hblen,
    hclen, holen, hout, _, hzero, hadapt, hc1len⟩ :=
    decode_subframe_steps samples residuals coefficients q i hN hi0 hi1
  refine ⟨warm, out, cfin, before, coef, ia_append before v, coef1, hwarm, hdec, hbefore,
    hafter, hclen, hc1len, ?_, hzero, ?_, ?_⟩
  · by_cases hz : residuals[i] = 0
    · unfold spec_adaptation
      rw [if_pos hz]
      exact hzero hz
    · have hbase : before.getD (i - coefficients.length - 1) 0 =
          out.getD (i - coefficients.length - 1) 0 := by
        apply getD_congr
        rw [hout _ (by omega), ia_append_getElem?_lt before v (by omega)]
      have hspec := adapt_loop_spec (ia_append before v) out i
        (before.getD (i - coefficients.length - 1) 0) (SIGN_ONLY residuals[i]) q
        coefficients.length (SIGN_ONLY_ne_zero hz) (by omega)
        (by simp [ia_append]; omega) (fun t ht => (hout t (by omega)).symm)
        coefficients.length 0 coef residuals[i] hclen (by omega)
      rw [hadapt hz] at hspec
      simp only [Except.ok.injEq] at hspec
      unfold spec_adaptation
      rw [if_neg hz, hclen, ← hbase]
      exact hspec
  · unfold spec_adaptation_reach
    split
    · omega
    · rw [hclen]
      exact spec_adaptation_steps_le _ _ _ _ _ _ _ _ _
  · intro t ht
    by_cases hz : residuals[i] = 0
    · rw [hzero hz]
    · have hbase : before.getD (i - coefficients.length - 1) 0 =
          out.getD (i - coefficients.length - 1) 0 := by
        apply getD_congr
        rw [hout _ (by omega), ia_append_getElem?_lt before v (by omega)]
      have hspec := adapt_loop_spec (ia_append before v) out i
        (before.getD (i - coefficients.length - 1) 0) (SIGN_ONLY residuals[i]) q
        coefficients.length (SIGN_ONLY_ne_zero hz) (by omega)
        (by simp [ia_append]; omega) (fun t ht => (hout t (by omega)).symm)
        coefficients.length 0 coef residuals[i] hclen (by omega)
      rw [hadapt hz] at hspec
      simp only [Except.ok.injEq] at hspec
      unfold spec_adaptation_reach at ht
      rw [if_neg hz, hclen, ← hbase] at ht
      rw [hspec]
      exact spec_adaptation_loop_unreached _ _ _ _ _ _ _ _ _ _ _ (by omega)

/-- C17 on the residuals [100, 3, 7, -2, 5, -4] with the coefficients [2, -1] and
q = 1, at i = 3: the table before the step is [2, -1], the residual -2 is not
0, the one adaptation step lowers coef[1] to -2, and coef[0] is not reached. -/
theorem decode_subframe_adaptation_witness :
    (1 ≤ ([2, -1] : i_array).length ∧ ([2, -1] : i_array).length + 1 ≤ 3 ∧
      3 < ([100, 3, 7, -2, 5, -4] : i_array).length) ∧
    (subframe_loop [100, 3, 7, -2, 5, -4] 1 0 3 [100, 103, 110] [2, -1] =
        .ok ([100, 103, 110], [2, -1]) ∧
      subframe_loop [100, 3, 7, -2, 5, -4] 1 1 3 [100, 103, 110] [2, -1] =
        .ok ([100, 103, 110, 107], [2, -2]) ∧
      spec_adaptation [100, 103, 110, 107, 105, 100] 3 1 [2, -1] (-2) = [2, -2] ∧
      spec_adaptation_reach [100, 103, 110, 107, 105, 100] 3 1 [2, -1] (-2) = 1) ∧
    ∃ warm out coefficients1 before coef after coef1,
      warm_up_loop [100, 3, 7, -2, 5, -4] ([2, -1] : i_array).length 1
        [([100, 3, 7, -2, 5, -4] : i_array)[0]] = .ok warm ∧
      ALACDecoder_decode_subframe [] [100, 3, 7, -2, 5, -4] [2, -1] 1 =
        .ok (out, coefficients1) ∧
      subframe_loop [100, 3, 7, -2, 5, -4] 1 (3 - (([2, -1] : i_array).length + 1))
        (([2, -1] : i_array).length + 1) warm [2, -1] = .ok (before, coef) ∧
      subframe_loop [100, 3, 7, -2, 5, -4] 1 (3 + 1 - (([2, -1] : i_array).length + 1))
        (([2, -1] : i_array).length + 1) warm [2, -1] = .ok (after, coef1) ∧
      coef.length = ([2, -1] : i_array).length ∧
      coef1.length = ([2, -1] : i_array).length ∧
      coef1 = spec_adaptation out 3 1 coef ([100, 3, 7, -2, 5, -4] : i_array)[3] ∧
      (([100, 3, 7, -2, 5, -4] : i_array)[3] = 0 → coef1 = coef) ∧
      spec_adaptation_reach out 3 1 coef ([100, 3, 7, -2, 5, -4] : i_array)[3] ≤
        ([2, -1] : i_array).length ∧
      (∀ t, t + spec_adaptation_reach out 3 1 coef ([100, 3, 7, -2, 5, -4] : i_array)[3] <
          ([2, -1] : i_array).length →
        coef1[t]? = coef[t]?) :=
  ⟨by decide, by decide,
   decode_subframe_adaptation [] [100, 3, 7, -2, 5, -4] [2, -1] 1 3 (by decide) (by decide)
     (by decide)⟩


/-! ## The two output channels of the decorrelator -/

/-- The two-channel branch with a left weight other than 0, in closed form. -/
theorem decorrelate_channels_stereo_eq (output : ia_array) (channel0 channel1 : i_array)
    (interlacing_shift interlacing_leftweight : Int)
    (hlw : interlacing_leftweight ≠ 0) (hout : 2 ≤ output.length)
    (hlen : channel0.length ≤ channel1.length) :
    ALACDecoder_decorrelate_channels output [channel0, channel1]
        interlacing_shift interlacing_leftweight =
      .ok ((output.set 0
          (List.zipWith (fun c1 c2 => wrap32 (c2 + decorrelate_right interlacing_shift
            interlacing_leftweight c1 c2)) channel0 channel1)).set 1
          (List.zipWith (fun c1 c2 => decorrelate_right interlacing_shift
            interlacing_leftweight c1 c2) channel0 channel1)) := by
  have h0 : (0 : Nat) < output.length := by omega
  have h1 : (1 : Nat) < output.length := by omega
  unfold ALACDecoder_decorrelate_channels
  rw [if_neg (by simp), iaa_getitem_of_lt (by simp), iaa_getitem_of_lt (by simp),
    iaa_getitem_of_lt h0, iaa_getitem_of_lt h1]
  simp only [List.getElem_cons_zero, List.getElem_cons_succ, if_neg hlw]
  rw [decorrelate_stereo_loop_eq channel0 channel1 _ _ channel0.length 0 _ _ (by omega) hlen]
  simp [ia_reset]

/-- The two-channel branch with the left weight 0: the two input channels, copied. -/
theorem decorrelate_channels_copy_eq (output : ia_array) (channel0 channel1 : i_array)
    (interlacing_shift : Int) (hout : 2 ≤ output.length) :
    ALACDecoder_decorrelate_channels output [channel0, channel1] interlacing_shift 0 =
      .ok ((output.set 0 channel0).set 1 channel1) := by
  have h0 : (0 : Nat) < output.length := by omega
  have h1 : (1 : Nat) < output.length := by omega
  unfold ALACDecoder_decorrelate_channels
  rw [if_neg (by simp), iaa_getitem_of_lt (by simp), iaa_getitem_of_lt (by simp),
    iaa_getitem_of_lt h0, iaa_getitem_of_lt h1]
  simp [ia_copy]

theorem set_set_getElem?_zero (output : ia_array) (a b : i_array) (h : 2 ≤ output.length) :
    ((output.set 0 a).set 1 b)[0]? = some a := by
  rw [List.getElem?_set_ne (by omega), List.getElem?_set_self (by omega)]

theorem set_set_getElem?_one (output : ia_array) (a b : i_array) (h : 2 ≤ output.length) :
    ((output.set 0 a).set 1 b)[1]? = some b := by
  rw [List.getElem?_set_self (by rw [List.length_set]; omega)]

/-- C21 (amended): on two input channels of the same length, or with a left weight
other than 0 and a second channel at least as long as the first, the
decorrelator returns and its two output channels have the same length, the
length of input channel 0, whatever the shift and the left weight. -/
theorem decorrelate_channels_lengths (output : ia_array) (channel0 channel1 : i_array)
    (interlacing_shift interlacing_leftweight : Int)
    (hout : 2 ≤ output.length)
    (hlen : channel0.length = channel1.length ∨
      (interlacing_leftweight ≠ 0 ∧ channel0.length ≤ channel1.length)) :
    ∃ (out : ia_array) (left right : i_array),
      ALACDecoder_decorrelate_channels output [channel0, channel1]
        interlacing_shift interlacing_leftweight = .ok out ∧
      out[0]? = some left ∧ out[1]? = some right ∧
      left.length = right.length ∧ left.length = channel0.length := by
  by_cases hlw : interlacing_leftweight = 0
  · have heq : channel0.length = channel1.length := by
      rcases hlen with h | ⟨h, _⟩
      · exact h
      · exact absurd hlw h
    subst hlw
    exact ⟨_, channel0, channel1, decorrelate_channels_copy_eq output channel0 channel1 _ hout,
      set_set_getElem?_zero _ _ _ hout, set_set_getElem?_one _ _ _ hout, heq, rfl⟩
  · have hle : channel0.length ≤ channel1.length := by
      rcases hlen with h | ⟨_, h⟩
      · omega
      · exact h
    refine ⟨_, _, _, decorrelate_channels_stereo_eq output channel0 channel1 _ _ hlw hout hle,
      set_set_getElem?_zero _ _ _ hout, set_set_getElem?_one _ _ _ hout, ?_, ?_⟩
    · simp [List.length_zipWith]
    · simp [List.length_zipWith, hle]

/-- C21 (amended) at concrete inputs: two channels of 3 samples with the left
weight 1, and channels of 2 and 3 samples with the left weight 1. -/
theorem decorrelate_channels_lengths_witness :
    (2 ≤ ([[], []] : ia_array).length ∧
      (([1000, 2000, 3000] : i_array).length = ([10, 20, 30] : i_array).length ∨
        ((1 : Int) ≠ 0 ∧
          ([1000, 2000, 3000] : i_array).length ≤ ([10, 20, 30] : i_array).length))) ∧
    ALACDecoder_decorrelate_channels [[], []] [[1000, 2000], [10, 20, 30]] 2 1 =
      .ok [[1008, 2015], [998, 1995]] ∧
    ∃ (out : ia_array) (left right : i_array),
      ALACDecoder_decorrelate_channels [[], []] [[1000, 2000, 3000], [10, 20, 30]] 2 1 =
        .ok out ∧
      out[0]? = some left ∧ out[1]? = some right ∧
      left.length = right.length ∧ left.length = ([1000, 2000, 3000] : i_array).length :=
  ⟨by decide, by decide,
   decorrelate_channels_lengths [[], []] [1000, 2000, 3000] [10, 20, 30] 2 1 (by decide)
     (by decide)⟩

/-- C21 as stated fails: with the left weight 0 the two input channels are copied,
so input channels of 2 and 1 samples give output channels of 2 and 1
samples. -/
theorem decorrelate_channels_lengths_counterexample :
    ALACDecoder_decorrelate_channels [[], []] [[1, 2], [3]] 0 0 = .ok [[1, 2], [3]] ∧
    ([1, 2] : i_array).length ≠ ([3] : i_array).length := by
  decide


/-! ## The decorrelator can be undone -/

/-- One pair of output samples gives back the pair of input samples. -/
theorem decorrelate_pair_inverse (interlacing_shift interlacing_leftweight c0 c1 : Int)
    (h0 : in_int32 c0) (h1 : in_int32 c1) :
    wrap32 (wrap32 (c1 + decorrelate_right interlacing_shift interlacing_leftweight c0 c1) -
        decorrelate_right interlacing_shift interlacing_leftweight c0 c1) = c1 ∧
    wrap32 (decorrelate_right interlacing_shift interlacing_leftweight c0 c1 +
        shr (wrap32 (c1 * interlacing_leftweight)) interlacing_shift) = c0 := by
  constructor
  · rw [wrap32_sub_left, show c1 + decorrelate_right interlacing_shift interlacing_leftweight
        c0 c1 - decorrelate_right interlacing_shift interlacing_leftweight c0 c1 = c1 by ring]
    exact wrap32_of_in_int32 h1
  · unfold decorrelate_right
    generalize shr (wrap32 (c1 * interlacing_leftweight)) interlacing_shift = S
    rw [wrap32_add_left, show c0 - S + S = c0 by ring]
    exact wrap32_of_in_int32 h0

/-- The input channels, computed back from the output channels of the
two-channel branch. -/
theorem decorrelate_zip_inverse (interlacing_shift interlacing_leftweight : Int) :
    ∀ (channel0 channel1 : i_array), channel0.length = channel1.length →
      (∀ c ∈ channel0, in_int32 c) → (∀ c ∈ channel1, in_int32 c) →
      List.zipWith (fun l r => wrap32 (l - r))
          (List.zipWith (fun c1 c2 => wrap32 (c2 + decorrelate_right interlacing_shift
            interlacing_leftweight c1 c2)) channel0 channel1)
          (List.zipWith (fun c1 c2 => decorrelate_right interlacing_shift
            interlacing_leftweight c1 c2) channel0 channel1) = channel1 ∧
      List.zipWith (fun l r => wrap32 (r +
            shr (wrap32 (wrap32 (l - r) * interlacing_leftweight)) interlacing_shift))
          (List.zipWith (fun c1 c2 => wrap32 (c2 + decorrelate_right interlacing_shift
            interlacing_leftweight c1 c2)) channel0 channel1)
          (List.zipWith (fun c1 c2 => decorrelate_right interlacing_shift
            interlacing_leftweight c1 c2) channel0 channel1) = channel0 := by
  intro channel0
  induction channel0 with
  | nil =>
    intro channel1 hlen _ _
    have : channel1 = [] := List.length_eq_zero.mp hlen.symm
    subst this
    simp
  | cons x xs ih =>
    intro channel1 hlen h0 h1
    cases channel1 with
    | nil => simp at hlen
    | cons y ys =>
      have hx : in_int32 x := h0 x (List.mem_cons_self _ _)
      have hy : in_int32 y := h1 y (List.mem_cons_self _ _)
      obtain ⟨e1, e2⟩ := decorrelate_pair_inverse interlacing_shift interlacing_leftweight
        x y hx hy
      obtain ⟨t1, t2⟩ := ih ys (by simpa using hlen)
        (fun c hc => h0 c (List.mem_cons_of_mem _ hc))
        (fun c hc => h1 c (List.mem_cons_of_mem _ hc))
      simp only [List.zipWith_cons_cons]
      rw [t1, t2, e1, e2]
      exact ⟨rfl, rfl⟩

/-- C25: on two input channels of `int` samples with a left weight other than 0 and
a shift count from 0 to 31 (the counts for which C defines `>>` on an `int`),
the output channels left (channel 0) and right (channel 1) satisfy, at every
index i and in 32-bit arithmetic, left[i] - right[i] = ch1[i] and
right[i] + ((ch1[i] * leftweight) >> shift) = ch0[i], the shift being the
arithmetic one (a division by 2^shift rounded down); and among the pairs of
input channels of equal length, only this one gives these two output
channels with this shift and this left weight. -/
theorem decorrelate_channels_invertible (output : ia_array) (channel0 channel1 : i_array)
    (interlacing_shift interlacing_leftweight : Int)
    (hlw : interlacing_leftweight ≠ 0)
    (hshift : 0 ≤ interlacing_shift ∧ interlacing_shift < 32)
    (hout : 2 ≤ output.length)
    (hlen : channel0.length = channel1.length)
    (h0 : ∀ c ∈ channel0, in_int32 c) (h1 : ∀ c ∈ channel1, in_int32 c) :
    ∃ (out : ia_array) (left right : i_array),
      ALACDecoder_decorrelate_channels output [channel0, channel1]
        interlacing_shift interlacing_leftweight = .ok out ∧
      out[0]? = some left ∧ out[1]? = some right ∧
      (∀ (i : Nat) (c0 c1 : Int), channel0[i]? = some c0 → channel1[i]? = some c1 →
        ∃ l r : Int, left[i]? = some l ∧ right[i]? = some r ∧
          wrap32 (l - r) = c1 ∧
          wrap32 (r + shr (wrap32 (c1 * interlacing_leftweight)) interlacing_shift) = c0 ∧
          wrap32 (r +
            wrap32 (c1 * interlacing_leftweight) / 2 ^ interlacing_shift.toNat) = c0) ∧
      (∀ (other_output : ia_array) (other0 other1 : i_array) (other_out : ia_array),
        2 ≤ other_output.length → other0.length = other1.length →
        (∀ c ∈ other0, in_int32 c) → (∀ c ∈ other1, in_int32 c) →
        ALACDecoder_decorrelate_channels other_output [other0, other1]
          interlacing_shift interlacing_leftweight = .ok other_out →
        other_out[0]? = some left → other_out[1]? = some right →
        other0 = channel0 ∧ other1 = channel1) := by
  refine ⟨_, _, _,
    decorrelate_channels_stereo_eq output channel0 channel1 _ _ hlw hout (by omega),
    set_set_getElem?_zero _ _ _ hout, set_set_getElem?_one _ _ _ hout, ?_, ?_⟩
  · intro i c0 c1 hc0 hc1
    have hm0 : c0 ∈ channel0 := List.mem_iff_getElem?.mpr ⟨i, hc0⟩
    have hm1 : c1 ∈ channel1 := List.mem_iff_getElem?.mpr ⟨i, hc1⟩
    obtain ⟨e1, e2⟩ := decorrelate_pair_inverse interlacing_shift interlacing_leftweight
      c0 c1 (h0 c0 hm0) (h1 c1 hm1)
    refine ⟨wrap32 (c1 + decorrelate_right interlacing_shift interlacing_leftweight c0 c1),
      decorrelate_right interlacing_shift interlacing_leftweight c0 c1, ?_, ?_, e1, e2, ?_⟩
    · simp [List.getElem?_zipWith, hc0, hc1]
    · simp [List.getElem?_zipWith, hc0, hc1]
    · rw [← shr_of_nonneg _ _ hshift.1]
      exact e2
  · intro other_output other0 other1 other_out hout2 hlen2 g0 g1 hcall hl hr
    rw [decorrelate_channels_stereo_eq other_output other0 other1 _ _ hlw hout2
      (by omega)] at hcall
    simp only [Except.ok.injEq] at hcall
    subst hcall
    rw [set_set_getElem?_zero _ _ _ hout2] at hl
    rw [set_set_getElem?_one _ _ _ hout2] at hr
    simp only [Option.some.injEq] at hl hr
    obtain ⟨a1, a0⟩ := decorrelate_zip_inverse interlacing_shift interlacing_leftweight
      channel0 channel1 hlen h0 h1
    obtain ⟨b1, b0⟩ := decorrelate_zip_inverse interlacing_shift interlacing_leftweight
      other0 other1 hlen2 g0 g1
    rw [hl, hr] at b1 b0
    exact ⟨b0.symm.trans a0, b1.symm.trans a1⟩

/-- C25 on scenario S3: ch0 = [1000, 2000, 3000], ch1 = [10, 20, 30], shift 2 and
left weight 1 give left = [1008, 2015, 3023] and right = [998, 1995, 2993]. -/
theorem decorrelate_channels_invertible_witness :
    ((1 : Int) ≠ 0 ∧ ((0 : Int) ≤ 2 ∧ (2 : Int) < 32) ∧ 2 ≤ ([[], []] : ia_array).length ∧
      ([1000, 2000, 3000] : i_array).length = ([10, 20, 30] : i_array).length ∧
      (∀ c ∈ ([1000, 2000, 3000] : i_array), in_int32 c) ∧
      (∀ c ∈ ([10, 20, 30] : i_array), in_int32 c)) ∧
    ALACDecoder_decorrelate_channels [[], []] [[1000, 2000, 3000], [10, 20, 30]] 2 1 =
      .ok [[1008, 2015, 3023], [998, 1995, 2993]] ∧
    ∃ (out : ia_array) (left right : i_array),
      ALACDecoder_decorrelate_channels [[], []] [[1000, 2000, 3000], [10, 20, 30]] 2 1 =
        .ok out ∧
      out[0]? = some left ∧ out[1]? = some right ∧
      (∀ (i : Nat) (c0 c1 : Int), ([1000, 2000, 3000] : i_array)[i]? = some c0 →
        ([10, 20, 30] : i_array)[i]? = some c1 →
        ∃ l r : Int, left[i]? = some l ∧ right[i]? = some r ∧
          wrap32 (l - r) = c1 ∧ wrap32 (r + shr (wrap32 (c1 * 1)) 2) = c0 ∧
          wrap32 (r + wrap32 (c1 * 1) / 2 ^ (2 : Int).toNat) = c0) ∧
      (∀ (other_output : ia_array) (other0 other1 : i_array) (other_out : ia_array),
        2 ≤ other_output.length → other0.length = other1.length →
        (∀ c ∈ other0, in_int32 c) → (∀ c ∈ other1, in_int32 c) →
        ALACDecoder_decorrelate_channels other_output [other0, other1] 2 1 = .ok other_out →
        other_out[0]? = some left → other_out[1]? = some right →
        other0 = [1000, 2000, 3000] ∧ other1 = [10, 20, 30]) :=
  ⟨by decide, by decide,
   decorrelate_channels_invertible [[], []] [1000, 2000, 3000] [10, 20, 30] 2 1
     (by decide) (by decide) (by decide) (by decide) (by decide) (by decide)⟩


/-! ## The coefficient table of a subframe header -/

theorem read_signed_bits_ok (bs : Bitstream) (count : Nat) (h : count ≤ bs.remaining.length) :
    read_signed_bits bs count =
      .ok (sign_extend count (bits_value (bs.remaining.take count)), bs.advance count) := by
  unfold read_signed_bits
  rw [read_bits_ok bs count h]

theorem advance_remaining_length (bs : Bitstream) (n : Nat) :
    (bs.advance n).remaining.length = bs.remaining.length - n := by
  simp [Bitstream.advance]

/-- The loop over the coefficients on a stream that holds them: it appends `n`
values, the sign-extended 16-bit fields in order, and takes `16 * n` bits. -/
theorem read_coefficients_loop_spec :
    ∀ (n : Nat) (table : i_array) (bs : Bitstream), 16 * n ≤ bs.remaining.length →
      ∃ coefs : i_array,
        read_coefficients_loop n table bs = .ok (table ++ coefs, bs.advance (16 * n)) ∧
        coefs.length = n ∧
        ∀ t, t < n → coefs[t]? = some (sign_extend 16 (field_value bs.remaining 16 t)) := by
  intro n
  induction n with
  | zero =>
    intro table bs _
    refine ⟨[], ?_, rfl, fun t ht => by omega⟩
    rw [read_coefficients_loop]
    simp [Bitstream.advance]
  | succ n ih =>
    intro table bs h
    obtain ⟨coefs, hloop, hlen, hel⟩ := ih
      (ia_append table (sign_extend 16 (bits_value (bs.remaining.take 16)))) (bs.advance 16)
      (by rw [advance_remaining_length]; omega)
    refine ⟨sign_extend 16 (bits_value (bs.remaining.take 16)) :: coefs, ?_, by simp [hlen],
      ?_⟩
    · rw [read_coefficients_loop, read_signed_bits_ok bs 16 (by omega)]
      simp only []
      rw [hloop, advance_advance, show 16 + 16 * n = 16 * (n + 1) by ring]
      simp [ia_append]
    · intro t ht
      cases t with
      | zero => simp [field_value]
      | succ t =>
        have := hel t (by omega)
        rw [show (bs.advance 16) = bs.advance (1 * 16) from rfl, field_value_advance] at this
        simpa [Nat.add_comm] using this

/-- C22: on a stream that holds the header, `ALACDecoder_read_subframe_header` leaves
a coefficient table of exactly predictor_coef_num values, the 5-bit count
(at most 31) that follows the first 11 bits, each the sign-extended 16-bit
field read in order after the first 16 bits; the header that the call
overwrites, table included, has no part in the result; and the reader is
16 + 16 * predictor_coef_num bits further. -/
theorem read_subframe_header_table (bs : Bitstream) (subframe_header : alac_subframe_header)
    (predictor_coef_num : Nat)
    (hnum : predictor_coef_num = bits_value ((bs.remaining.drop 11).take 5))
    (hbits : 16 + 16 * predictor_coef_num ≤ bs.remaining.length) :
    ∃ subframe_header1 : alac_subframe_header,
      ALACDecoder_read_subframe_header bs subframe_header =
        .ok (subframe_header1, bs.advance (16 + 16 * predictor_coef_num)) ∧
      predictor_coef_num ≤ 31 ∧
      subframe_header1.predictor_coef_table.length = predictor_coef_num ∧
      (∀ t, t < predictor_coef_num →
        subframe_header1.predictor_coef_table[t]? =
          some (sign_extend 16 (field_value (bs.remaining.drop 16) 16 t))) ∧
      subframe_header1.prediction_type = bits_value (bs.remaining.take 4) ∧
      subframe_header1.prediction_quantitization =
        bits_value ((bs.remaining.drop 4).take 4) ∧
      subframe_header1.rice_modifier = bits_value ((bs.remaining.drop 8).take 3) := by
  have r1 : read_bits bs 4 = .ok (bits_value (bs.remaining.take 4), bs.advance 4) :=
    read_bits_ok bs 4 (by omega)
  have r2 : read_bits (bs.advance 4) 4 =
      .ok (bits_value ((bs.remaining.drop 4).take 4), bs.advance 8) := by
    rw [read_bits_ok _ _ (by rw [advance_remaining_length]; omega), advance_advance]
    rfl
  have r3 : read_bits (bs.advance 8) 3 =
      .ok (bits_value ((bs.remaining.drop 8).take 3), bs.advance 11) := by
    rw [read_bits_ok _ _ (by rw [advance_remaining_length]; omega), advance_advance]
    rfl
  have r4 : read_bits (bs.advance 11) 5 = .ok (predictor_coef_num, bs.advance 16) := by
    rw [read_bits_ok _ _ (by rw [advance_remaining_length]; omega), advance_advance, hnum]
    rfl
  have hlt : predictor_coef_num < 2 ^ 5 := read_bits_lt r4
  obtain ⟨coefs, hloop, hlen, hel⟩ := read_coefficients_loop_spec predictor_coef_num
    (ia_reset subframe_header.predictor_coef_table) (bs.advance 16)
    (by rw [advance_remaining_length]; omega)
  rw [advance_advance] at hloop
  refine ⟨{ prediction_type := bits_value (bs.remaining.take 4),
            prediction_quantitization := bits_value ((bs.remaining.drop 4).take 4),
            rice_modifier := bits_value ((bs.remaining.drop 8).take 3),
            predictor_coef_table := coefs }, ?_, by omega, hlen, hel, rfl, rfl, rfl⟩
  unfold ALACDecoder_read_subframe_header
  rw [r1]
  simp only []
  rw [r2]
  simp only []
  rw [r3]
  simp only []
  rw [r4]
  simp only []
  rw [hloop]
  simp [ia_reset]

/-- C22 on the stream `subframe_header_bits`, read into a header whose table holds
four values from an earlier frame: the table becomes [16, -16], and 48 bits
are taken. -/
theorem read_subframe_header_table_witness :
    (2 = bits_value (((bitstream_of subframe_header_bits).remaining.drop 11).take 5) ∧
      16 + 16 * 2 ≤ (bitstream_of subframe_header_bits).remaining.length) ∧
    ALACDecoder_read_subframe_header (bitstream_of subframe_header_bits)
        used_subframe_header =
      .ok ({ prediction_type := 0, prediction_quantitization := 9, rice_modifier := 4,
             predictor_coef_table := [16, -16] },
           { remaining := field_bits 3 5, consumed := 48, pushed_back := 0 }) ∧
    ∃ subframe_header1 : alac_subframe_header,
      ALACDecoder_read_subframe_header (bitstream_of subframe_header_bits)
          used_subframe_header =
        .ok (subframe_header1, (bitstream_of subframe_header_bits).advance (16 + 16 * 2)) ∧
      2 ≤ 31 ∧
      subframe_header1.predictor_coef_table.length = 2 ∧
      (∀ t, t < 2 →
        subframe_header1.predictor_coef_table[t]? =
          some (sign_extend 16
            (field_value ((bitstream_of subframe_header_bits).remaining.drop 16) 16 t))) ∧
      subframe_header1.prediction_type =
        bits_value ((bitstream_of subframe_header_bits).remaining.take 4) ∧
      subframe_header1.prediction_quantitization =
        bits_value (((bitstream_of subframe_header_bits).remaining.drop 4).take 4) ∧
      subframe_header1.rice_modifier =
        bits_value (((bitstream_of subframe_header_bits).remaining.drop 8).take 3) :=
  ⟨by decide, by decide,
   read_subframe_header_table (bitstream_of subframe_header_bits) used_subframe_header 2
     (by decide) (by decide)⟩


/-! ## The length of the residual buffer -/

/-- What one round of the residual loop appends: one residual, then the zeros of a
zero-run block if there is one; the counter moves by as much. -/
theorem read_residuals_round_shape
    {residual_count sample_size history_multiplier maximum_k : Int}
    {s s1 : residuals_state}
    (h : read_residuals_round residual_count sample_size history_multiplier maximum_k s =
      .ok s1) :
    ∃ (residual : Int) (block : Nat),
      s1.residuals = s.residuals ++ residual :: List.replicate block 0 ∧
      s1.i = s.i + 1 + block := by
  unfold read_residuals_round at h
  split at h
  · cases h
  · split at h
    · cases h
    · rename_i x bs1 hx
      split at h
      · split at h
        · cases h
        · split at h
          · cases h
          · rename_i b bs2 hb
            simp only [Except.ok.injEq] at h
            subst h
            by_cases hpos : b > 0
            · refine ⟨signed_residual (wrap32 (x + s.sign_modifier)), b.toNat, ?_, ?_⟩
              · simp only [residuals_after_block]
                rw [if_pos hpos, append_zero_block_eq]
                simp [ia_append]
              · simp only [counter_after_block]
                rw [if_pos hpos]
                omega
            · refine ⟨signed_residual (wrap32 (x + s.sign_modifier)), 0, ?_, ?_⟩
              · simp only [residuals_after_block]
                rw [if_neg hpos]
                simp [ia_append]
              · simp only [counter_after_block]
                rw [if_neg hpos]
                simp
      · simp only [Except.ok.injEq] at h
        subst h
        exact ⟨signed_residual (wrap32 (x + s.sign_modifier)), 0, by simp [ia_append],
          by simp⟩

/-- Once the guard of the residual loop fails, the loop returns what it has. -/
theorem read_residuals_loop_exit
    (residual_count sample_size history_multiplier maximum_k : Int) (fuel : Nat)
    (s : residuals_state) (h : ¬ s.i < residual_count) :
    read_residuals_loop residual_count sample_size history_multiplier maximum_k fuel
        s.i s.history s.sign_modifier s.residuals s.bitstream =
      .ok (s.residuals, s.bitstream) := by
  cases fuel with
  | zero => rw [read_residuals_loop, if_neg h]
  | succ fuel => rw [read_residuals_loop, if_neg h]

/-- The rounds allowed to the residual loop are never the reason for which it
stops: with at least `residual_count - i` rounds allowed, one more changes
nothing. -/
theorem read_residuals_loop_fuel
    (residual_count sample_size history_multiplier maximum_k : Int) :
    ∀ (fuel : Nat) (s : residuals_state), residual_count - s.i ≤ fuel →
      read_residuals_loop residual_count sample_size history_multiplier maximum_k fuel
          s.i s.history s.sign_modifier s.residuals s.bitstream =
        read_residuals_loop residual_count sample_size history_multiplier maximum_k
          (fuel + 1) s.i s.history s.sign_modifier s.residuals s.bitstream := by
  intro fuel
  induction fuel with
  | zero =>
    intro s h
    have hg : ¬ s.i < residual_count := by
      simp only [Nat.cast_zero] at h
      omega
    rw [read_residuals_loop_exit _ _ _ _ _ _ hg, read_residuals_loop_exit _ _ _ _ _ _ hg]
  | succ fuel ih =>
    intro s h
    rw [read_residuals_loop_round, read_residuals_loop_round]
    by_cases hg : s.i < residual_count
    · rw [if_pos hg, if_pos hg]
      cases hround : read_residuals_round residual_count sample_size history_multiplier
          maximum_k s with
      | error e => rfl
      | ok s1 =>
        simp only []
        obtain ⟨_, block, _, hcnt⟩ := read_residuals_round_shape hround
        exact ih s1 (by push_cast at h; omega)
    · rw [if_neg hg, if_neg hg]

theorem getElem?_residual_zeros (residuals : i_array) (residual : Int) (block t : Nat)
    (h1 : residuals.length < t) (h2 : t < residuals.length + 1 + block) :
    (residuals ++ residual :: List.replicate block 0)[t]? = some 0 := by
  rw [List.getElem?_append_right (by omega),
    show t - residuals.length = (t - residuals.length - 1) + 1 by omega,
    List.getElem?_cons_succ, List.getElem?_replicate, if_pos (by omega)]

/-- The residual loop from a state in which the buffer holds `i` values: what the
buffer is when the loop returns. -/
theorem read_residuals_loop_shape
    (residual_count sample_size history_multiplier maximum_k : Int) :
    ∀ (fuel : Nat) (s : residuals_state) (out : i_array) (bs1 : Bitstream),
      read_residuals_loop residual_count sample_size history_multiplier maximum_k fuel
        s.i s.history s.sign_modifier s.residuals s.bitstream = .ok (out, bs1) →
      (s.residuals.length : Int) = s.i →
      (∀ t : Nat, residual_count ≤ (t : Int) → t < s.residuals.length →
        s.residuals[t]? = some 0) →
      residual_count ≤ (out.length : Int) ∧
      ((∀ s1 ∈ read_residuals_states residual_count sample_size history_multiplier
            maximum_k fuel s, s1.i ≤ residual_count) →
        s.i ≤ residual_count → (out.length : Int) = residual_count) ∧
      (∀ t : Nat, residual_count ≤ (t : Int) → t < out.length → out[t]? = some 0) ∧
      (s.i < residual_count →
        ∃ (s1 : residuals_state) (residual : Int) (block : Nat),
          (s1 = s ∨ s1 ∈ read_residuals_states residual_count sample_size
            history_multiplier maximum_k fuel s) ∧
          s1.i < residual_count ∧ (s1.residuals.length : Int) = s1.i ∧
          out = s1.residuals ++ residual :: List.replicate block 0) := by
  have hexit : ∀ (fuel : Nat) (s : residuals_state) (out : i_array) (bs1 : Bitstream),
      ¬ s.i < residual_count →
      read_residuals_loop residual_count sample_size history_multiplier maximum_k fuel
        s.i s.history s.sign_modifier s.residuals s.bitstream = .ok (out, bs1) →
      out = s.residuals := by
    intro fuel s out bs1 hg h
    rw [read_residuals_loop_exit _ _ _ _ _ _ hg] at h
    simp only [Except.ok.injEq, Prod.mk.injEq] at h
    exact h.1.symm
  intro fuel
  induction fuel with
  | zero =>
    intro s out bs1 h hlen hzero
    have hg : ¬ s.i < residual_count := by
      intro hc
      rw [read_residuals_loop, if_pos hc] at h
      cases h
    have hout := hexit 0 s out bs1 hg h
    subst hout
    exact ⟨by omega, fun _ _ => by omega, hzero, fun hc => absurd hc hg⟩
  | succ fuel ih =>
    intro s out bs1 h hlen hzero
    by_cases hg : s.i < residual_count
    · rw [read_residuals_loop_round, if_pos hg] at h
      have hstates : ∀ s1, read_residuals_round residual_count sample_size
          history_multiplier maximum_k s = .ok s1 →
          read_residuals_states residual_count sample_size history_multiplier maximum_k
            (fuel + 1) s =
          s1 :: read_residuals_states residual_count sample_size history_multiplier
            maximum_k fuel s1 := by
        intro s1 hs1
        rw [read_residuals_states, if_pos hg, hs1]
      split at h
      · cases h
      · rename_i s1 hround
        obtain ⟨residual, block, hres, hcnt⟩ := read_residuals_round_shape hround
        have hlen1 : (s1.residuals.length : Int) = s1.i := by
          rw [hres, hcnt, List.length_append, List.length_cons, List.length_replicate]
          push_cast
          omega
        have hzero1 : ∀ t : Nat, residual_count ≤ (t : Int) → t < s1.residuals.length →
            s1.residuals[t]? = some 0 := by
          intro t ht1 ht2
          rw [hres] at ht2 ⊢
          rw [List.length_append, List.length_cons, List.length_replicate] at ht2
          exact getElem?_residual_zeros s.residuals residual block t (by omega) (by omega)
        obtain ⟨a1, a2, a3, a4⟩ := ih s1 out bs1 h hlen1 hzero1
        rw [hstates s1 hround]
        refine ⟨a1, ?_, a3, ?_⟩
        · intro hall _
          exact a2 (fun s2 hs2 => hall s2 (List.mem_cons_of_mem _ hs2))
            (hall s1 (List.mem_cons_self _ _))
        · intro _
          by_cases hg1 : s1.i < residual_count
          · obtain ⟨s2, residual2, block2, hmem, b1, b2, b3⟩ := a4 hg1
            refine ⟨s2, residual2, block2, Or.inr ?_, b1, b2, b3⟩
            rcases hmem with hmem | hmem
            · rw [hmem]; exact List.mem_cons_self _ _
            · exact List.mem_cons_of_mem _ hmem
          · have hout := hexit fuel s1 out bs1 hg1 h
            exact ⟨s, residual, block, Or.inl rfl, hg, hlen, by rw [hout, hres]⟩
    · have hout := hexit (fuel + 1) s out bs1 hg h
      subst hout
      exact ⟨by omega, fun _ _ => by omega, hzero, fun hc => absurd hc hg⟩

/-- C23: when `ALACDecoder_read_residuals` returns for a residual_count >= 0, the
residual buffer holds at least residual_count values; it holds exactly
residual_count when the counter after every round, i + 1 + b for a round at
index i with a zero-run block of size b, is at most residual_count; every
value at an index >= residual_count is 0; and the buffer is the buffer of a
round that started at an index below residual_count, then that round's one
residual, then the zeros of its block. -/
theorem read_residuals_length (bs bs1 : Bitstream) (residuals out : i_array)
    (residual_count sample_size initial_history history_multiplier maximum_k : Int)
    (hcount : 0 ≤ residual_count)
    (h : ALACDecoder_read_residuals bs residuals residual_count sample_size initial_history
      history_multiplier maximum_k = .ok (out, bs1)) :
    residual_count ≤ (out.length : Int) ∧
    ((∀ s ∈ read_residuals_states residual_count sample_size history_multiplier maximum_k
          residual_count.toNat (read_residuals_start bs initial_history),
        s.i ≤ residual_count) →
      (out.length : Int) = residual_count) ∧
    (∀ t : Nat, residual_count ≤ (t : Int) → t < out.length → out[t]? = some 0) ∧
    (0 < residual_count →
      ∃ (s : residuals_state) (residual : Int) (block : Nat),
        (s = read_residuals_start bs initial_history ∨
          s ∈ read_residuals_states residual_count sample_size history_multiplier maximum_k
            residual_count.toNat (read_residuals_start bs initial_history)) ∧
        s.i < residual_count ∧ (s.residuals.length : Int) = s.i ∧
        out = s.residuals ++ residual :: List.replicate block 0) := by
  obtain ⟨a1, a2, a3, a4⟩ := read_residuals_loop_shape residual_count sample_size
    history_multiplier maximum_k residual_count.toNat
    (read_residuals_start bs initial_history) out bs1 h rfl
    (fun t _ ht => by simp [read_residuals_start] at ht)
  exact ⟨a1, fun hall => a2 hall hcount, a3, a4⟩

/-- C23 on the stream `overshoot_residual_bits` with residual_count = 2: the buffer
has 6 values, the first round ends with the counter at 6, and the values at
the indices 2 to 5 are zeros of its block. -/
theorem read_residuals_length_witness :
    ((0 : Int) ≤ 2 ∧
      ALACDecoder_read_residuals (bitstream_of overshoot_residual_bits) [] 2 16 10 40 14 =
        .ok ([0, 0, 0, 0, 0, 0], { remaining := [], consumed := 6, pushed_back := 0 })) ∧
    (read_residuals_states 2 16 40 14 (2 : Int).toNat
        (read_residuals_start (bitstream_of overshoot_residual_bits) 10)).map
      (fun s => s.i) = [6] ∧
    ((2 : Int) ≤ (([0, 0, 0, 0, 0, 0] : i_array).length : Int) ∧
    ((∀ s ∈ read_residuals_states 2 16 40 14 (2 : Int).toNat
          (read_residuals_start (bitstream_of overshoot_residual_bits) 10),
        s.i ≤ 2) →
      ((([0, 0, 0, 0, 0, 0] : i_array).length : Nat) : Int) = 2) ∧
    (∀ t : Nat, (2 : Int) ≤ (t : Int) → t < ([0, 0, 0, 0, 0, 0] : i_array).length →
      ([0, 0, 0, 0, 0, 0] : i_array)[t]? = some 0) ∧
    ((0 : Int) < 2 →
      ∃ (s : residuals_state) (residual : Int) (block : Nat),
        (s = read_residuals_start (bitstream_of overshoot_residual_bits) 10 ∨
          s ∈ read_residuals_states 2 16 40 14 (2 : Int).toNat
            (read_residuals_start (bitstream_of overshoot_residual_bits) 10)) ∧
        s.i < 2 ∧ (s.residuals.length : Int) = s.i ∧
        ([0, 0, 0, 0, 0, 0] : i_array) = s.residuals ++ residual :: List.replicate block 0)) :=
  ⟨by decide, by decide,
   read_residuals_length (bitstream_of overshoot_residual_bits)
     { remaining := [], consumed := 6, pushed_back := 0 } [] [0, 0, 0, 0, 0, 0] 2 16 10 40 14
     (by decide) (by decide)⟩


/-! ## Every array access of the predictor -/

/-- C24: for a coefficient table of size N >= 1 and a residual buffer of at least
N + 1 values, `ALACDecoder_decode_subframe` returns: none of its reads of
`residuals`, `samples` and the coefficient table is outside the elements
that the array holds at that point (such a read is the only source of the
result `undefined`); the sample buffer then has one sample per residual and
the coefficient table has the size that it had. -/
theorem decode_subframe_in_bounds (samples residuals coefficients : i_array) (q : Int)
    (hN : 1 ≤ coefficients.length) (hL : coefficients.length + 1 ≤ residuals.length) :
    ALACDecoder_decode_subframe samples residuals coefficients q ≠ .error .undefined ∧
    ∃ out coefficients1,
      ALACDecoder_decode_subframe samples residuals coefficients q =
        .ok (out, coefficients1) ∧
      out.length = residuals.length ∧ coefficients1.length = coefficients.length := by
  obtain ⟨_, out, c1, _, hdec, h1, h2, _⟩ :=
    decode_subframe_ok samples residuals coefficients q hN hL
  refine ⟨?_, out, c1, hdec, h1, h2⟩
  rw [hdec]
  intro hc
  cases hc

/-- C24 on the residuals [100, 3, 7, -2, 5, -4] with two coefficients: the call
returns six samples and a table of two coefficients. -/
theorem decode_subframe_in_bounds_witness :
    (1 ≤ ([2, -1] : i_array).length ∧
      ([2, -1] : i_array).length + 1 ≤ ([100, 3, 7, -2, 5, -4] : i_array).length) ∧
    ALACDecoder_decode_subframe [] [100, 3, 7, -2, 5, -4] [2, -1] 1 ≠ .error .undefined ∧
    ∃ out coefficients1,
      ALACDecoder_decode_subframe [] [100, 3, 7, -2, 5, -4] [2, -1] 1 =
        .ok (out, coefficients1) ∧
      out.length = ([100, 3, 7, -2, 5, -4] : i_array).length ∧
      coefficients1.length = ([2, -1] : i_array).length :=
  ⟨by decide,
   decode_subframe_in_bounds [] [100, 3, 7, -2, 5, -4] [2, -1] 1 (by decide) (by decide)⟩


/-! ## LOG2 and the sign of the history -/

/-- LOG2 returns on every `int` that is not negative. -/
theorem LOG2_total (v : Int) (h0 : 0 ≤ v) (h1 : v < 2147483648) : ∃ l, LOG2 v = .ok l := by
  obtain ⟨n, _, hloop, _⟩ := LOG2_loop_spec 32 v (-1) h0
    (by norm_num; omega) (le_refl _) (by norm_num)
  exact ⟨-1 + n, hloop⟩

/-- The value that `ALACDecoder_read_residual` returns for a Rice parameter of at
most 27 and a sample size from 0 to 31 is an `int` that is not negative. -/
theorem read_residual_nonneg {bs bs1 : Bitstream} {k sample_size x : Int}
    (hk : k ≤ 27) (hs0 : 0 ≤ sample_size) (hs1 : sample_size ≤ 31)
    (h : ALACDecoder_read_residual bs k sample_size = .ok (x, bs1)) :
    0 ≤ x ∧ x < 2147483648 := by
  by_cases hs30 : sample_size ≤ 30
  · have := read_residual_range hk hs0 hs30 h
    omega
  · have hs : sample_size = 31 := by omega
    subst hs
    unfold ALACDecoder_read_residual at h
    generalize hu : read_residual_unary 10 0 bs = r at h
    cases r with
    | error e => simp only [] at h; cases h
    | ok p =>
      obtain ⟨u, bs2⟩ := p
      simp only [] at h
      by_cases hesc : u > RICE_THRESHOLD
      · rw [if_pos hesc] at h
        split at h
        · cases h
        · rename_i v bs3 hv
          simp only [Except.ok.injEq, Prod.mk.injEq] at h
          have hlt := read_bits_lt hv
          rw [to_unsigned_of_nonneg (by norm_num) (by norm_num)] at hlt
          have hp : (2 : Nat) ^ (31 : Int).toNat = 2147483648 := by decide
          rw [hp] at hlt
          have hw : wrap32 (v : Int) = v := wrap32_of_in_int32 (by unfold in_int32; omega)
          rw [hw] at h
          omega
      · have h30 : ALACDecoder_read_residual bs k 30 = .ok (x, bs1) := by
          unfold ALACDecoder_read_residual
          rw [hu]
          simp only []
          rw [if_neg hesc]
          rw [if_neg hesc] at h
          exact h
        have := read_residual_range hk (by norm_num) (by norm_num) h30
        omega

/-- The history update without 32-bit overflow, for a multiplier from 0 to 255,
keeps a history that is not negative from becoming negative. -/
theorem update_history_nonneg {history decoded_value history_multiplier : Int}
    (hh0 : 0 ≤ history) (hd0 : 0 ≤ decoded_value)
    (hm0 : 0 ≤ history_multiplier) (hm1 : history_multiplier ≤ 255)
    (hfit : decoded_value ≤ 0xFFFF →
      history_update_without_overflow history decoded_value history_multiplier) :
    0 ≤ update_history history decoded_value history_multiplier := by
  unfold update_history
  split
  · norm_num
  · rename_i hd
    obtain ⟨f1, f2, f3, f4⟩ := hfit (by omega)
    have e1 : 0 ≤ history * history_multiplier := mul_nonneg hh0 hm0
    have e2 : 0 ≤ decoded_value * history_multiplier := mul_nonneg hd0 hm0
    have e3 : 0 ≤ history * (255 - history_multiplier) := mul_nonneg hh0 (by omega)
    have r3 : history * (255 - history_multiplier) =
        255 * history - history * history_multiplier := by ring
    rw [r3] at e3
    have hshr : shr (history * history_multiplier) 9 = history * history_multiplier / 512 := by
      rw [show (9 : Int) = ((9 : Nat) : Int) from rfl, shr_nonneg_count]
      norm_num
    rw [hshr] at f3 f4
    rw [wrap32_of_in_int32 f1, wrap32_of_in_int32 f2, hshr, wrap32_of_in_int32 f3,
      wrap32_of_in_int32 f4]
    generalize history * history_multiplier = p at *
    generalize decoded_value * history_multiplier = d at *
    omega

/-- What holds of the state in which a round of the residual loop starts: the
history is an `int` that is not negative, and `sign_modifier` is 0 or 1. -/
theorem round_start_facts {sample_size history_multiplier maximum_k : Int}
    {s : residuals_state}
    (hm0 : 0 ≤ history_multiplier) (hm1 : history_multiplier ≤ 255)
    (hs0 : 0 ≤ sample_size) (hs1 : sample_size ≤ 31)
    (hh0 : 0 ≤ s.history) (hh1 : s.history < 2147483648)
    (hsm : s.sign_modifier = 0 ∨ s.sign_modifier = 1) :
    0 ≤ wrap32 (shr s.history 9 + 3) ∧
    ∃ log, LOG2 (wrap32 (shr s.history 9 + 3)) = .ok log ∧
      (round_without_overflow sample_size history_multiplier maximum_k s →
        ∀ x bs1, ALACDecoder_read_residual s.bitstream (MIN log maximum_k) sample_size =
            .ok (x, bs1) →
          wrap32 (x + s.sign_modifier) = x + s.sign_modifier ∧
          0 ≤ update_history s.history (wrap32 (x + s.sign_modifier)) history_multiplier ∧
          ∃ log1, LOG2 (update_history s.history (wrap32 (x + s.sign_modifier))
            history_multiplier) = .ok log1) := by
  have hv : shr s.history 9 + 3 = s.history / 512 + 3 := by
    rw [show (9 : Int) = ((9 : Nat) : Int) from rfl, shr_nonneg_count]; norm_num
  have hv0 : 0 ≤ s.history / 512 := Int.ediv_nonneg hh0 (by norm_num)
  have hv1 : s.history / 512 ≤ 4194304 := by omega
  rw [hv, wrap32_of_in_int32 (by unfold in_int32; omega)]
  obtain ⟨log, hlog⟩ := LOG2_total (s.history / 512 + 3) (by omega) (by omega)
  refine ⟨by omega, log, hlog, ?_⟩
  intro hfit x bs1 hx
  obtain ⟨_, _, _, hcase⟩ := LOG2_ok_inv (by omega) hlog
  have l22 : log ≤ 22 := by
    rcases hcase with ⟨_, hl⟩ | ⟨hl0, hlo, _⟩
    · omega
    · by_contra hc
      have : (2 : Int) ^ 23 ≤ 2 ^ log.toNat :=
        pow_le_pow_right₀ (by norm_num) (by omega)
      norm_num at this
      omega
  obtain ⟨x0, _⟩ := read_residual_nonneg
    (le_trans (MIN_le_left _ _) (by omega)) hs0 hs1 hx
  unfold round_without_overflow at hfit
  rw [hv, wrap32_of_in_int32 (by unfold in_int32; omega), hlog] at hfit
  simp only [] at hfit
  rw [hx] at hfit
  simp only [] at hfit
  obtain ⟨f1, f2⟩ := hfit
  have hd : wrap32 (x + s.sign_modifier) = x + s.sign_modifier := wrap32_of_in_int32 f1
  rw [hd]
  have hnn : 0 ≤ update_history s.history (x + s.sign_modifier) history_multiplier :=
    update_history_nonneg hh0 (by omega) hm0 hm1 f2
  exact ⟨rfl, hnn, LOG2_total _ hnn (update_history_in_int32 _ _ _).2⟩

/-- A round without 32-bit overflow keeps the history an `int` that is not
negative and `sign_modifier` 0 or 1. -/
theorem read_residuals_round_nonneg
    {residual_count sample_size history_multiplier maximum_k : Int}
    {s s1 : residuals_state}
    (hm0 : 0 ≤ history_multiplier) (hm1 : history_multiplier ≤ 255)
    (hs0 : 0 ≤ sample_size) (hs1 : sample_size ≤ 31)
    (hh0 : 0 ≤ s.history) (hh1 : s.history < 2147483648)
    (hsm : s.sign_modifier = 0 ∨ s.sign_modifier = 1)
    (hfit : round_without_overflow sample_size history_multiplier maximum_k s)
    (h : read_residuals_round residual_count sample_size history_multiplier maximum_k s =
      .ok s1) :
    0 ≤ s1.history ∧ s1.history < 2147483648 ∧
    (s1.sign_modifier = 0 ∨ s1.sign_modifier = 1) := by
  obtain ⟨_, log, hlog, hrest⟩ := @round_start_facts sample_size history_multiplier
    maximum_k s hm0 hm1 hs0 hs1 hh0 hh1 hsm
  unfold read_residuals_round at h
  rw [hlog] at h
  simp only [] at h
  split at h
  · cases h
  · rename_i x bs1 hx
    obtain ⟨_, hnn, _⟩ := hrest hfit x bs1 hx
    have hint := update_history_in_int32 s.history (wrap32 (x + s.sign_modifier))
      history_multiplier
    split at h
    · split at h
      · cases h
      · split at h
        · cases h
        · simp only [Except.ok.injEq] at h
          subst h
          refine ⟨le_refl _, by norm_num, ?_⟩
          simp only [sign_modifier_after_block]
          split <;> simp
    · simp only [Except.ok.injEq] at h
      subst h
      exact ⟨hnn, hint.2, Or.inl rfl⟩

theorem read_residuals_states_nonneg
    (residual_count sample_size history_multiplier maximum_k : Int)
    (hm0 : 0 ≤ history_multiplier) (hm1 : history_multiplier ≤ 255)
    (hs0 : 0 ≤ sample_size) (hs1 : sample_size ≤ 31) (fuel : Nat) :
    ∀ s0 : residuals_state, 0 ≤ s0.history → s0.history < 2147483648 →
      (s0.sign_modifier = 0 ∨ s0.sign_modifier = 1) →
      (∀ s ∈ s0 :: read_residuals_states residual_count sample_size history_multiplier
          maximum_k fuel s0,
        s.i < residual_count →
        round_without_overflow sample_size history_multiplier maximum_k s) →
      ∀ s ∈ s0 :: read_residuals_states residual_count sample_size history_multiplier
          maximum_k fuel s0,
        0 ≤ s.history ∧ s.history < 2147483648 ∧
        (s.sign_modifier = 0 ∨ s.sign_modifier = 1) := by
  induction fuel with
  | zero =>
    intro s0 h0 h1 hsm _ s hs
    simp [read_residuals_states] at hs
    subst hs
    exact ⟨h0, h1, hsm⟩
  | succ n ih =>
    intro s0 h0 h1 hsm hfit s hs
    rcases List.mem_cons.mp hs with hs | hs
    · subst hs
      exact ⟨h0, h1, hsm⟩
    · rw [read_residuals_states] at hs hfit
      by_cases hg : s0.i < residual_count
      · rw [if_pos hg] at hs hfit
        cases hround : read_residuals_round residual_count sample_size history_multiplier
            maximum_k s0 with
        | error e =>
          rw [hround] at hs
          simp at hs
        | ok s1 =>
          rw [hround] at hs hfit
          simp only [] at hs hfit
          obtain ⟨a0, a1, asm⟩ := read_residuals_round_nonneg hm0 hm1 hs0 hs1 h0 h1 hsm
            (hfit s0 (List.mem_cons_self _ _) hg) hround
          exact ih s1 a0 a1 asm
            (fun s2 hs2 => hfit s2 (List.mem_cons_of_mem _ hs2)) s hs
      · rw [if_neg hg] at hs
        simp at hs

/-- C26: LOG2 returns on every `int` that is not negative; and in the loop of
`ALACDecoder_read_residuals`, for an initial_history that is not negative, a
history_multiplier from 0 to 255 and a sample size from 0 to 31, if no round
that the loop makes overflows 32 bits, then in every state in which the loop
tests its guard the history is not negative, the argument
(history >> 9) + 3 of the first LOG2 call of a round is not negative and the
call returns, and in a round that is made the history after the update is
not negative and LOG2 returns on it. -/
theorem read_residuals_history_nonneg (bs : Bitstream)
    (residual_count sample_size initial_history history_multiplier maximum_k : Int)
    (fuel : Nat)
    (hi0 : 0 ≤ initial_history) (hi1 : initial_history < 2147483648)
    (hm0 : 0 ≤ history_multiplier) (hm1 : history_multiplier ≤ 255)
    (hs0 : 0 ≤ sample_size) (hs1 : sample_size ≤ 31)
    (hfit : ∀ s ∈ read_residuals_start bs initial_history ::
        read_residuals_states residual_count sample_size history_multiplier maximum_k fuel
          (read_residuals_start bs initial_history),
      s.i < residual_count →
      round_without_overflow sample_size history_multiplier maximum_k s) :
    (∀ v : Int, 0 ≤ v → v < 2147483648 → ∃ l, LOG2 v = .ok l) ∧
    ∀ s ∈ read_residuals_start bs initial_history ::
        read_residuals_states residual_count sample_size history_multiplier maximum_k fuel
          (read_residuals_start bs initial_history),
      0 ≤ s.history ∧
      0 ≤ wrap32 (shr s.history 9 + 3) ∧
      ∃ log, LOG2 (wrap32 (shr s.history 9 + 3)) = .ok log ∧
        (s.i < residual_count →
          ∀ x bs1, ALACDecoder_read_residual s.bitstream (MIN log maximum_k) sample_size =
              .ok (x, bs1) →
            0 ≤ update_history s.history (wrap32 (x + s.sign_modifier))
              history_multiplier ∧
            ∃ log1, LOG2 (update_history s.history (wrap32 (x + s.sign_modifier))
              history_multiplier) = .ok log1) := by
  refine ⟨LOG2_total, ?_⟩
  intro s hs
  obtain ⟨a0, a1, asm⟩ := read_residuals_states_nonneg residual_count sample_size
    history_multiplier maximum_k hm0 hm1 hs0 hs1 fuel
    (read_residuals_start bs initial_history) hi0 hi1 (Or.inl rfl) hfit s hs
  obtain ⟨b0, log, hlog, hrest⟩ := @round_start_facts sample_size history_multiplier
    maximum_k s hm0 hm1 hs0 hs1 a0 a1 asm
  refine ⟨a0, b0, log, hlog, ?_⟩
  intro hg x bs1 hx
  obtain ⟨_, c1, c2⟩ := hrest (hfit s hs hg) x bs1 hx
  exact ⟨c1, c2⟩

/-- C26 on the residual bits of scenario S4 with residual_count = 2,
sample_size = 16, initial_history = 10, history_multiplier = 40 and
maximum_k = 14: no round overflows, and the history is 10, then 372810, then
343685. -/
theorem read_residuals_history_nonneg_witness :
    ((0 : Int) ≤ 10 ∧ (10 : Int) < 2147483648 ∧ (0 : Int) ≤ 40 ∧ (40 : Int) ≤ 255 ∧
      (0 : Int) ≤ 16 ∧ (16 : Int) ≤ 31 ∧
      ∀ s ∈ read_residuals_start (bitstream_of scenario_S4_residual_bits) 10 ::
          read_residuals_states 2 16 40 14 2
            (read_residuals_start (bitstream_of scenario_S4_residual_bits) 10),
        s.i < 2 → round_without_overflow 16 40 14 s) ∧
    (read_residuals_start (bitstream_of scenario_S4_residual_bits) 10 ::
        read_residuals_states 2 16 40 14 2
          (read_residuals_start (bitstream_of scenario_S4_residual_bits) 10)).map
      (fun s => s.history) = [10, 372810, 343685] ∧
    ((∀ v : Int, 0 ≤ v → v < 2147483648 → ∃ l, LOG2 v = .ok l) ∧
    ∀ s ∈ read_residuals_start (bitstream_of scenario_S4_residual_bits) 10 ::
        read_residuals_states 2 16 40 14 2
          (read_residuals_start (bitstream_of scenario_S4_residual_bits) 10),
      0 ≤ s.history ∧
      0 ≤ wrap32 (shr s.history 9 + 3) ∧
      ∃ log, LOG2 (wrap32 (shr s.history 9 + 3)) = .ok log ∧
        (s.i < 2 →
          ∀ x bs1, ALACDecoder_read_residual s.bitstream (MIN log 14) 16 = .ok (x, bs1) →
            0 ≤ update_history s.history (wrap32 (x + s.sign_modifier)) 40 ∧
            ∃ log1, LOG2 (update_history s.history (wrap32 (x + s.sign_modifier)) 40) =
              .ok log1)) :=
  ⟨by decide, by decide,
   read_residuals_history_nonneg (bitstream_of scenario_S4_residual_bits) 2 16 10 40 14 2
     (by decide) (by decide) (by decide) (by decide) (by decide) (by decide) (by decide)⟩

end ALAC
